import Mathlib

/-!
# ReferenceLJCoulombIxn: Lennard-Jones + Coulomb reference pair interaction

A shallow embedding of
`platforms/reference/src/SimTKReference/ReferenceLJCoulombIxn.cpp`.

Modelling conventions.

* `RealOpenMM` is an exact ordered field `α` (the theorems take `α = ℝ`), so every
  arithmetic statement below is about exact arithmetic, not about rounding.
* The macros `SQRT` and `POW` of `SimTKOpenMMCommon.h` are not part of the sources;
  every function that uses them takes them as explicit arguments.
* C arrays are lists; an access outside the list is a failed run (`none`).
  A null output pointer is `none` in the corresponding `Option` field.
* `int` values are `Int`; counted `for` loops are `forRange`.
-/

namespace OpenMM

/-! ## Arrays and loops -/

/-- Array read `xs[i]` with a C `int` index; `none` when the index is out of range. -/
def getAt {β : Type} (xs : List β) (i : Int) : Option β :=
  if 0 ≤ i then xs[i.toNat]? else none

/-- Array write `xs[i] = v` with a C `int` index; `none` when the index is out of range. -/
def setAt {β : Type} (xs : List β) (i : Int) (v : β) : Option (List β) :=
  if 0 ≤ i ∧ i.toNat < xs.length then some (xs.set i.toNat v) else none

/-- Runs `body i`, `body (i+1)`, ... for `n` consecutive indices, threading the state and
stopping at the first failure. -/
def forLoop {σ : Type} (body : Int → σ → Option σ) : Nat → Int → σ → Option σ
  | 0, _, s => some s
  | n + 1, i, s => (body i s).bind (forLoop body n (i + 1))

/-- The loop `for (int i = lo; i < hi; i++) body(i)`. -/
def forRange {σ : Type} (lo hi : Int) (body : Int → σ → Option σ) (s : σ) : Option σ :=
  forLoop body (hi - lo).toNat lo s

/-! ## Data -/

/-- Three coordinates (a position, a displacement or a force). -/
structure Vec3 (α : Type) where
  x : α
  y : α
  z : α
  deriving DecidableEq

/-- One row `atomParameters[atomIndex]`, addressed by `SigIndex`, `EpsIndex`, `QIndex`. -/
structure AtomParameters (α : Type) where
  SigIndex : α
  EpsIndex : α
  QIndex : α
  deriving DecidableEq

/-- The `deltaR` record filled by `ReferenceForce::getDeltaR`: the three displacement
components (entries 0..2), the squared length (`R2Index`) and the length (`RIndex`). -/
structure DeltaR (α : Type) where
  d : Vec3 α
  R2Index : α
  RIndex : α
  deriving DecidableEq

/-- The output arguments of the pair computation: the force array, and the two optional
energy outputs (`none` is a null pointer). -/
structure Outputs (α : Type) where
  forces : List (Vec3 α)
  energyByAtom : Option (List α)
  totalEnergy : Option α
  deriving DecidableEq

/-- The member variables of `ReferenceLJCoulombIxn`. The neighbor list, held by pointer in
the source, is the list of atom pairs it points to. -/
structure ReferenceLJCoulombIxn (α : Type) where
  cutoff : Bool
  periodic : Bool
  neighborList : List (Int × Int)
  periodicBoxSize : Vec3 α
  cutoffDistance : α
  krf : α
  crf : α
  deriving DecidableEq

section Defs

variable {α : Type} [LinearOrderedField α] [FloorRing α]

/-! ## Configuration -/

/-- The constructor: `cutoff(false), periodic(false)`; the other members are left
uninitialised, which is modelled by taking their values from an arbitrary `uninit`. -/
def ReferenceLJCoulombIxn.construct (uninit : ReferenceLJCoulombIxn α) :
    ReferenceLJCoulombIxn α :=
  { uninit with cutoff := false, periodic := false }

/-- Source: `ReferenceLJCoulombIxn::setUseCutoff`. -/
def ReferenceLJCoulombIxn.setUseCutoff (POW : α → α → α) (self : ReferenceLJCoulombIxn α)
    (distance : α) (neighbors : List (Int × Int)) (solventDielectric : α) :
    ReferenceLJCoulombIxn α :=
  let s1 := { self with cutoff := true }
  let s2 := { s1 with cutoffDistance := distance }
  let s3 := { s2 with neighborList := neighbors }
  let s4 := { s3 with
    krf := POW s3.cutoffDistance (-3) * (solventDielectric - 1) / (2 * solventDielectric + 1) }
  { s4 with
    crf := (1 / s4.cutoffDistance) * (3 * solventDielectric) / (2 * solventDielectric + 1) }

/-- Source: `ReferenceLJCoulombIxn::setPeriodic`. Each `assert` that fails aborts the call
(`none`); the asserts are evaluated in program order. -/
def ReferenceLJCoulombIxn.setPeriodic (self : ReferenceLJCoulombIxn α) (boxSize : Vec3 α) :
    Option (ReferenceLJCoulombIxn α) :=
  if ¬ (self.cutoff = true) then none
  else if ¬ (boxSize.x ≥ 2 * self.cutoffDistance) then none
  else if ¬ (boxSize.y ≥ 2 * self.cutoffDistance) then none
  else if ¬ (boxSize.z ≥ 2 * self.cutoffDistance) then none
  else
    some { self with periodic := true, periodicBoxSize := ⟨boxSize.x, boxSize.y, boxSize.z⟩ }

/-! ## Derived parameters -/

/-- Source: `ReferenceLJCoulombIxn::getDerivedParameters`; the three entries written to
`parameters` are returned as a record. -/
def getDerivedParameters (SQRT : α → α) (POW : α → α → α) (c6 c12 q1 epsfacSqrt : α) :
    AtomParameters α :=
  let zero : α := 0
  let one : α := 1
  let six : α := 6
  let half : α := 1 / 2
  let oneSixth : α := one / six
  let epsSig : α × α :=
    if c12 ≤ 0 then
      (zero, half)
    else
      let eps := c6 * SQRT (one / c12)
      let sig := POW (c12 / c6) oneSixth
      let sig := sig * half
      (eps, sig)
  { SigIndex := epsSig.2, EpsIndex := epsSig.1, QIndex := epsfacSqrt * q1 }

/-! ## Displacements -/

/-- Modelled from the spec: `ReferenceForce::getDeltaR` is not among the sources. The spec
calls its result the displacement vector between the two particles, with `r` the pair
separation magnitude; the displacement is second argument minus first argument, so that the
call in `calculateOneIxn` yields `x_i - x_j`, the direction in which a positive force factor
pushes particle `i` away from particle `j`. -/
def getDeltaR (SQRT : α → α) (atomCoordinatesI atomCoordinatesJ : Vec3 α) : DeltaR α :=
  let dx := atomCoordinatesJ.x - atomCoordinatesI.x
  let dy := atomCoordinatesJ.y - atomCoordinatesI.y
  let dz := atomCoordinatesJ.z - atomCoordinatesI.z
  let r2 := dx * dx + dy * dy + dz * dz
  { d := ⟨dx, dy, dz⟩, R2Index := r2, RIndex := SQRT r2 }

/-- Modelled from the spec: the minimum-image difference of two coordinates along one axis,
the shortest of all periodic images of `val1 - val2` for the given period. -/
def periodicDifference (val1 val2 period : α) : α :=
  let diff := val1 - val2
  diff - (⌊diff / period + 1 / 2⌋ : α) * period

/-- Modelled from the spec: `ReferenceForce::getDeltaRPeriodic` is not among the sources.
The spec has the displacement computed by the minimum-image convention against
`periodicBoxSize`, axis by axis. -/
def getDeltaRPeriodic (SQRT : α → α) (atomCoordinatesI atomCoordinatesJ boxSize : Vec3 α) :
    DeltaR α :=
  let dx := periodicDifference atomCoordinatesJ.x atomCoordinatesI.x boxSize.x
  let dy := periodicDifference atomCoordinatesJ.y atomCoordinatesI.y boxSize.y
  let dz := periodicDifference atomCoordinatesJ.z atomCoordinatesI.z boxSize.z
  let r2 := dx * dx + dy * dy + dz * dz
  { d := ⟨dx, dy, dz⟩, R2Index := r2, RIndex := SQRT r2 }

/-! ## The pair kernel -/

/-- Component `kk` of a vector. -/
def Vec3.get (v : Vec3 α) (kk : Fin 3) : α :=
  match kk with
  | 0 => v.x
  | 1 => v.y
  | 2 => v.z

/-- The vector with component `kk` replaced by `f` of its old value. -/
def Vec3.modify (v : Vec3 α) (kk : Fin 3) (f : α → α) : Vec3 α :=
  match kk with
  | 0 => { v with x := f v.x }
  | 1 => { v with y := f v.y }
  | 2 => { v with z := f v.z }

/-- The local variable `sig6` of `calculateOneIxn`. -/
def pairSig6 (deltaR : DeltaR α) (pI pJ : AtomParameters α) : α :=
  let one : α := 1
  let inverseR := one / deltaR.RIndex
  let sig := pI.SigIndex + pJ.SigIndex
  let sig2 := inverseR * sig
  let sig2 := sig2 * sig2
  sig2 * sig2 * sig2

/-- The local variable `eps` of `calculateOneIxn`. -/
def pairEps (pI pJ : AtomParameters α) : α :=
  pI.EpsIndex * pJ.EpsIndex

/-- The final value of the local variable `dEdR` of `calculateOneIxn`. -/
def pairDEdR (self : ReferenceLJCoulombIxn α) (deltaR : DeltaR α)
    (pI pJ : AtomParameters α) : α :=
  let one : α := 1
  let six : α := 6
  let twelve : α := 12
  let r2 := deltaR.R2Index
  let inverseR := one / deltaR.RIndex
  let sig6 := pairSig6 deltaR pI pJ
  let eps := pairEps pI pJ
  let dEdR := eps * (twelve * sig6 - six) * sig6
  let dEdR :=
    if self.cutoff then
      dEdR + pI.QIndex * pJ.QIndex * (inverseR - 2 * self.krf * r2)
    else
      dEdR + pI.QIndex * pJ.QIndex * inverseR
  dEdR * (inverseR * inverseR)

/-- The value of the local variable `energy` of `calculateOneIxn` inside the branch taken
when an energy output is requested. -/
def pairEnergy (self : ReferenceLJCoulombIxn α) (deltaR : DeltaR α)
    (pI pJ : AtomParameters α) : α :=
  let one : α := 1
  let r2 := deltaR.R2Index
  let inverseR := one / deltaR.RIndex
  let sig6 := pairSig6 deltaR pI pJ
  let eps := pairEps pI pJ
  let energy :=
    if self.cutoff then
      pI.QIndex * pJ.QIndex * (inverseR + self.krf * r2 - self.crf)
    else
      pI.QIndex * pJ.QIndex * inverseR
  energy + eps * (sig6 - one) * sig6

/-- The displacement record `deltaR[0]` computed at the start of `calculateOneIxn`. -/
def pairDeltaR (SQRT : α → α) (self : ReferenceLJCoulombIxn α) (xI xJ : Vec3 α) : DeltaR α :=
  if self.periodic then
    getDeltaRPeriodic SQRT xJ xI self.periodicBoxSize
  else
    getDeltaR SQRT xJ xI

/-- One pass of the force loop of `calculateOneIxn` for axis `kk`:
`forces[ii][kk] += force; forces[jj][kk] -= force`. -/
def accumulateForce (kk : Fin 3) (force : α) (ii jj : Int) (forces : List (Vec3 α)) :
    Option (List (Vec3 α)) := do
  let fI ← getAt forces ii
  let forces ← setAt forces ii (fI.modify kk (fun a => a + force))
  let fJ ← getAt forces jj
  setAt forces jj (fJ.modify kk (fun a => a - force))

/-- The statements `energyByAtom[ii] += energy; energyByAtom[jj] += energy`. -/
def accumulateEnergyByAtom (energy : α) (ii jj : Int) (energyByAtom : List α) :
    Option (List α) := do
  let eI ← getAt energyByAtom ii
  let energyByAtom ← setAt energyByAtom ii (eI + energy)
  let eJ ← getAt energyByAtom jj
  setAt energyByAtom jj (eJ + energy)

/-- Source: `ReferenceLJCoulombIxn::calculateOneIxn`. The trailing debug block only prints
(and only for `ii = -1`), so it is left out. -/
def calculateOneIxn (SQRT : α → α) (self : ReferenceLJCoulombIxn α) (ii jj : Int)
    (atomCoordinates : List (Vec3 α)) (atomParameters : List (AtomParameters α))
    (out : Outputs α) : Option (Outputs α) := do
  let xJ ← getAt atomCoordinates jj
  let xI ← getAt atomCoordinates ii
  let deltaR := pairDeltaR SQRT self xI xJ
  let pI ← getAt atomParameters ii
  let pJ ← getAt atomParameters jj
  let dEdR := pairDEdR self deltaR pI pJ
  let forces ← accumulateForce 0 (dEdR * deltaR.d.get 0) ii jj out.forces
  let forces ← accumulateForce 1 (dEdR * deltaR.d.get 1) ii jj forces
  let forces ← accumulateForce 2 (dEdR * deltaR.d.get 2) ii jj forces
  if out.totalEnergy.isSome || out.energyByAtom.isSome then
    let energy := pairEnergy self deltaR pI pJ
    let totalEnergy :=
      match out.totalEnergy with
      | some e => some (e + energy)
      | none => none
    match out.energyByAtom with
    | some byAtom =>
      let byAtom ← accumulateEnergyByAtom energy ii jj byAtom
      some { forces := forces, energyByAtom := some byAtom, totalEnergy := totalEnergy }
    | none =>
      some { forces := forces, energyByAtom := none, totalEnergy := totalEnergy }
  else
    some { out with forces := forces }

/-! ## The pair loops -/

/-- The control flow of `ReferenceLJCoulombIxn::calculatePairIxn`, with the call of
`calculateOneIxn` on a pair of atom indices abstracted as `one` acting on a state `σ`, so
that the sequence of kernel invocations can be observed. `calculatePairIxn` below is this
function at `one := calculateOneIxn`.

In exhaustive mode `new int[numberOfAtoms]` fails for a negative count; the scratch array
`exclusionIndices` starts with arbitrary content (`0`) and is then filled with `-1`. -/
def calculatePairIxnWith {σ : Type} (one : Int → Int → σ → Option σ) (cutoff : Bool)
    (neighborList : List (Int × Int)) (numberOfAtoms : Int) (exclusions : List (List Int))
    (s : σ) : Option σ :=
  if cutoff then
    forRange 0 (neighborList.length : Int) (fun i s => do
      let pair ← getAt neighborList i
      one pair.1 pair.2 s) s
  else if numberOfAtoms < 0 then none
  else do
    let exclusionIndices : List Int := List.replicate numberOfAtoms.toNat 0
    let exclusionIndices ← forRange 0 numberOfAtoms
      (fun ii exclusionIndices => setAt exclusionIndices ii (-1)) exclusionIndices
    let r ← forRange 0 numberOfAtoms (fun ii (st : List Int × σ) => do
      let row ← getAt exclusions ii
      let count ← getAt row 0
      let exclusionIndices ← forRange 1 (count + 1) (fun jj exclusionIndices => do
        let e ← getAt row jj
        setAt exclusionIndices e ii) st.1
      let s ← forRange (ii + 1) numberOfAtoms (fun jj s => do
        let owner ← getAt exclusionIndices jj
        if owner ≠ ii then one ii jj s else some s) st.2
      some (exclusionIndices, s)) (exclusionIndices, s)
    some r.2

/-- Source: `ReferenceLJCoulombIxn::calculatePairIxn` (`fixedParameters` is unused). -/
def calculatePairIxn (SQRT : α → α) (self : ReferenceLJCoulombIxn α) (numberOfAtoms : Int)
    (atomCoordinates : List (Vec3 α)) (atomParameters : List (AtomParameters α))
    (exclusions : List (List Int)) (out : Outputs α) : Option (Outputs α) :=
  calculatePairIxnWith
    (fun ii jj out => calculateOneIxn SQRT self ii jj atomCoordinates atomParameters out)
    self.cutoff self.neighborList numberOfAtoms exclusions out

end Defs

/-! ## Specification-side notions -/

/-- The atoms listed in an exclusion row: entry 0 is the count, followed by that many
atom indices. -/
def listedExclusions (row : List Int) : List Int :=
  match row with
  | [] => []
  | count :: rest => rest.take count.toNat

/-- A well-formed exclusion row for `numberOfAtoms` atoms: the count in entry 0, at least
that many entries after it, every listed entry in `[0, numberOfAtoms)`. -/
def rowWellFormed (numberOfAtoms : Int) (row : List Int) : Bool :=
  match row with
  | [] => false
  | count :: rest =>
    decide (count.toNat ≤ rest.length) &&
      (rest.take count.toNat).all (fun e => decide (0 ≤ e) && decide (e < numberOfAtoms))

/-- A well-formed exclusion table: a non-negative atom count and a well-formed row for
every atom. -/
def exclusionsWellFormed (numberOfAtoms : Int) (exclusions : List (List Int)) : Bool :=
  decide (0 ≤ numberOfAtoms) && decide (numberOfAtoms.toNat ≤ exclusions.length) &&
    (exclusions.take numberOfAtoms.toNat).all (rowWellFormed numberOfAtoms)

/-- The pairs `(i, j)` of row `i`: `i < j < n` with `j` not listed in `exclusions[i]`, by
ascending `j`. -/
def rowPairs (n : Nat) (exclusions : List (List Int)) (i : Nat) : List (Int × Int) :=
  ((List.range' (i + 1) (n - (i + 1))).filter (fun (j : Nat) =>
      !((listedExclusions (exclusions.getD i [])).contains (j : Int)))).map
    (fun (j : Nat) => ((i : Int), (j : Int)))

/-- The pairs `(i, j)` with `0 ≤ i < j < n` and `j` not listed in `exclusions[i]`, in
ascending lexicographic order. -/
def exhaustivePairs (n : Nat) (exclusions : List (List Int)) : List (Int × Int) :=
  (List.range n).flatMap (rowPairs n exclusions)

/-- Lexicographic order on index pairs. -/
def pairLt (p q : Int × Int) : Prop :=
  p.1 < q.1 ∨ (p.1 = q.1 ∧ p.2 < q.2)

/-- Folds a fallible kernel over a list of atom pairs, left to right. -/
def foldPairs {σ : Type} (one : Int → Int → σ → Option σ) (pairs : List (Int × Int)) (s : σ) :
    Option σ :=
  pairs.foldlM (fun s p => one p.1 p.2 s) s

/-- A kernel that only records the pair it is invoked on. -/
def recordPair (i j : Int) (log : List (Int × Int)) : Option (List (Int × Int)) :=
  some (log ++ [(i, j)])

/-- The scratch array after the marking loop of row `ii` has run over the entries `es`. -/
def markAll (ii : Int) (es : List Int) (ex : List Int) : List Int :=
  es.foldl (fun ex e => ex.set e.toNat ii) ex

/-- One iteration of the outer loop of exhaustive mode: the marking loop of row `ii`
followed by its pair loop (a name for the loop body inside `calculatePairIxnWith`). -/
def exhaustiveRow {σ : Type} (one : Int → Int → σ → Option σ) (exclusions : List (List Int))
    (numberOfAtoms : Int) (ii : Int) (st : List Int × σ) : Option (List Int × σ) :=
  (getAt exclusions ii).bind fun row =>
    (getAt row 0).bind fun count =>
      (forRange 1 (count + 1)
          (fun jj ex => (getAt row jj).bind fun e => setAt ex e ii) st.1).bind fun ex =>
        (forRange (ii + 1) numberOfAtoms
            (fun jj s => (getAt ex jj).bind
              fun owner => if owner ≠ ii then one ii jj s else some s) st.2).bind fun s =>
          some (ex, s)

/-! ## The pair formulas as the specification writes them -/

section SpecFormulas

variable {α : Type} [LinearOrderedField α]

/-- The force factor in the specification's words: with `invR = 1/r` and
`sig6 = (invR*sigma)^6`, `(eps*(12*sig6 - 6)*sig6 + qq*invR) * invR^2` without cutoff and
`(eps*(12*sig6 - 6)*sig6 + qq*(invR - 2*krf*r^2)) * invR^2` with cutoff. -/
def specForceFactor (cutoff : Bool) (krf r sigma eps qq : α) : α :=
  let invR := 1 / r
  let sig6 := (invR * sigma) ^ 6
  if cutoff then
    (eps * (12 * sig6 - 6) * sig6 + qq * (invR - 2 * krf * r ^ 2)) * invR ^ 2
  else
    (eps * (12 * sig6 - 6) * sig6 + qq * invR) * invR ^ 2

/-- The pair energy in the specification's words: `eps*(sig6 - 1)*sig6 + qq*invR` without
cutoff and `eps*(sig6 - 1)*sig6 + qq*(invR + krf*r^2 - crf)` with cutoff. -/
def specPairEnergy (cutoff : Bool) (krf crf r sigma eps qq : α) : α :=
  let invR := 1 / r
  let sig6 := (invR * sigma) ^ 6
  if cutoff then
    eps * (sig6 - 1) * sig6 + qq * (invR + krf * r ^ 2 - crf)
  else
    eps * (sig6 - 1) * sig6 + qq * invR

/-- The vector `v + c * d`, component by component. -/
def Vec3.addScaled (v : Vec3 α) (c : α) (d : Vec3 α) : Vec3 α :=
  ⟨v.x + c * d.x, v.y + c * d.y, v.z + c * d.z⟩

/-- The vector `v - c * d`, component by component. -/
def Vec3.subScaled (v : Vec3 α) (c : α) (d : Vec3 α) : Vec3 α :=
  ⟨v.x - c * d.x, v.y - c * d.y, v.z - c * d.z⟩

/-- A no-cutoff, non-periodic configuration used in the worked examples. -/
def exampleIxn (α : Type) [LinearOrderedField α] : ReferenceLJCoulombIxn α :=
  { cutoff := false, periodic := false, neighborList := [], periodicBoxSize := ⟨0, 0, 0⟩,
    cutoffDistance := 0, krf := 0, crf := 0 }

/-- Two atoms at distance 1 along the x axis. -/
def exampleCoordinates (α : Type) [LinearOrderedField α] : List (Vec3 α) :=
  [⟨1, 0, 0⟩, ⟨0, 0, 0⟩]

/-- Parameters of the two example atoms: half sigma 1/2, epsilon parameter 1, charges
`+1` and `-1`. -/
def exampleParameters (α : Type) [LinearOrderedField α] : List (AtomParameters α) :=
  [⟨1 / 2, 1, 1⟩, ⟨1 / 2, 1, -1⟩]

/-- Zero forces and zero energies for two atoms, both energy outputs supplied. -/
def exampleOutputs (α : Type) [LinearOrderedField α] : Outputs α :=
  { forces := [⟨0, 0, 0⟩, ⟨0, 0, 0⟩], energyByAtom := some [0, 0], totalEnergy := some 0 }

/-- A cutoff-mode configuration with cutoff distance 1/2 whose neighbor list holds the
pair `(0, 1)`; `krf = 0` and `crf = 2` are the values for solvent dielectric 1. -/
def exampleCutoffIxn (α : Type) [LinearOrderedField α] : ReferenceLJCoulombIxn α :=
  { cutoff := true, periodic := false, neighborList := [(0, 1)],
    periodicBoxSize := ⟨0, 0, 0⟩, cutoffDistance := 1 / 2, krf := 0, crf := 2 }

/-- The force entry of atom `k` after a pair interaction of atoms `i` and `j` with force
factor `dEdR` and displacement `d`: `dEdR * d` is added at `i`, then subtracted at `j`. -/
def forceUpdate (i j : Nat) (dEdR : α) (d : Vec3 α) (k : Nat) (v : Vec3 α) : Vec3 α :=
  let v1 : Vec3 α :=
    if k = i then ⟨v.x + dEdR * d.x, v.y + dEdR * d.y, v.z + dEdR * d.z⟩ else v
  if k = j then ⟨v1.x - dEdR * d.x, v1.y - dEdR * d.y, v1.z - dEdR * d.z⟩ else v1

/-- The per-atom energy entry of atom `k` after `energy` is added at `i`, then at `j`. -/
def energyUpdate (i j : Nat) (energy : α) (k : Nat) (e : α) : α :=
  let e1 : α := if k = i then e + energy else e
  if k = j then e1 + energy else e1

end SpecFormulas

/-! ## Notions used by the claims on configuration, accumulation and well-definedness -/

section MoreSpec

variable {α : Type} [LinearOrderedField α]

/-- The states of a `ReferenceLJCoulombIxn` reachable from construction by a sequence of
successful `setUseCutoff` and `setPeriodic` calls. -/
inductive Reachable (POW : α → α → α) : ReferenceLJCoulombIxn α → Prop
  | construct (uninit : ReferenceLJCoulombIxn α) :
      Reachable POW (ReferenceLJCoulombIxn.construct uninit)
  | setUseCutoff (s : ReferenceLJCoulombIxn α) (distance : α) (neighbors : List (Int × Int))
      (solventDielectric : α) :
      Reachable POW s → Reachable POW (s.setUseCutoff POW distance neighbors solventDielectric)
  | setPeriodic (s s1 : ReferenceLJCoulombIxn α) (boxSize : Vec3 α) :
      Reachable POW s → s.setPeriodic boxSize = some s1 → Reachable POW s1

/-- The stored box satisfies the bound checked by `setPeriodic`: every box dimension is at
least twice the stored cutoff distance. -/
def boxAtLeastTwiceCutoff (s : ReferenceLJCoulombIxn α) : Prop :=
  2 * s.cutoffDistance ≤ s.periodicBoxSize.x ∧ 2 * s.cutoffDistance ≤ s.periodicBoxSize.y ∧
    2 * s.cutoffDistance ≤ s.periodicBoxSize.z

/-- A division whose divisor must not be zero. -/
def checkedDiv (a b : α) : Option α :=
  if b = 0 then none else some (a / b)

/-- A square root whose argument must not be negative. -/
def checkedSqrt (SQRT : α → α) (a : α) : Option α :=
  if a < 0 then none else some (SQRT a)

/-- A power with a fractional exponent, whose base must not be negative. -/
def checkedPow (POW : α → α → α) (a e : α) : Option α :=
  if a < 0 then none else some (POW a e)

/-- Source: `ReferenceLJCoulombIxn::getDerivedParameters`, with the domain of every division,
square root and fractional power made explicit: the result is `none` as soon as the
computation divides by zero or takes the root or the sixth root of a negative number. -/
def getDerivedParametersChecked (SQRT : α → α) (POW : α → α → α) (c6 c12 q1 epsfacSqrt : α) :
    Option (AtomParameters α) := do
  let zero : α := 0
  let one : α := 1
  let six : α := 6
  let half : α := 1 / 2
  let oneSixth ← checkedDiv one six
  let epsSig ←
    if c12 ≤ 0 then
      some (zero, half)
    else do
      let inv ← checkedDiv one c12
      let root ← checkedSqrt SQRT inv
      let eps := c6 * root
      let quot ← checkedDiv c12 c6
      let sig ← checkedPow POW quot oneSixth
      let sig := sig * half
      some (eps, sig)
  some { SigIndex := epsSig.2, EpsIndex := epsSig.1, QIndex := epsfacSqrt * q1 }

/-- Component-wise sum of two vectors. -/
def Vec3.add (a b : Vec3 α) : Vec3 α :=
  ⟨a.x + b.x, a.y + b.y, a.z + b.z⟩

/-- Entry-wise sum of two output records; an energy output is present in the sum when it is
present in both. -/
def Outputs.add (a b : Outputs α) : Outputs α :=
  { forces := List.zipWith Vec3.add a.forces b.forces
    energyByAtom :=
      match a.energyByAtom, b.energyByAtom with
      | some x, some y => some (List.zipWith (fun u v => u + v) x y)
      | _, _ => none
    totalEnergy :=
      match a.totalEnergy, b.totalEnergy with
      | some x, some y => some (x + y)
      | _, _ => none }

/-- The output record of the same shape (array lengths, supplied energy outputs) with every
entry zero. -/
def Outputs.zeroLike (a : Outputs α) : Outputs α :=
  { forces := a.forces.map (fun _ => ⟨0, 0, 0⟩)
    energyByAtom := a.energyByAtom.map (fun e => e.map (fun _ => 0))
    totalEnergy := a.totalEnergy.map (fun _ => 0) }

/-- Two output records have the same shape: equal array lengths and the same energy outputs
supplied. -/
def Outputs.sameShape (a b : Outputs α) : Prop :=
  a.forces.length = b.forces.length ∧
    a.energyByAtom.map List.length = b.energyByAtom.map List.length ∧
    a.totalEnergy.isSome = b.totalEnergy.isSome

/-- The output record with both energy outputs withdrawn (null pointers). -/
def Outputs.withoutEnergy (a : Outputs α) : Outputs α :=
  { forces := a.forces, energyByAtom := none, totalEnergy := none }

/-- The coordinate array with atom `m` moved by `shift` along axis `kk`. -/
def translateAtom (atomCoordinates : List (Vec3 α)) (m : Nat) (kk : Fin 3) (shift : α) :
    List (Vec3 α) :=
  atomCoordinates.mapIdx (fun k v => if k = m then v.modify kk (fun a => a + shift) else v)

/-- Modelled from the spec: `OpenCLParallelCalcForcesAndEnergyKernel::finishComputation`, of
which only the declaration is among the sources. The spec has it call finish on every device
kernel in ascending device index, each call returning that device's local energy, and sum
the returned energies into the total in that same order; a failing device kernel aborts the
round. A device kernel's finish is a function on the shared context `κ` returning the local
energy and the new context, or `none` when it fails. -/
def finishComputation {κ : Type} (kernels : List (κ → Bool → Bool → Option (α × κ)))
    (context : κ) (includeForce includeEnergy : Bool) : Option (α × κ) :=
  forRange 0 (kernels.length : Int) (fun i (st : α × κ) => do
    let kernel ← getAt kernels i
    let r ← kernel st.2 includeForce includeEnergy
    some (st.1 + r.1, r.2)) (0, context)

/-- A device kernel that returns the local energy `e` and records its device index `d` in
the context. -/
def recordingKernel (d : Nat) (e : α) (log : List Nat) (_includeForce _includeEnergy : Bool) :
    Option (α × List Nat) :=
  some (e, log ++ [d])

/-- The derived parameters of the concrete scenario of the specification: `c6 = 1e-3`,
`c12 = 1e-6`, charge `q`, `epsfacSqrt = 1`. -/
def scenarioParameters (SQRT : α → α) (POW : α → α → α) (q : α) : AtomParameters α :=
  getDerivedParameters SQRT POW (1 / 1000) (1 / 1000000) q 1

/-- The atom indices `ii`, `jj` lie inside every array that `calculateOneIxn` accesses. -/
def pairInRange (ii jj : Int) (atomCoordinates : List (Vec3 α))
    (atomParameters : List (AtomParameters α)) (out : Outputs α) : Prop :=
  0 ≤ ii ∧ 0 ≤ jj ∧ ii.toNat < atomCoordinates.length ∧ jj.toNat < atomCoordinates.length ∧
    ii.toNat < atomParameters.length ∧ jj.toNat < atomParameters.length ∧
    ii.toNat < out.forces.length ∧ jj.toNat < out.forces.length ∧
    ∀ byAtom, out.energyByAtom = some byAtom →
      ii.toNat < byAtom.length ∧ jj.toNat < byAtom.length

/-- A periodic cutoff-mode configuration with box `(2, 2, 2)` and cutoff distance 1. -/
def examplePeriodicIxn (α : Type) [LinearOrderedField α] : ReferenceLJCoulombIxn α :=
  { cutoff := true, periodic := true, neighborList := [(0, 1)],
    periodicBoxSize := ⟨2, 2, 2⟩, cutoffDistance := 1, krf := 0, crf := 3 }

/-- The value `v` at position `k` after `a` has been added at position `i`. -/
def pointUpdate (i : Nat) (a : α) (k : Nat) (v : α) : α :=
  if k = i then v + a else v

/-- The sum over all particles of each force component. -/
def totalForce (forces : List (Vec3 α)) : Vec3 α :=
  ⟨(forces.map (fun v => v.x)).sum, (forces.map (fun v => v.y)).sum,
    (forces.map (fun v => v.z)).sum⟩

/-- The displacement record of two particles at separation `r` along the x axis: length `r`
and squared length `r*r`. -/
def separationRecord (r : α) : DeltaR α :=
  { d := ⟨r, 0, 0⟩, R2Index := r * r, RIndex := r }

/-- The pair energy computed by `calculateOneIxn`, as a function of the separation `r`. -/
def energyAtSeparation (self : ReferenceLJCoulombIxn α) (pI pJ : AtomParameters α) (r : α) : α :=
  pairEnergy self (separationRecord r) pI pJ

/-- The force factor computed by `calculateOneIxn`, as a function of the separation `r`. -/
def forceFactorAtSeparation (self : ReferenceLJCoulombIxn α) (pI pJ : AtomParameters α)
    (r : α) : α :=
  pairDEdR self (separationRecord r) pI pJ

/-- A cutoff-mode configuration whose neighbor list repeats the pair `(0, 1)` and holds the
pair of atom 1 with itself. -/
def exampleRepeatIxn (α : Type) [LinearOrderedField α] : ReferenceLJCoulombIxn α :=
  { cutoff := true, periodic := false, neighborList := [(0, 1), (0, 1), (1, 1)],
    periodicBoxSize := ⟨0, 0, 0⟩, cutoffDistance := 1 / 2, krf := 0, crf := 2 }

/-- A cutoff-mode configuration whose neighbor list holds the pair `(0, 1)` twice. -/
def exampleRepeatedPairIxn (α : Type) [LinearOrderedField α] : ReferenceLJCoulombIxn α :=
  { cutoff := true, periodic := false, neighborList := [(0, 1), (0, 1)],
    periodicBoxSize := ⟨0, 0, 0⟩, cutoffDistance := 1 / 2, krf := 0, crf := 2 }

/-- Source: `ReferenceLJCoulombIxn::calculateOneIxn`, with the domain of its one division
`one/(deltaR[0][RIndex])` made explicit: the result is `none` when the separation of the two
atoms is zero, since `inverseR` and every value computed from it (the force factor, the
three force contributions `dEdR*deltaR[0][kk]`, the energy) is then undefined; for a nonzero
separation `inverseR` is the quotient and the body is that of `calculateOneIxn`. -/
def calculateOneIxnChecked [FloorRing α] (SQRT : α → α) (self : ReferenceLJCoulombIxn α)
    (ii jj : Int) (atomCoordinates : List (Vec3 α)) (atomParameters : List (AtomParameters α))
    (out : Outputs α) : Option (Outputs α) := do
  let xJ ← getAt atomCoordinates jj
  let xI ← getAt atomCoordinates ii
  let deltaR := pairDeltaR SQRT self xI xJ
  let one : α := 1
  let _inverseR ← checkedDiv one deltaR.RIndex
  calculateOneIxn SQRT self ii jj atomCoordinates atomParameters out

/-- Source: `ReferenceLJCoulombIxn::calculatePairIxn`, with the division of the pair kernel
checked: the pair loops of `calculatePairIxnWith` around `calculateOneIxnChecked`. -/
def calculatePairIxnChecked [FloorRing α] (SQRT : α → α) (self : ReferenceLJCoulombIxn α)
    (numberOfAtoms : Int) (atomCoordinates : List (Vec3 α))
    (atomParameters : List (AtomParameters α)) (exclusions : List (List Int))
    (out : Outputs α) : Option (Outputs α) :=
  calculatePairIxnWith
    (fun ii jj out =>
      calculateOneIxnChecked SQRT self ii jj atomCoordinates atomParameters out)
    self.cutoff self.neighborList numberOfAtoms exclusions out

end MoreSpec

/-! ## Basic facts about arrays and loops -/

theorem getAt_natCast {β : Type} (xs : List β) (k : Nat) : getAt xs (k : Int) = xs[k]? := by
  simp [getAt]

theorem getAt_of_lt {β : Type} (xs : List β) (k : Nat) (h : k < xs.length) :
    getAt xs (k : Int) = some xs[k] := by
  simp [getAt, List.getElem?_eq_getElem h]

theorem setAt_natCast {β : Type} (xs : List β) (k : Nat) (v : β) (h : k < xs.length) :
    setAt xs (k : Int) v = some (xs.set k v) := by
  simp [setAt, h]

theorem forLoop_succ {σ : Type} (body : Int → σ → Option σ) (n : Nat) (i : Int) (s : σ) :
    forLoop body (n + 1) i s = (body i s).bind (forLoop body n (i + 1)) := rfl

theorem foldPairs_nil {σ : Type} (one : Int → Int → σ → Option σ) (s : σ) :
    foldPairs one [] s = some s := rfl

theorem foldPairs_cons {σ : Type} (one : Int → Int → σ → Option σ) (p : Int × Int)
    (ps : List (Int × Int)) (s : σ) :
    foldPairs one (p :: ps) s = (one p.1 p.2 s).bind (foldPairs one ps) := by
  simp [foldPairs, List.foldlM_cons]

theorem foldPairs_append {σ : Type} (one : Int → Int → σ → Option σ)
    (ps qs : List (Int × Int)) (s : σ) :
    foldPairs one (ps ++ qs) s = (foldPairs one ps s).bind (foldPairs one qs) := by
  induction ps generalizing s with
  | nil => simp [foldPairs_nil]
  | cons p ps ih =>
    rw [List.cons_append, foldPairs_cons, foldPairs_cons]
    cases h : one p.1 p.2 s with
    | none => simp
    | some s1 => simp [ih]

/-- The neighbor-list loop of cutoff mode visits the list entries from position
`pre.length` on, in order. -/
theorem forLoop_neighborList {σ : Type} (one : Int → Int → σ → Option σ) :
    ∀ (rest pre : List (Int × Int)) (s : σ),
      forLoop (fun i s => (getAt (pre ++ rest) i).bind (fun pair => one pair.1 pair.2 s))
        rest.length (pre.length : Int) s = foldPairs one rest s := by
  intro rest
  induction rest with
  | nil => intro pre s; rfl
  | cons p rest ih =>
    intro pre s
    rw [List.length_cons, forLoop_succ, foldPairs_cons, getAt_natCast]
    have h1 : (pre ++ p :: rest)[pre.length]? = some p := by
      rw [List.getElem?_append_right (Nat.le_refl _)]
      simp
    rw [h1]
    have h2 : pre ++ p :: rest = (pre ++ [p]) ++ rest := by simp
    have h3 : ((pre.length : Int) + 1) = ((pre ++ [p]).length : Int) := by simp
    simp only [Option.some_bind]
    congr 1
    funext s1
    rw [h2, h3]
    exact ih (pre ++ [p]) s1

/-- The initialisation loop fills the scratch array with `-1`. -/
theorem forLoop_init :
    ∀ (k lo : Nat) (ex : List Int), lo + k ≤ ex.length →
      ∃ ex1, forLoop (fun ii ex => setAt ex ii (-1)) k (lo : Int) ex = some ex1 ∧
        ex1.length = ex.length ∧
        ∀ j, ex1.getD j (-1) = if lo ≤ j ∧ j < lo + k then -1 else ex.getD j (-1) := by
  intro k
  induction k with
  | zero =>
    intro lo ex _
    refine ⟨ex, rfl, rfl, ?_⟩
    intro j
    have : ¬ (lo ≤ j ∧ j < lo + 0) := by omega
    rw [if_neg this]
  | succ k ih =>
    intro lo ex h
    have hlo : lo < ex.length := by omega
    rw [forLoop_succ, setAt_natCast ex lo (-1) hlo]
    simp only [Option.some_bind]
    have hc : ((lo : Int) + 1) = ((lo + 1 : Nat) : Int) := by push_cast; rfl
    rw [hc]
    obtain ⟨ex1, h1, h2, h3⟩ := ih (lo + 1) (ex.set lo (-1)) (by simp; omega)
    refine ⟨ex1, h1, by simpa using h2, ?_⟩
    intro j
    rw [h3 j]
    by_cases hj : j = lo
    · subst hj
      have a1 : ¬ (j + 1 ≤ j ∧ j < j + 1 + k) := by omega
      have a2 : (j ≤ j ∧ j < j + (k + 1)) := by omega
      simp [a1, a2, List.getD_eq_getElem?_getD, List.getElem?_set, hlo]
    · have a3 : (lo + 1 ≤ j ∧ j < lo + 1 + k) ↔ (lo ≤ j ∧ j < lo + (k + 1)) := by omega
      have a4 : lo ≠ j := fun h => hj h.symm
      simp [a3, List.getD_eq_getElem?_getD, List.getElem?_set_ne a4]

theorem markAll_length (ii : Int) : ∀ (es ex : List Int),
    (markAll ii es ex).length = ex.length := by
  intro es
  induction es with
  | nil => intro ex; rfl
  | cons e es ih =>
    intro ex
    show (markAll ii es (ex.set e.toNat ii)).length = ex.length
    rw [ih]; simp

theorem markAll_getD (ii : Int) : ∀ (es ex : List Int),
    (∀ e ∈ es, 0 ≤ e ∧ e < (ex.length : Int)) → ∀ j : Nat,
      (markAll ii es ex).getD j (-1) = if (j : Int) ∈ es then ii else ex.getD j (-1) := by
  intro es
  induction es with
  | nil => intro ex _ j; simp [markAll]
  | cons e es ih =>
    intro ex h j
    have he := h e (List.mem_cons_self e es)
    have hes : ∀ e1 ∈ es, 0 ≤ e1 ∧ e1 < ((ex.set e.toNat ii).length : Int) := by
      intro e1 h1
      simpa using h e1 (List.mem_cons_of_mem e h1)
    show (markAll ii es (ex.set e.toNat ii)).getD j (-1) = _
    rw [ih (ex.set e.toNat ii) hes j]
    have hlt : e.toNat < ex.length := by omega
    by_cases hj : (j : Int) = e
    · have hj2 : e.toNat = j := by omega
      subst hj2
      simp [hj, List.getD_eq_getElem?_getD, List.getElem?_set, hlt]
    · have hj2 : e.toNat ≠ j := by omega
      simp [hj, List.getD_eq_getElem?_getD, List.getElem?_set_ne hj2]

/-- The marking loop of row `ii` writes `ii` at every listed entry. -/
theorem forLoop_mark (ii : Int) (row : List Int) :
    ∀ (k lo : Nat) (ex : List Int), lo + k ≤ row.length →
      (∀ e ∈ (row.drop lo).take k, 0 ≤ e ∧ e < (ex.length : Int)) →
      forLoop (fun jj ex => (getAt row jj).bind (fun e => setAt ex e ii)) k (lo : Int) ex
        = some (markAll ii ((row.drop lo).take k) ex) := by
  intro k
  induction k with
  | zero => intro lo ex _ _; simp [forLoop, markAll]
  | succ k ih =>
    intro lo ex hlen hall
    have hlo : lo < row.length := by omega
    have hd : row.drop lo = row[lo] :: row.drop (lo + 1) := by
      exact List.drop_eq_getElem_cons hlo
    rw [hd, List.take_succ_cons] at hall
    rw [hd, List.take_succ_cons, forLoop_succ, getAt_of_lt row lo hlo]
    have he := hall _ (List.mem_cons_self _ _)
    have hset : setAt ex (row[lo]) ii = some (ex.set (row[lo]).toNat ii) := by
      have : (row[lo]).toNat < ex.length := by omega
      simp only [setAt, he.1, this, and_self, if_true]
    simp only [Option.some_bind, hset]
    have hc : ((lo : Int) + 1) = ((lo + 1 : Nat) : Int) := by push_cast; rfl
    rw [hc, ih (lo + 1) _ (by omega)]
    · rfl
    · intro e1 h1
      simpa using hall e1 (List.mem_cons_of_mem _ h1)

/-- The pair loop of row `ii` invokes the kernel on the unmarked `jj`, by ascending `jj`. -/
theorem forLoop_inner {σ : Type} (one : Int → Int → σ → Option σ) (ii : Int) (ex : List Int) :
    ∀ (k lo : Nat) (s : σ), lo + k ≤ ex.length →
      forLoop (fun jj s => (getAt ex jj).bind
          (fun owner => if owner ≠ ii then one ii jj s else some s)) k (lo : Int) s
        = foldPairs one
            (((List.range' lo k).filter (fun (j : Nat) => decide (ex.getD j (-1) ≠ ii))).map
              (fun (j : Nat) => (ii, (j : Int)))) s := by
  intro k
  induction k with
  | zero => intro lo s _; rfl
  | succ k ih =>
    intro lo s hlen
    have hlo : lo < ex.length := by omega
    have hc : ((lo : Int) + 1) = ((lo + 1 : Nat) : Int) := by push_cast; rfl
    have hg : ex.getD lo (-1) = ex[lo] := by
      simp [List.getD_eq_getElem?_getD, List.getElem?_eq_getElem hlo]
    rw [forLoop_succ, getAt_of_lt ex lo hlo, List.range'_succ, List.filter_cons, hg, hc]
    simp only [Option.some_bind]
    by_cases h : ex[lo] ≠ ii
    · have hd : decide (ex[lo] ≠ ii) = true := decide_eq_true h
      rw [if_pos h, if_pos hd, List.map_cons, foldPairs_cons]
      congr 1
      funext s1
      exact ih (lo + 1) s1 (by omega)
    · have hd : ¬ (decide (ex[lo] ≠ ii) = true) := by simpa using h
      rw [if_neg h, if_neg hd, Option.some_bind]
      exact ih (lo + 1) s (by omega)

theorem rowWellFormed_cons (numberOfAtoms : Int) (row : List Int)
    (h : rowWellFormed numberOfAtoms row = true) :
    ∃ count rest, row = count :: rest ∧ count.toNat ≤ rest.length ∧
      ∀ e ∈ rest.take count.toNat, 0 ≤ e ∧ e < numberOfAtoms := by
  cases row with
  | nil => simp [rowWellFormed] at h
  | cons count rest =>
    refine ⟨count, rest, rfl, ?_⟩
    simpa [rowWellFormed] using h

theorem exclusionsWellFormed_row (numberOfAtoms : Int) (exclusions : List (List Int))
    (h : exclusionsWellFormed numberOfAtoms exclusions = true) :
    0 ≤ numberOfAtoms ∧ ∀ i : Nat, i < numberOfAtoms.toNat →
      ∃ row, exclusions[i]? = some row ∧ rowWellFormed numberOfAtoms row = true := by
  simp only [exclusionsWellFormed, Bool.and_eq_true, decide_eq_true_eq, List.all_eq_true] at h
  obtain ⟨⟨h0, hlen⟩, hall⟩ := h
  refine ⟨h0, ?_⟩
  intro i hi
  have hil : i < exclusions.length := by omega
  refine ⟨exclusions[i], List.getElem?_eq_getElem hil, ?_⟩
  apply hall
  have hit : i < (exclusions.take numberOfAtoms.toNat).length := by
    simp; omega
  have := List.getElem_mem hit
  simpa using this

theorem exhaustiveRow_eq {σ : Type} (one : Int → Int → σ → Option σ)
    (exclusions : List (List Int)) (n i : Nat) (row : List Int) (ex : List Int) (s : σ)
    (hi : i < n) (hrow : exclusions[i]? = some row) (hwf : rowWellFormed (n : Int) row = true)
    (hlen : ex.length = n) (hlt : ∀ j : Nat, ex.getD j (-1) < (i : Int)) :
    exhaustiveRow one exclusions (n : Int) (i : Int) (ex, s)
      = (foldPairs one (rowPairs n exclusions i) s).map
          (fun s1 => (markAll (i : Int) (listedExclusions row) ex, s1)) := by
  obtain ⟨count, rest, hr, hc, hall⟩ := rowWellFormed_cons _ _ hwf
  subst hr
  have hmark : forLoop (fun jj ex => (getAt (count :: rest) jj).bind fun e => setAt ex e (i : Int))
      count.toNat 1 ex = some (markAll (i : Int) (rest.take count.toNat) ex) :=
    forLoop_mark (i : Int) (count :: rest) count.toNat 1 ex
      (by simp; omega) (by simpa [hlen] using hall)
  have hk : (count + 1 - 1).toNat = count.toNat := by simp
  have hinner := forLoop_inner one (i : Int) (markAll (i : Int) (rest.take count.toNat) ex)
    (n - (i + 1)) (i + 1) s (by rw [markAll_length]; omega)
  have hk2 : ((n : Int) - ((i : Int) + 1)).toNat = n - (i + 1) := by omega
  have hfilter : (List.range' (i + 1) (n - (i + 1))).filter
        (fun (j : Nat) => decide ((markAll (i : Int) (rest.take count.toNat) ex).getD j (-1)
          ≠ (i : Int)))
      = (List.range' (i + 1) (n - (i + 1))).filter (fun (j : Nat) =>
          !((listedExclusions (exclusions.getD i [])).contains (j : Int))) := by
    apply List.filter_congr
    intro j _
    rw [markAll_getD (i : Int) _ ex (by simpa [hlen] using hall) j]
    have hl : listedExclusions (exclusions.getD i []) = rest.take count.toNat := by
      simp [List.getD_eq_getElem?_getD, hrow, listedExclusions]
    rw [hl]
    by_cases hm : (j : Int) ∈ rest.take count.toNat
    · simp [hm]
    · have := hlt j
      have hne : ex.getD j (-1) ≠ (i : Int) := by omega
      rw [if_neg hm]
      have hne2 : ¬ ex[j]?.getD (-1) = (i : Int) := by
        simpa [List.getD_eq_getElem?_getD] using hne
      simp [hm, hne2]
  unfold exhaustiveRow
  rw [getAt_natCast, hrow]
  simp only [Option.some_bind]
  have h0 : getAt (count :: rest) 0 = some count := by simp [getAt]
  rw [h0]
  simp only [Option.some_bind, forRange, hk, hk2]
  have hc2 : ((i : Int) + 1) = ((i + 1 : Nat) : Int) := by push_cast; rfl
  rw [hmark]
  simp only [Option.some_bind]
  rw [hc2, hinner, hfilter]
  simp only [listedExclusions, rowPairs]
  cases foldPairs one _ s <;> rfl

/-- The outer loop of exhaustive mode, started at row `lo` with a scratch array whose
entries are all below `lo`, runs the kernel over the pairs of rows `lo, lo+1, ...`. -/
theorem forLoop_exhaustive {σ : Type} (one : Int → Int → σ → Option σ)
    (exclusions : List (List Int)) (n : Nat)
    (hwf : ∀ i : Nat, i < n → ∃ row, exclusions[i]? = some row ∧
      rowWellFormed (n : Int) row = true) :
    ∀ (k lo : Nat) (ex : List Int) (s : σ), lo + k = n → ex.length = n →
      (∀ j : Nat, ex.getD j (-1) < (lo : Int)) →
      (forLoop (exhaustiveRow one exclusions (n : Int)) k (lo : Int) (ex, s)).map Prod.snd
        = foldPairs one ((List.range' lo k).flatMap (rowPairs n exclusions)) s := by
  intro k
  induction k with
  | zero => intro lo ex s _ _ _; rfl
  | succ k ih =>
    intro lo ex s hk hlen hlt
    obtain ⟨row, hrow, hrw⟩ := hwf lo (by omega)
    obtain ⟨count, rest, hr, hc, hall⟩ := rowWellFormed_cons _ _ hrw
    rw [forLoop_succ, exhaustiveRow_eq one exclusions n lo row ex s (by omega) hrow hrw hlen hlt,
      List.range'_succ, List.flatMap_cons, foldPairs_append]
    cases hf : foldPairs one (rowPairs n exclusions lo) s with
    | none => rfl
    | some s1 =>
      simp only [Option.map_some', Option.some_bind]
      have hc2 : ((lo : Int) + 1) = ((lo + 1 : Nat) : Int) := by push_cast; rfl
      rw [hc2]
      apply ih (lo + 1) _ s1 (by omega) (by rw [markAll_length]; exact hlen)
      intro j
      subst hr
      rw [markAll_getD (lo : Int) _ ex (by simpa [listedExclusions, hlen] using hall) j]
      have := hlt j
      split <;> push_cast <;> omega

theorem mem_rowPairs (n : Nat) (exclusions : List (List Int)) (a : Nat) (p : Int × Int) :
    p ∈ rowPairs n exclusions a ↔
      ∃ b : Nat, a < b ∧ b < n ∧ (b : Int) ∉ listedExclusions (exclusions.getD a []) ∧
        p = ((a : Int), (b : Int)) := by
  have hcont : ∀ (l : List Int) (b : Int), (l.contains b = true) ↔ b ∈ l := by
    intro l b; simp
  simp only [rowPairs, List.mem_map, List.mem_filter, List.mem_range'_1, Bool.not_eq_true',
    Bool.eq_false_iff, ne_eq, hcont]
  constructor
  · rintro ⟨b, ⟨⟨h1, h2⟩, h3⟩, h4⟩
    exact ⟨b, by omega, by omega, h3, h4.symm⟩
  · rintro ⟨b, h1, h2, h3, h4⟩
    exact ⟨b, ⟨⟨by omega, by omega⟩, h3⟩, h4.symm⟩

theorem mem_exhaustivePairs (n : Nat) (exclusions : List (List Int)) (i j : Int) :
    (i, j) ∈ exhaustivePairs n exclusions ↔
      0 ≤ i ∧ i < j ∧ j < (n : Int) ∧ j ∉ listedExclusions (exclusions.getD i.toNat []) := by
  simp only [exhaustivePairs, List.mem_flatMap, List.mem_range, mem_rowPairs, Prod.mk.injEq]
  constructor
  · rintro ⟨a, ha, b, hab, hb, hnot, rfl, rfl⟩
    refine ⟨by omega, by omega, by omega, ?_⟩
    simpa using hnot
  · rintro ⟨h0, hij, hjn, hnot⟩
    refine ⟨i.toNat, by omega, j.toNat, by omega, by omega, ?_, by omega, by omega⟩
    have hj : ((j.toNat : Nat) : Int) = j := by omega
    rw [hj]
    exact hnot

theorem pairwise_exhaustivePairs (n : Nat) (exclusions : List (List Int)) :
    (exhaustivePairs n exclusions).Pairwise pairLt := by
  unfold exhaustivePairs
  rw [List.pairwise_flatMap]
  constructor
  · intro a _
    unfold rowPairs
    rw [List.pairwise_map]
    apply List.Pairwise.filter
    apply (List.pairwise_lt_range' (a + 1) (n - (a + 1))).imp
    intro b c hbc
    right
    exact ⟨rfl, by simpa using hbc⟩
  · apply (List.pairwise_lt_range n).imp
    intro a b hab p hp q hq
    rw [mem_rowPairs] at hp hq
    obtain ⟨_, _, _, _, rfl⟩ := hp
    obtain ⟨_, _, _, _, rfl⟩ := hq
    left
    simpa using hab

theorem calculatePairIxnWith_exhaustive {σ : Type} (one : Int → Int → σ → Option σ)
    (neighborList : List (Int × Int)) (numberOfAtoms : Int) (exclusions : List (List Int))
    (s : σ) (hwf : exclusionsWellFormed numberOfAtoms exclusions = true) :
    calculatePairIxnWith one false neighborList numberOfAtoms exclusions s
      = foldPairs one (exhaustivePairs numberOfAtoms.toNat exclusions) s := by
  obtain ⟨h0, hrows⟩ := exclusionsWellFormed_row _ _ hwf
  obtain ⟨n, rfl⟩ := Int.eq_ofNat_of_zero_le h0
  simp only [Int.toNat_ofNat] at hrows ⊢
  obtain ⟨ex1, hinit, hlen1, hget1⟩ := forLoop_init n 0 (List.replicate n 0) (by simp)
  have hlt : ∀ j : Nat, ex1.getD j (-1) < ((0 : Nat) : Int) := by
    intro j
    rw [hget1 j]
    by_cases hj : j < n
    · have : (0 ≤ j ∧ j < 0 + n) := by omega
      rw [if_pos this]; decide
    · have : ¬ (0 ≤ j ∧ j < 0 + n) := by omega
      rw [if_neg this]
      simp [List.getD_eq_getElem?_getD, List.getElem?_replicate, hj]
  have houter := forLoop_exhaustive one exclusions n hrows n 0 ex1 s (by omega)
    (by simpa using hlen1) hlt
  have hneg : ¬ ((n : Int) < 0) := by omega
  unfold calculatePairIxnWith
  simp only [Bool.false_eq_true, if_false, hneg, forRange, bind, Int.sub_zero, Int.toNat_ofNat]
  have hinit2 : forLoop (fun ii ex => setAt ex ii (-1)) n 0 (List.replicate n 0) = some ex1 :=
    hinit
  rw [hinit2]
  simp only [Option.some_bind]
  rw [exhaustivePairs, List.range_eq_range', ← houter]
  show (forLoop (exhaustiveRow one exclusions (n : Int)) n ((0 : Nat) : Int) (ex1, s)).bind
      (fun a => some a.2) = _
  generalize forLoop (exhaustiveRow one exclusions (n : Int)) n ((0 : Nat) : Int) (ex1, s) = r
  cases r <;> rfl

/-! ## The effect of one kernel call -/

section Kernel

variable {α : Type} [LinearOrderedField α]

theorem accumulateForce_eq (kk : Fin 3) (force : α) (i j : Nat) (forces : List (Vec3 α))
    (hi : i < forces.length) (hj : j < forces.length) :
    accumulateForce kk force (i : Int) (j : Int) forces
      = some (forces.mapIdx (fun k v =>
          (if k = j then fun (w : Vec3 α) => w.modify kk (fun a => a - force) else id)
            ((if k = i then fun (w : Vec3 α) => w.modify kk (fun a => a + force) else id) v))) := by
  have hj2 : j < (forces.set i (forces[i].modify kk (fun a => a + force))).length := by
    simpa using hj
  simp only [accumulateForce, bind, getAt_of_lt forces i hi, Option.some_bind,
    setAt_natCast forces i _ hi, getAt_of_lt _ j hj2, setAt_natCast _ j _ hj2]
  congr 1
  apply List.ext_getElem?
  intro k
  rw [List.getElem?_mapIdx]
  by_cases hkj : k = j
  · subst hkj
    rw [List.getElem?_set_self hj2, List.getElem?_eq_getElem hj]
    by_cases hki : k = i
    · subst hki; simp
    · have hik : i ≠ k := fun h => hki h.symm
      simp [hki, List.getElem_set_ne hik]
  · have hjk : j ≠ k := fun h => hkj h.symm
    rw [List.getElem?_set_ne hjk]
    by_cases hki : k = i
    · subst hki
      rw [List.getElem?_set_self hi, List.getElem?_eq_getElem hi]
      simp [hkj]
    · have hik : i ≠ k := fun h => hki h.symm
      rw [List.getElem?_set_ne hik]
      cases forces[k]? <;> simp [hkj, hki]

theorem accumulateForce_three (dEdR : α) (d : Vec3 α) (i j : Nat) (forces : List (Vec3 α))
    (hi : i < forces.length) (hj : j < forces.length) :
    ((accumulateForce 0 (dEdR * d.get 0) (i : Int) (j : Int) forces).bind fun f0 =>
      (accumulateForce 1 (dEdR * d.get 1) (i : Int) (j : Int) f0).bind fun f1 =>
        accumulateForce 2 (dEdR * d.get 2) (i : Int) (j : Int) f1)
      = some (forces.mapIdx (forceUpdate i j dEdR d)) := by
  rw [accumulateForce_eq 0 _ i j forces hi hj]
  simp only [Option.some_bind]
  rw [accumulateForce_eq 1 _ i j _ (by simpa using hi) (by simpa using hj)]
  simp only [Option.some_bind]
  rw [accumulateForce_eq 2 _ i j _ (by simpa using hi) (by simpa using hj)]
  simp only [List.mapIdx_mapIdx]
  congr 2
  funext k v
  by_cases hki : k = i
  · subst hki
    by_cases hkj : k = j
    · subst hkj; simp [forceUpdate, Vec3.modify, Vec3.get]
    · simp [forceUpdate, hkj, Vec3.modify, Vec3.get]
  · by_cases hkj : k = j
    · subst hkj; simp [forceUpdate, hki, Vec3.modify, Vec3.get]
    · simp [forceUpdate, hki, hkj, Vec3.modify, Vec3.get]

theorem accumulateEnergyByAtom_eq (energy : α) (i j : Nat) (byAtom : List α)
    (hi : i < byAtom.length) (hj : j < byAtom.length) :
    accumulateEnergyByAtom energy (i : Int) (j : Int) byAtom
      = some (byAtom.mapIdx (energyUpdate i j energy)) := by
  have hj2 : j < (byAtom.set i (byAtom[i] + energy)).length := by simpa using hj
  simp only [accumulateEnergyByAtom, bind, getAt_of_lt byAtom i hi, Option.some_bind,
    setAt_natCast byAtom i _ hi, getAt_of_lt _ j hj2, setAt_natCast _ j _ hj2]
  congr 1
  apply List.ext_getElem?
  intro k
  rw [List.getElem?_mapIdx]
  by_cases hkj : k = j
  · subst hkj
    rw [List.getElem?_set_self hj2, List.getElem?_eq_getElem hj]
    by_cases hki : k = i
    · subst hki; simp [energyUpdate]
    · have hik : i ≠ k := fun h => hki h.symm
      simp [energyUpdate, hki, List.getElem_set_ne hik]
  · have hjk : j ≠ k := fun h => hkj h.symm
    rw [List.getElem?_set_ne hjk]
    by_cases hki : k = i
    · subst hki
      rw [List.getElem?_set_self hi, List.getElem?_eq_getElem hi]
      simp [energyUpdate, hkj]
    · have hik : i ≠ k := fun h => hki h.symm
      rw [List.getElem?_set_ne hik]
      cases byAtom[k]? <;> simp [energyUpdate, hkj, hki]

variable [FloorRing α]

/-- The result of `calculateOneIxn` on atom indices inside all arrays: the force array and
the supplied energy outputs are updated entry by entry. -/
theorem calculateOneIxn_eq (SQRT : α → α) (self : ReferenceLJCoulombIxn α) (i j : Nat)
    (atomCoordinates : List (Vec3 α)) (atomParameters : List (AtomParameters α))
    (out : Outputs α) (xI xJ : Vec3 α) (pI pJ : AtomParameters α)
    (hxI : atomCoordinates[i]? = some xI) (hxJ : atomCoordinates[j]? = some xJ)
    (hpI : atomParameters[i]? = some pI) (hpJ : atomParameters[j]? = some pJ)
    (hfI : i < out.forces.length) (hfJ : j < out.forces.length)
    (hE : ∀ byAtom, out.energyByAtom = some byAtom → i < byAtom.length ∧ j < byAtom.length) :
    calculateOneIxn SQRT self (i : Int) (j : Int) atomCoordinates atomParameters out
      = some
          { forces := out.forces.mapIdx
              (forceUpdate i j (pairDEdR self (pairDeltaR SQRT self xI xJ) pI pJ)
                (pairDeltaR SQRT self xI xJ).d)
            energyByAtom := out.energyByAtom.map (fun byAtom =>
              byAtom.mapIdx
                (energyUpdate i j (pairEnergy self (pairDeltaR SQRT self xI xJ) pI pJ)))
            totalEnergy := out.totalEnergy.map (fun e =>
              e + pairEnergy self (pairDeltaR SQRT self xI xJ) pI pJ) } := by
  have h3 := accumulateForce_three (pairDEdR self (pairDeltaR SQRT self xI xJ) pI pJ)
    (pairDeltaR SQRT self xI xJ).d i j out.forces hfI hfJ
  obtain ⟨forces, byAtomOpt, total⟩ := out
  simp only [calculateOneIxn, bind, getAt_natCast, hxI, hxJ, hpI, hpJ, Option.some_bind]
  cases hf0 : accumulateForce 0
      (pairDEdR self (pairDeltaR SQRT self xI xJ) pI pJ * (pairDeltaR SQRT self xI xJ).d.get 0)
      (i : Int) (j : Int) forces with
  | none => rw [hf0] at h3; simp at h3
  | some f0 =>
    rw [hf0] at h3
    simp only [Option.some_bind] at h3 ⊢
    cases hf1 : accumulateForce 1
        (pairDEdR self (pairDeltaR SQRT self xI xJ) pI pJ * (pairDeltaR SQRT self xI xJ).d.get 1)
        (i : Int) (j : Int) f0 with
    | none => rw [hf1] at h3; simp at h3
    | some f1 =>
      rw [hf1] at h3
      simp only [Option.some_bind] at h3 ⊢
      rw [h3]
      simp only [Option.some_bind]
      cases byAtomOpt with
      | none => cases total <;> simp
      | some byAtom =>
        obtain ⟨hEi, hEj⟩ := hE byAtom rfl
        cases total <;> simp [accumulateEnergyByAtom_eq _ i j byAtom hEi hEj]

end Kernel

/-! ## Facts about displacements over the reals -/

theorem sqrt_sumSq_sq (a b c : ℝ) : Real.sqrt (a * a + b * b + c * c) ^ 2 = a * a + b * b + c * c := by
  apply Real.sq_sqrt
  nlinarith [mul_self_nonneg a, mul_self_nonneg b, mul_self_nonneg c]

theorem pairDeltaR_sq (self : ReferenceLJCoulombIxn ℝ) (xI xJ : Vec3 ℝ) :
    (pairDeltaR Real.sqrt self xI xJ).RIndex ^ 2 = (pairDeltaR Real.sqrt self xI xJ).R2Index := by
  unfold pairDeltaR
  split
  · simp only [getDeltaRPeriodic]
    exact sqrt_sumSq_sq _ _ _
  · simp only [getDeltaR]
    exact sqrt_sumSq_sq _ _ _

theorem pairDeltaR_self (self : ReferenceLJCoulombIxn ℝ) (x : Vec3 ℝ) :
    (pairDeltaR Real.sqrt self x x).RIndex = 0 := by
  have hfl : ⌊(2⁻¹ : ℝ)⌋ = 0 := by
    rw [Int.floor_eq_zero_iff]
    constructor <;> norm_num
  unfold pairDeltaR
  split
  · simp [getDeltaRPeriodic, periodicDifference, hfl]
  · simp [getDeltaR]

theorem pairDEdR_eq_spec (self : ReferenceLJCoulombIxn ℝ) (xI xJ : Vec3 ℝ)
    (pI pJ : AtomParameters ℝ) :
    pairDEdR self (pairDeltaR Real.sqrt self xI xJ) pI pJ
      = specForceFactor self.cutoff self.krf (pairDeltaR Real.sqrt self xI xJ).RIndex
          (pI.SigIndex + pJ.SigIndex) (pI.EpsIndex * pJ.EpsIndex)
          (pI.QIndex * pJ.QIndex) := by
  have h2 := pairDeltaR_sq self xI xJ
  unfold pairDEdR specForceFactor pairSig6 pairEps
  simp only [← h2]
  split <;> ring

theorem pairEnergy_eq_spec (self : ReferenceLJCoulombIxn ℝ) (xI xJ : Vec3 ℝ)
    (pI pJ : AtomParameters ℝ) :
    pairEnergy self (pairDeltaR Real.sqrt self xI xJ) pI pJ
      = specPairEnergy self.cutoff self.krf self.crf
          (pairDeltaR Real.sqrt self xI xJ).RIndex
          (pI.SigIndex + pJ.SigIndex) (pI.EpsIndex * pJ.EpsIndex)
          (pI.QIndex * pJ.QIndex) := by
  have h2 := pairDeltaR_sq self xI xJ
  unfold pairEnergy specPairEnergy pairSig6 pairEps
  simp only [← h2]
  split <;> ring

/-! ## Claims about the pair loops -/

/-- C1: in exhaustive (no-cutoff) mode, for a well-formed exclusion table (a row per atom,
listed entries in `[0, N)`), `calculatePairIxn` runs the pair kernel over the list
`exhaustivePairs`: this holds for every kernel put at the call site (so it describes the
sequence of invocations) and in particular for `calculateOneIxn`. That list holds exactly the
pairs `(i, j)` with `0 ≤ i < j < N` and `j` not listed in `exclusions[i]`, and it is strictly
ascending in lexicographic order, so each such pair occurs exactly once. In particular, when
particle 0 lists particle 1 the pair `(0, 1)` is not evaluated. -/
theorem calculatePairIxn_exhaustive_pairs (α : Type) [LinearOrderedField α] [FloorRing α]
    (numberOfAtoms : Int) (exclusions : List (List Int))
    (hwf : exclusionsWellFormed numberOfAtoms exclusions = true) :
    (∀ (σ : Type) (one : Int → Int → σ → Option σ) (neighborList : List (Int × Int)) (s : σ),
      calculatePairIxnWith one false neighborList numberOfAtoms exclusions s
        = foldPairs one (exhaustivePairs numberOfAtoms.toNat exclusions) s) ∧
    (∀ (SQRT : α → α) (self : ReferenceLJCoulombIxn α) (atomCoordinates : List (Vec3 α))
        (atomParameters : List (AtomParameters α)) (out : Outputs α), self.cutoff = false →
      calculatePairIxn SQRT self numberOfAtoms atomCoordinates atomParameters exclusions out
        = foldPairs
            (fun ii jj o => calculateOneIxn SQRT self ii jj atomCoordinates atomParameters o)
            (exhaustivePairs numberOfAtoms.toNat exclusions) out) ∧
    (∀ i j : Int, (i, j) ∈ exhaustivePairs numberOfAtoms.toNat exclusions ↔
      0 ≤ i ∧ i < j ∧ j < numberOfAtoms ∧
        j ∉ listedExclusions (exclusions.getD i.toNat [])) ∧
    (exhaustivePairs numberOfAtoms.toNat exclusions).Pairwise pairLt ∧
    ((1 : Int) ∈ listedExclusions (exclusions.getD 0 []) →
      ((0 : Int), (1 : Int)) ∉ exhaustivePairs numberOfAtoms.toNat exclusions) := by
  have h0 : 0 ≤ numberOfAtoms := (exclusionsWellFormed_row _ _ hwf).1
  have hmem : ∀ i j : Int, (i, j) ∈ exhaustivePairs numberOfAtoms.toNat exclusions ↔
      0 ≤ i ∧ i < j ∧ j < numberOfAtoms ∧
        j ∉ listedExclusions (exclusions.getD i.toNat []) := by
    intro i j
    rw [mem_exhaustivePairs, Int.toNat_of_nonneg h0]
  refine ⟨?_, ?_, hmem, pairwise_exhaustivePairs _ _, ?_⟩
  · intro σ one neighborList s
    exact calculatePairIxnWith_exhaustive one neighborList numberOfAtoms exclusions s hwf
  · intro SQRT self atomCoordinates atomParameters out hcut
    unfold calculatePairIxn
    rw [hcut]
    exact calculatePairIxnWith_exhaustive _ _ numberOfAtoms exclusions out hwf
  · intro h1 hin
    exact ((hmem 0 1).1 hin).2.2.2 (by simpa using h1)

/-- Witness for C1: three atoms, atom 0 lists atom 1; the kernel is invoked on `(0, 2)` and
`(1, 2)` only, in this order. -/
theorem calculatePairIxn_exhaustive_pairs_witness :
    exclusionsWellFormed 3 [[1, 1], [0], [0]] = true ∧
      calculatePairIxnWith recordPair false [] 3 [[1, 1], [0], [0]] []
        = some [(0, 2), (1, 2)] :=
  ⟨by decide,
    ((calculatePairIxn_exhaustive_pairs ℚ 3 [[1, 1], [0], [0]] (by decide)).1
      (List (Int × Int)) recordPair [] []).trans (by decide)⟩

/-- C2 (failing input): two atoms, the exclusion of the pair recorded once in the row of the
lower-indexed atom and once in the row of the higher-indexed atom. In the first case the
kernel is not invoked; in the second it is invoked on `(0, 1)` although atom 1 lists
atom 0. -/
theorem calculatePairIxn_exclusion_asymmetric :
    calculatePairIxnWith recordPair false [] 2 [[1, 1], [0]] [] = some [] ∧
      calculatePairIxnWith recordPair false [] 2 [[0], [1, 0]] [] = some [(0, 1)] ∧
      exclusionsWellFormed 2 [[0], [1, 0]] = true := by
  decide

/-! ## Claims about the pair kernel -/

/-- C3: for atoms `i`, `j` inside all arrays with separation `r > 0`, the force factor
computed by `calculateOneIxn` is the specification's formula
`(eps*(12*sig6 - 6)*sig6 + qq*invR) * invR^2` (no cutoff), resp.
`(eps*(12*sig6 - 6)*sig6 + qq*(invR - 2*krf*r^2)) * invR^2` (cutoff), and the call adds this
factor times the displacement to `forces[i]` and subtracts it from `forces[j]`. -/
theorem calculateOneIxn_force_factor (self : ReferenceLJCoulombIxn ℝ) (i j : Nat)
    (atomCoordinates : List (Vec3 ℝ)) (atomParameters : List (AtomParameters ℝ))
    (out : Outputs ℝ) (xI xJ : Vec3 ℝ) (pI pJ : AtomParameters ℝ) (fI fJ : Vec3 ℝ)
    (hxI : atomCoordinates[i]? = some xI) (hxJ : atomCoordinates[j]? = some xJ)
    (hpI : atomParameters[i]? = some pI) (hpJ : atomParameters[j]? = some pJ)
    (hfI : out.forces[i]? = some fI) (hfJ : out.forces[j]? = some fJ)
    (hE : ∀ byAtom, out.energyByAtom = some byAtom → i < byAtom.length ∧ j < byAtom.length)
    (hr : 0 < (pairDeltaR Real.sqrt self xI xJ).RIndex) :
    pairDEdR self (pairDeltaR Real.sqrt self xI xJ) pI pJ
        = specForceFactor self.cutoff self.krf (pairDeltaR Real.sqrt self xI xJ).RIndex
            (pI.SigIndex + pJ.SigIndex) (pI.EpsIndex * pJ.EpsIndex)
            (pI.QIndex * pJ.QIndex) ∧
      ∃ out1, calculateOneIxn Real.sqrt self (i : Int) (j : Int) atomCoordinates
            atomParameters out = some out1 ∧
        out1.forces[i]? = some (fI.addScaled
          (specForceFactor self.cutoff self.krf (pairDeltaR Real.sqrt self xI xJ).RIndex
            (pI.SigIndex + pJ.SigIndex) (pI.EpsIndex * pJ.EpsIndex) (pI.QIndex * pJ.QIndex))
          (pairDeltaR Real.sqrt self xI xJ).d) ∧
        out1.forces[j]? = some (fJ.subScaled
          (specForceFactor self.cutoff self.krf (pairDeltaR Real.sqrt self xI xJ).RIndex
            (pI.SigIndex + pJ.SigIndex) (pI.EpsIndex * pJ.EpsIndex) (pI.QIndex * pJ.QIndex))
          (pairDeltaR Real.sqrt self xI xJ).d) := by
  have hij : i ≠ j := by
    intro h
    subst h
    rw [hxI] at hxJ
    cases hxJ
    rw [pairDeltaR_self] at hr
    exact lt_irrefl _ hr
  have hli : i < out.forces.length := by
    by_contra h
    rw [List.getElem?_eq_none (by omega)] at hfI
    cases hfI
  have hlj : j < out.forces.length := by
    by_contra h
    rw [List.getElem?_eq_none (by omega)] at hfJ
    cases hfJ
  refine ⟨pairDEdR_eq_spec self xI xJ pI pJ, _,
    calculateOneIxn_eq Real.sqrt self i j atomCoordinates atomParameters out xI xJ pI pJ
      hxI hxJ hpI hpJ hli hlj hE, ?_, ?_⟩
  · simp only [List.getElem?_mapIdx, hfI, Option.map_some', forceUpdate, if_true,
      if_neg hij, Vec3.addScaled, pairDEdR_eq_spec]
  · simp only [List.getElem?_mapIdx, hfJ, Option.map_some', forceUpdate, if_true,
      if_neg (Ne.symm hij), Vec3.subScaled, pairDEdR_eq_spec]

/-- Witness for C3: two atoms at distance 1 without cutoff; the force factor is
`(1*(12 - 6)*1 + (-1)*1) * 1 = 5`. -/
theorem calculateOneIxn_force_factor_witness :
    0 < (pairDeltaR Real.sqrt (exampleIxn ℝ) ⟨1, 0, 0⟩ ⟨0, 0, 0⟩).RIndex ∧
      pairDEdR (exampleIxn ℝ) (pairDeltaR Real.sqrt (exampleIxn ℝ) ⟨1, 0, 0⟩ ⟨0, 0, 0⟩)
        ⟨1 / 2, 1, 1⟩ ⟨1 / 2, 1, -1⟩ = 5 :=
  ⟨by simp [pairDeltaR, getDeltaR, exampleIxn],
    (calculateOneIxn_force_factor (exampleIxn ℝ) 0 1 (exampleCoordinates ℝ)
      (exampleParameters ℝ) (exampleOutputs ℝ) ⟨1, 0, 0⟩ ⟨0, 0, 0⟩ ⟨1 / 2, 1, 1⟩ ⟨1 / 2, 1, -1⟩
      ⟨0, 0, 0⟩ ⟨0, 0, 0⟩ rfl rfl rfl rfl rfl rfl
      (by intro byAtom h; simp only [exampleOutputs, Option.some.injEq] at h; subst h; simp)
      (by simp [pairDeltaR, getDeltaR, exampleIxn])).1.trans
      (by simp [specForceFactor, pairDeltaR, getDeltaR, exampleIxn]; norm_num)⟩

/-- C4: for atoms `i`, `j` inside all arrays with separation `r > 0`, the pair energy
computed by `calculateOneIxn` is the specification's formula `eps*(sig6 - 1)*sig6 + qq*invR`
(no cutoff), resp. `eps*(sig6 - 1)*sig6 + qq*(invR + krf*r^2 - crf)` (cutoff); the call adds
it once to `totalEnergy` when that output is supplied, and once to each of `energyByAtom[i]`
and `energyByAtom[j]` (leaving the other entries unchanged) when that output is supplied;
an output that is not supplied stays absent. -/
theorem calculateOneIxn_pair_energy (self : ReferenceLJCoulombIxn ℝ) (i j : Nat)
    (atomCoordinates : List (Vec3 ℝ)) (atomParameters : List (AtomParameters ℝ))
    (out : Outputs ℝ) (xI xJ : Vec3 ℝ) (pI pJ : AtomParameters ℝ)
    (hxI : atomCoordinates[i]? = some xI) (hxJ : atomCoordinates[j]? = some xJ)
    (hpI : atomParameters[i]? = some pI) (hpJ : atomParameters[j]? = some pJ)
    (hfI : i < out.forces.length) (hfJ : j < out.forces.length)
    (hE : ∀ byAtom, out.energyByAtom = some byAtom → i < byAtom.length ∧ j < byAtom.length)
    (hr : 0 < (pairDeltaR Real.sqrt self xI xJ).RIndex) :
    pairEnergy self (pairDeltaR Real.sqrt self xI xJ) pI pJ
        = specPairEnergy self.cutoff self.krf self.crf
            (pairDeltaR Real.sqrt self xI xJ).RIndex
            (pI.SigIndex + pJ.SigIndex) (pI.EpsIndex * pJ.EpsIndex)
            (pI.QIndex * pJ.QIndex) ∧
      ∃ out1, calculateOneIxn Real.sqrt self (i : Int) (j : Int) atomCoordinates
            atomParameters out = some out1 ∧
        out1.totalEnergy = out.totalEnergy.map (fun e => e +
          specPairEnergy self.cutoff self.krf self.crf
            (pairDeltaR Real.sqrt self xI xJ).RIndex
            (pI.SigIndex + pJ.SigIndex) (pI.EpsIndex * pJ.EpsIndex)
            (pI.QIndex * pJ.QIndex)) ∧
        (out.energyByAtom = none → out1.energyByAtom = none) ∧
        (∀ byAtom eI eJ, out.energyByAtom = some byAtom → byAtom[i]? = some eI →
          byAtom[j]? = some eJ →
          ∃ byAtom1, out1.energyByAtom = some byAtom1 ∧
            byAtom1[i]? = some (eI +
              specPairEnergy self.cutoff self.krf self.crf
                (pairDeltaR Real.sqrt self xI xJ).RIndex
                (pI.SigIndex + pJ.SigIndex) (pI.EpsIndex * pJ.EpsIndex)
                (pI.QIndex * pJ.QIndex)) ∧
            byAtom1[j]? = some (eJ +
              specPairEnergy self.cutoff self.krf self.crf
                (pairDeltaR Real.sqrt self xI xJ).RIndex
                (pI.SigIndex + pJ.SigIndex) (pI.EpsIndex * pJ.EpsIndex)
                (pI.QIndex * pJ.QIndex)) ∧
            ∀ k, k ≠ i → k ≠ j → byAtom1[k]? = byAtom[k]?) := by
  have hij : i ≠ j := by
    intro h
    subst h
    rw [hxI] at hxJ
    cases hxJ
    rw [pairDeltaR_self] at hr
    exact lt_irrefl _ hr
  refine ⟨pairEnergy_eq_spec self xI xJ pI pJ, _,
    calculateOneIxn_eq Real.sqrt self i j atomCoordinates atomParameters out xI xJ pI pJ
      hxI hxJ hpI hpJ hfI hfJ hE, ?_, ?_, ?_⟩
  · simp only [pairEnergy_eq_spec]
  · intro hnone
    simp only [hnone, Option.map_none']
  · intro byAtom eI eJ hsome hI hJ
    refine ⟨byAtom.mapIdx
      (energyUpdate i j (pairEnergy self (pairDeltaR Real.sqrt self xI xJ) pI pJ)),
      by simp only [hsome, Option.map_some'], ?_, ?_, ?_⟩
    · simp only [List.getElem?_mapIdx, hI, Option.map_some', energyUpdate, if_true,
        if_neg hij, pairEnergy_eq_spec]
    · simp only [List.getElem?_mapIdx, hJ, Option.map_some', energyUpdate, if_true,
        if_neg (Ne.symm hij), pairEnergy_eq_spec]
    · intro k hki hkj
      rw [List.getElem?_mapIdx]
      cases byAtom[k]? with
      | none => rfl
      | some v => simp only [Option.map_some', energyUpdate, if_neg hki, if_neg hkj]

/-- Witness for C4: two atoms at distance 1 without cutoff; the pair energy is
`1*(1 - 1)*1 + (-1)*1 = -1`. -/
theorem calculateOneIxn_pair_energy_witness :
    0 < (pairDeltaR Real.sqrt (exampleIxn ℝ) ⟨1, 0, 0⟩ ⟨0, 0, 0⟩).RIndex ∧
      pairEnergy (exampleIxn ℝ) (pairDeltaR Real.sqrt (exampleIxn ℝ) ⟨1, 0, 0⟩ ⟨0, 0, 0⟩)
        ⟨1 / 2, 1, 1⟩ ⟨1 / 2, 1, -1⟩ = -1 :=
  ⟨by simp [pairDeltaR, getDeltaR, exampleIxn],
    (calculateOneIxn_pair_energy (exampleIxn ℝ) 0 1 (exampleCoordinates ℝ)
      (exampleParameters ℝ) (exampleOutputs ℝ) ⟨1, 0, 0⟩ ⟨0, 0, 0⟩ ⟨1 / 2, 1, 1⟩ ⟨1 / 2, 1, -1⟩
      rfl rfl rfl rfl (by simp [exampleOutputs]) (by simp [exampleOutputs])
      (by intro byAtom h; simp only [exampleOutputs, Option.some.injEq] at h; subst h; simp)
      (by simp [pairDeltaR, getDeltaR, exampleIxn])).1.trans
      (by simp [specPairEnergy, pairDeltaR, getDeltaR, exampleIxn]; norm_num)⟩

/-- C5: for atoms `i ≠ j` inside all arrays, `calculateOneIxn` adds one vector `F` (the
force factor times the displacement) to `forces[i]` and subtracts the same `F` from
`forces[j]`, so the change of `forces[i]` is component by component the negation of the
change of `forces[j]`; every other force entry is unchanged. -/
theorem calculateOneIxn_antisymmetric {α : Type} [LinearOrderedField α] [FloorRing α]
    (SQRT : α → α) (self : ReferenceLJCoulombIxn α) (i j : Nat)
    (atomCoordinates : List (Vec3 α)) (atomParameters : List (AtomParameters α))
    (out : Outputs α) (xI xJ : Vec3 α) (pI pJ : AtomParameters α) (fI fJ : Vec3 α)
    (hxI : atomCoordinates[i]? = some xI) (hxJ : atomCoordinates[j]? = some xJ)
    (hpI : atomParameters[i]? = some pI) (hpJ : atomParameters[j]? = some pJ)
    (hfI : out.forces[i]? = some fI) (hfJ : out.forces[j]? = some fJ)
    (hE : ∀ byAtom, out.energyByAtom = some byAtom → i < byAtom.length ∧ j < byAtom.length)
    (hij : i ≠ j) :
    ∃ (out1 : Outputs α) (F : Vec3 α),
      calculateOneIxn SQRT self (i : Int) (j : Int) atomCoordinates atomParameters out
        = some out1 ∧
      F = ⟨pairDEdR self (pairDeltaR SQRT self xI xJ) pI pJ * (pairDeltaR SQRT self xI xJ).d.x,
           pairDEdR self (pairDeltaR SQRT self xI xJ) pI pJ * (pairDeltaR SQRT self xI xJ).d.y,
           pairDEdR self (pairDeltaR SQRT self xI xJ) pI pJ * (pairDeltaR SQRT self xI xJ).d.z⟩ ∧
      out1.forces[i]? = some ⟨fI.x + F.x, fI.y + F.y, fI.z + F.z⟩ ∧
      out1.forces[j]? = some ⟨fJ.x - F.x, fJ.y - F.y, fJ.z - F.z⟩ ∧
      (∀ k, k ≠ i → k ≠ j → out1.forces[k]? = out.forces[k]?) ∧
      (∀ gI gJ, out1.forces[i]? = some gI → out1.forces[j]? = some gJ →
        gI.x - fI.x = -(gJ.x - fJ.x) ∧ gI.y - fI.y = -(gJ.y - fJ.y) ∧
          gI.z - fI.z = -(gJ.z - fJ.z)) := by
  have hli : i < out.forces.length := by
    by_contra h
    rw [List.getElem?_eq_none (by omega)] at hfI
    cases hfI
  have hlj : j < out.forces.length := by
    by_contra h
    rw [List.getElem?_eq_none (by omega)] at hfJ
    cases hfJ
  have hI : (out.forces.mapIdx
      (forceUpdate i j (pairDEdR self (pairDeltaR SQRT self xI xJ) pI pJ)
        (pairDeltaR SQRT self xI xJ).d))[i]?
      = some ⟨fI.x + pairDEdR self (pairDeltaR SQRT self xI xJ) pI pJ
                * (pairDeltaR SQRT self xI xJ).d.x,
              fI.y + pairDEdR self (pairDeltaR SQRT self xI xJ) pI pJ
                * (pairDeltaR SQRT self xI xJ).d.y,
              fI.z + pairDEdR self (pairDeltaR SQRT self xI xJ) pI pJ
                * (pairDeltaR SQRT self xI xJ).d.z⟩ := by
    simp only [List.getElem?_mapIdx, hfI, Option.map_some', forceUpdate, if_true, if_neg hij]
  have hJ : (out.forces.mapIdx
      (forceUpdate i j (pairDEdR self (pairDeltaR SQRT self xI xJ) pI pJ)
        (pairDeltaR SQRT self xI xJ).d))[j]?
      = some ⟨fJ.x - pairDEdR self (pairDeltaR SQRT self xI xJ) pI pJ
                * (pairDeltaR SQRT self xI xJ).d.x,
              fJ.y - pairDEdR self (pairDeltaR SQRT self xI xJ) pI pJ
                * (pairDeltaR SQRT self xI xJ).d.y,
              fJ.z - pairDEdR self (pairDeltaR SQRT self xI xJ) pI pJ
                * (pairDeltaR SQRT self xI xJ).d.z⟩ := by
    simp only [List.getElem?_mapIdx, hfJ, Option.map_some', forceUpdate, if_true,
      if_neg (Ne.symm hij)]
  refine ⟨_, _, calculateOneIxn_eq SQRT self i j atomCoordinates atomParameters out xI xJ pI pJ
      hxI hxJ hpI hpJ hli hlj hE, rfl, hI, hJ, ?_, ?_⟩
  · intro k hki hkj
    rw [List.getElem?_mapIdx]
    cases out.forces[k]? with
    | none => rfl
    | some v => simp only [Option.map_some', forceUpdate, if_neg hki, if_neg hkj]
  · intro gI gJ hgI hgJ
    simp only [hI, hJ, Option.some.injEq] at hgI hgJ
    subst hgI hgJ
    refine ⟨by ring, by ring, by ring⟩

/-- Witness for C5: the two example atoms (over the rationals, with the identity standing
for the square root at the squared distance 1); the call returns a result. -/
theorem calculateOneIxn_antisymmetric_witness :
    (0 : Nat) ≠ 1 ∧
      ∃ out1, calculateOneIxn (fun (a : ℚ) => a) (exampleIxn ℚ) 0 1 (exampleCoordinates ℚ)
        (exampleParameters ℚ) (exampleOutputs ℚ) = some out1 :=
  ⟨by decide,
    (calculateOneIxn_antisymmetric (fun (a : ℚ) => a) (exampleIxn ℚ) 0 1 (exampleCoordinates ℚ)
      (exampleParameters ℚ) (exampleOutputs ℚ) ⟨1, 0, 0⟩ ⟨0, 0, 0⟩ ⟨1 / 2, 1, 1⟩ ⟨1 / 2, 1, -1⟩
      ⟨0, 0, 0⟩ ⟨0, 0, 0⟩ rfl rfl rfl rfl rfl rfl
      (by intro byAtom h; simp only [exampleOutputs, Option.some.injEq] at h; subst h; simp)
      (by decide)).elim (fun out1 h => h.elim (fun _ h2 => ⟨out1, h2.1⟩))⟩

/-! ## Claims about parameter derivation and configuration -/

/-- C6: for every `c6`, `q1`, `epsfacSqrt` and every `c12 ≤ 0` (zero included),
`getDerivedParameters` sets the epsilon parameter to 0 and the sigma parameter to 1/2
(that is 0.5); `c6` plays no role, and neither do the square root and power functions. -/
theorem getDerivedParameters_nonpositive_c12 {α : Type} [LinearOrderedField α]
    (SQRT : α → α) (POW : α → α → α) (c6 c12 q1 epsfacSqrt : α) (h : c12 ≤ 0) :
    (getDerivedParameters SQRT POW c6 c12 q1 epsfacSqrt).EpsIndex = 0 ∧
      (getDerivedParameters SQRT POW c6 c12 q1 epsfacSqrt).SigIndex = 1 / 2 := by
  simp only [getDerivedParameters, if_pos h, and_self]

/-- Witness for C6: `c12 = 0` with `c6 = 7`. -/
theorem getDerivedParameters_nonpositive_c12_witness :
    (0 : ℚ) ≤ 0 ∧
      (getDerivedParameters (fun a => a) (fun a _ => a) (7 : ℚ) 0 1 1).EpsIndex = 0 ∧
      (getDerivedParameters (fun a => a) (fun a _ => a) (7 : ℚ) 0 1 1).SigIndex = 1 / 2 :=
  ⟨le_refl 0,
    getDerivedParameters_nonpositive_c12 (fun a => a) (fun a _ => a) (7 : ℚ) 0 1 1 (le_refl 0)⟩

/-- The documented value of the epsilon parameter is reached for `c6 ≥ 0`. -/
theorem getDerivedParameters_eps_of_nonneg (POW : ℝ → ℝ → ℝ) (c6 c12 q1 epsfacSqrt : ℝ)
    (h6 : 0 ≤ c6) (h12 : 0 < c12) :
    (getDerivedParameters Real.sqrt POW c6 c12 q1 epsfacSqrt).EpsIndex
      = Real.sqrt (c6 * c6 / c12) := by
  have hn : ¬ c12 ≤ 0 := not_le.mpr h12
  simp only [getDerivedParameters, if_neg hn]
  have hsplit : c6 * c6 / c12 = c6 * c6 * (1 / c12) := by ring
  rw [hsplit, Real.sqrt_mul (mul_self_nonneg c6), Real.sqrt_mul_self h6]

/-- C7 (failing input): at `c6 = -1`, `c12 = 1` the epsilon parameter computed by
`getDerivedParameters` is `-1`, while the documented value `sqrt(c6*c6/c12)` is `1`. -/
theorem getDerivedParameters_eps_negative_c6 :
    (getDerivedParameters Real.sqrt (fun x y => x ^ y) (-1) 1 1 1).EpsIndex = -1 ∧
      Real.sqrt ((-1 : ℝ) * (-1) / 1) = 1 ∧
      (getDerivedParameters Real.sqrt (fun x y => x ^ y) (-1) 1 1 1).EpsIndex
        ≠ Real.sqrt ((-1 : ℝ) * (-1) / 1) := by
  have hn : ¬ ((1 : ℝ) ≤ 0) := by norm_num
  have h1 : (getDerivedParameters Real.sqrt (fun x y => x ^ y) (-1) 1 1 1).EpsIndex
      = -1 := by
    simp [getDerivedParameters, hn]
  have h2 : Real.sqrt ((-1 : ℝ) * (-1) / 1) = 1 := by norm_num
  refine ⟨h1, h2, ?_⟩
  rw [h1, h2]
  norm_num

/-- C9: for every cutoff distance `rc` and solvent dielectric `e`, `setUseCutoff` switches
cutoff mode on, stores `rc` and the neighbor list, sets `krf` to the power function at
`(rc, -3)` times `(e - 1)/(2e + 1)` and `crf` to `(1/rc) * 3e/(2e + 1)`, and leaves the
periodic members unchanged; over the reals with the real power function the first factor of
`krf` is `rc^(-3)`. -/
theorem setUseCutoff_reaction_field (α : Type) [LinearOrderedField α] (POW : α → α → α)
    (self : ReferenceLJCoulombIxn α) (rc : α) (neighbors : List (Int × Int)) (e : α) :
    (self.setUseCutoff POW rc neighbors e).cutoff = true ∧
      (self.setUseCutoff POW rc neighbors e).cutoffDistance = rc ∧
      (self.setUseCutoff POW rc neighbors e).neighborList = neighbors ∧
      (self.setUseCutoff POW rc neighbors e).krf = POW rc (-3) * ((e - 1) / (2 * e + 1)) ∧
      (self.setUseCutoff POW rc neighbors e).crf = (1 / rc) * (3 * e / (2 * e + 1)) ∧
      (self.setUseCutoff POW rc neighbors e).periodic = self.periodic ∧
      (self.setUseCutoff POW rc neighbors e).periodicBoxSize = self.periodicBoxSize ∧
      (∀ (self1 : ReferenceLJCoulombIxn ℝ) (rc1 e1 : ℝ),
        (self1.setUseCutoff (fun x y => x ^ y) rc1 neighbors e1).krf
          = rc1 ^ (-3 : ℤ) * ((e1 - 1) / (2 * e1 + 1))) := by
  refine ⟨rfl, rfl, rfl, ?_, ?_, rfl, rfl, ?_⟩
  · simp only [ReferenceLJCoulombIxn.setUseCutoff, mul_div_assoc]
  · simp only [ReferenceLJCoulombIxn.setUseCutoff, mul_div_assoc]
  · intro self1 rc1 e1
    have hp : rc1 ^ (-3 : ℝ) = rc1 ^ (-3 : ℤ) := by
      rw [← Real.rpow_intCast]
      norm_num
    simp only [ReferenceLJCoulombIxn.setUseCutoff, mul_div_assoc, hp]

/-- C10: `setPeriodic` succeeds exactly when a cutoff has been set and each of the three
box sizes is at least twice the cutoff distance (equality included); on success the result
is the old state with `periodic` set and the three box sizes stored unchanged; otherwise the
call fails and yields no state. -/
theorem setPeriodic_eq {α : Type} [LinearOrderedField α] (self : ReferenceLJCoulombIxn α)
    (boxSize : Vec3 α) :
    self.setPeriodic boxSize
      = if self.cutoff = true ∧ 2 * self.cutoffDistance ≤ boxSize.x ∧
            2 * self.cutoffDistance ≤ boxSize.y ∧ 2 * self.cutoffDistance ≤ boxSize.z then
          some { self with periodic := true, periodicBoxSize := boxSize }
        else none := by
  unfold ReferenceLJCoulombIxn.setPeriodic
  by_cases hc : self.cutoff = true
  · by_cases hx : 2 * self.cutoffDistance ≤ boxSize.x
    · by_cases hy : 2 * self.cutoffDistance ≤ boxSize.y
      · by_cases hz : 2 * self.cutoffDistance ≤ boxSize.z
        · simp [hc, hx, hy, hz]
        · simp [hc, hx, hy, hz]
      · simp [hc, hx, hy]
    · simp [hc, hx]
  · simp [hc]

/-- The cutoff-mode loop is the fold of the kernel over the neighbor list. -/
theorem calculatePairIxnWith_cutoff {σ : Type} (one : Int → Int → σ → Option σ)
    (neighborList : List (Int × Int)) (numberOfAtoms : Int) (exclusions : List (List Int))
    (s : σ) :
    calculatePairIxnWith one true neighborList numberOfAtoms exclusions s
      = foldPairs one neighborList s := by
  have h := forLoop_neighborList one neighborList [] s
  simp only [List.nil_append, List.length_nil, Int.ofNat_zero] at h
  simp only [calculatePairIxnWith, if_true, forRange, Int.sub_zero, Int.toNat_ofNat, bind]
  exact h

/-- C8: in cutoff mode `calculatePairIxn` runs the pair kernel over the neighbor list, once
per occurrence and in list order (this holds for every kernel put at the call site, and in
particular the result is the fold of `calculateOneIxn` over the neighbor list); the result
does not depend on `numberOfAtoms` or on `exclusions`; and there is no distance check: in
the example configuration with cutoff distance 1/2 the listed pair at distance 1 receives
the forces `(5, 0, 0)` and `(-5, 0, 0)`. -/
theorem calculatePairIxn_cutoff_neighborList (α : Type) [LinearOrderedField α] [FloorRing α] :
    (∀ (σ : Type) (one : Int → Int → σ → Option σ) (neighborList : List (Int × Int))
        (numberOfAtoms : Int) (exclusions : List (List Int)) (s : σ),
      calculatePairIxnWith one true neighborList numberOfAtoms exclusions s
        = foldPairs one neighborList s) ∧
    (∀ (SQRT : α → α) (self : ReferenceLJCoulombIxn α) (numberOfAtoms : Int)
        (atomCoordinates : List (Vec3 α)) (atomParameters : List (AtomParameters α))
        (exclusions : List (List Int)) (out : Outputs α), self.cutoff = true →
      calculatePairIxn SQRT self numberOfAtoms atomCoordinates atomParameters exclusions out
        = foldPairs
            (fun ii jj o => calculateOneIxn SQRT self ii jj atomCoordinates atomParameters o)
            self.neighborList out) ∧
    (∀ (SQRT : α → α) (self : ReferenceLJCoulombIxn α) (numberOfAtoms numberOfAtoms1 : Int)
        (atomCoordinates : List (Vec3 α)) (atomParameters : List (AtomParameters α))
        (exclusions exclusions1 : List (List Int)) (out : Outputs α), self.cutoff = true →
      calculatePairIxn SQRT self numberOfAtoms atomCoordinates atomParameters exclusions out
        = calculatePairIxn SQRT self numberOfAtoms1 atomCoordinates atomParameters
            exclusions1 out) ∧
    ((exampleCutoffIxn ℝ).cutoffDistance
        < (pairDeltaR Real.sqrt (exampleCutoffIxn ℝ) ⟨1, 0, 0⟩ ⟨0, 0, 0⟩).RIndex ∧
      (calculatePairIxn Real.sqrt (exampleCutoffIxn ℝ) 2 (exampleCoordinates ℝ)
          (exampleParameters ℝ) [[0], [0]] (exampleOutputs ℝ)).map (fun o => o.forces)
        = some [⟨5, 0, 0⟩, ⟨-5, 0, 0⟩]) := by
  refine ⟨?_, ?_, ?_, ?_, ?_⟩
  · intro σ one neighborList numberOfAtoms exclusions s
    exact calculatePairIxnWith_cutoff one neighborList numberOfAtoms exclusions s
  · intro SQRT self numberOfAtoms atomCoordinates atomParameters exclusions out hcut
    unfold calculatePairIxn
    rw [hcut]
    exact calculatePairIxnWith_cutoff _ _ _ _ _
  · intro SQRT self n n1 atomCoordinates atomParameters exclusions exclusions1 out hcut
    unfold calculatePairIxn
    rw [hcut, calculatePairIxnWith_cutoff, calculatePairIxnWith_cutoff]
  · simp [pairDeltaR, getDeltaR, exampleCutoffIxn]
    norm_num
  · have hone := calculateOneIxn_eq Real.sqrt (exampleCutoffIxn ℝ) 0 1 (exampleCoordinates ℝ)
      (exampleParameters ℝ) (exampleOutputs ℝ) ⟨1, 0, 0⟩ ⟨0, 0, 0⟩ ⟨1 / 2, 1, 1⟩ ⟨1 / 2, 1, -1⟩
      rfl rfl rfl rfl (by simp [exampleOutputs]) (by simp [exampleOutputs])
      (by intro byAtom h; simp only [exampleOutputs, Option.some.injEq] at h; subst h; simp)
    have hd : pairDEdR (exampleCutoffIxn ℝ)
        (pairDeltaR Real.sqrt (exampleCutoffIxn ℝ) ⟨1, 0, 0⟩ ⟨0, 0, 0⟩)
        ⟨1 / 2, 1, 1⟩ ⟨1 / 2, 1, -1⟩ = 5 := by
      rw [pairDEdR_eq_spec]
      simp [specForceFactor, pairDeltaR, getDeltaR, exampleCutoffIxn]
      norm_num
    unfold calculatePairIxn
    have hcut : (exampleCutoffIxn ℝ).cutoff = true := rfl
    have hnl : (exampleCutoffIxn ℝ).neighborList = [(0, 1)] := rfl
    rw [hcut, calculatePairIxnWith_cutoff, hnl, foldPairs_cons]
    simp only [foldPairs_nil]
    have hcast : calculateOneIxn Real.sqrt (exampleCutoffIxn ℝ) ((0 : Int), (1 : Int)).1
        ((0 : Int), (1 : Int)).2 (exampleCoordinates ℝ) (exampleParameters ℝ) (exampleOutputs ℝ)
        = calculateOneIxn Real.sqrt (exampleCutoffIxn ℝ) ((0 : Nat) : Int) ((1 : Nat) : Int)
          (exampleCoordinates ℝ) (exampleParameters ℝ) (exampleOutputs ℝ) := rfl
    rw [hcast, hone, hd]
    simp [exampleOutputs, List.mapIdx_cons, forceUpdate, pairDeltaR, getDeltaR,
      exampleCutoffIxn, foldPairs_nil]

/-! ## Claims about reachable configurations -/

/-- A successful `setPeriodic` leaves a state whose stored box is at least twice the stored
cutoff distance in every dimension. -/
theorem setPeriodic_establishes_bound {α : Type} [LinearOrderedField α]
    (s s1 : ReferenceLJCoulombIxn α) (boxSize : Vec3 α) (h : s.setPeriodic boxSize = some s1) :
    s1.periodic = true ∧ s1.cutoff = true ∧ s.cutoff = true ∧ boxAtLeastTwiceCutoff s1 := by
  rw [setPeriodic_eq] at h
  split at h
  · rename_i hc
    simp only [Option.some.injEq] at h
    subst h
    exact ⟨rfl, hc.1, hc.1, hc.2.1, hc.2.2.1, hc.2.2.2⟩
  · cases h

/-- C11 (failing input): construct, `setUseCutoff` with distance 1, `setPeriodic` with box
`(2, 2, 2)` (accepted, `2 ≥ 2*1`), then `setUseCutoff` with distance 2. The state reached is
periodic with stored box `(2, 2, 2)` and stored cutoff distance 2, so no box dimension is at
least twice the cutoff distance. -/
theorem reachable_periodic_box_below_twice_cutoff :
    ∃ s : ReferenceLJCoulombIxn ℝ,
      (((ReferenceLJCoulombIxn.construct (exampleIxn ℝ)).setUseCutoff (fun x y => x ^ y)
          1 [] 1).setPeriodic ⟨2, 2, 2⟩).map
        (fun s2 => s2.setUseCutoff (fun x y => x ^ y) 2 [] 1) = some s ∧
      Reachable (fun x y => x ^ y) s ∧ s.periodic = true ∧
      s.periodicBoxSize = ⟨2, 2, 2⟩ ∧ s.cutoffDistance = 2 ∧ ¬ boxAtLeastTwiceCutoff s := by
  have hper : ((ReferenceLJCoulombIxn.construct (exampleIxn ℝ)).setUseCutoff
      (fun x y => x ^ y) 1 [] 1).setPeriodic ⟨2, 2, 2⟩
      = some { ((ReferenceLJCoulombIxn.construct (exampleIxn ℝ)).setUseCutoff
          (fun x y => x ^ y) 1 [] 1) with periodic := true, periodicBoxSize := ⟨2, 2, 2⟩ } := by
    rw [setPeriodic_eq]
    apply if_pos
    refine ⟨rfl, ?_, ?_, ?_⟩ <;>
      simp [ReferenceLJCoulombIxn.setUseCutoff]
  refine ⟨_, by rw [hper]; rfl, ?_, rfl, rfl, rfl, ?_⟩
  · apply Reachable.setUseCutoff
    apply Reachable.setPeriodic _ _ _ _ hper
    apply Reachable.setUseCutoff
    exact Reachable.construct _
  · intro h
    have hx := h.1
    simp [ReferenceLJCoulombIxn.setUseCutoff] at hx

/-- C18: in every state reachable from construction by successful `setUseCutoff` and
`setPeriodic` calls, periodic mode implies cutoff mode; a freshly constructed object has
both modes off; and from a state with cutoff mode on, `setUseCutoff` and every successful
`setPeriodic` lead to a state with cutoff mode on. -/
theorem reachable_periodic_implies_cutoff (α : Type) [LinearOrderedField α]
    (POW : α → α → α) :
    (∀ s : ReferenceLJCoulombIxn α, Reachable POW s → s.periodic = true → s.cutoff = true) ∧
    (∀ uninit : ReferenceLJCoulombIxn α,
      (ReferenceLJCoulombIxn.construct uninit).cutoff = false ∧
        (ReferenceLJCoulombIxn.construct uninit).periodic = false) ∧
    (∀ (s : ReferenceLJCoulombIxn α) (distance : α) (neighbors : List (Int × Int))
        (solventDielectric : α),
      (s.setUseCutoff POW distance neighbors solventDielectric).cutoff = true) ∧
    (∀ (s s1 : ReferenceLJCoulombIxn α) (boxSize : Vec3 α),
      s.setPeriodic boxSize = some s1 → s1.cutoff = true) := by
  refine ⟨?_, fun _ => ⟨rfl, rfl⟩, fun _ _ _ _ => rfl, ?_⟩
  · intro s hs
    induction hs with
    | construct uninit => intro h; cases h
    | setUseCutoff s distance neighbors solventDielectric _ _ => intro _; rfl
    | setPeriodic s s1 boxSize _ hset _ =>
      intro _
      exact (setPeriodic_establishes_bound s s1 boxSize hset).2.1
  · intro s s1 boxSize hset
    exact (setPeriodic_establishes_bound s s1 boxSize hset).2.1

/-! ## Claims about the energy formulas and parameter derivation -/

/-- C12: for the same pair of parameter tuples and the same non-periodic displacement with
`r > 0`, the pair energy computed in cutoff mode minus the pair energy computed in no-cutoff
mode is `qq*(krf*r^2 - crf)`; both energies contain the same Lennard-Jones term
`eps*(sig6 - 1)*sig6` and the same bare Coulomb term `qq*invR`. -/
theorem pairEnergy_cutoff_minus_noCutoff (selfC selfN : ReferenceLJCoulombIxn ℝ)
    (xI xJ : Vec3 ℝ) (pI pJ : AtomParameters ℝ)
    (hC : selfC.cutoff = true) (hN : selfN.cutoff = false)
    (hpC : selfC.periodic = false) (hpN : selfN.periodic = false)
    (_hr : 0 < (getDeltaR Real.sqrt xJ xI).RIndex) :
    pairDeltaR Real.sqrt selfC xI xJ = getDeltaR Real.sqrt xJ xI ∧
    pairDeltaR Real.sqrt selfN xI xJ = getDeltaR Real.sqrt xJ xI ∧
    pairEnergy selfC (pairDeltaR Real.sqrt selfC xI xJ) pI pJ
        - pairEnergy selfN (pairDeltaR Real.sqrt selfN xI xJ) pI pJ
      = pI.QIndex * pJ.QIndex *
          (selfC.krf * (getDeltaR Real.sqrt xJ xI).RIndex ^ 2 - selfC.crf) ∧
    pairEnergy selfN (pairDeltaR Real.sqrt selfN xI xJ) pI pJ
      = pairEps pI pJ * (pairSig6 (getDeltaR Real.sqrt xJ xI) pI pJ - 1)
            * pairSig6 (getDeltaR Real.sqrt xJ xI) pI pJ
          + pI.QIndex * pJ.QIndex * (1 / (getDeltaR Real.sqrt xJ xI).RIndex) ∧
    pairEnergy selfC (pairDeltaR Real.sqrt selfC xI xJ) pI pJ
      = pairEps pI pJ * (pairSig6 (getDeltaR Real.sqrt xJ xI) pI pJ - 1)
            * pairSig6 (getDeltaR Real.sqrt xJ xI) pI pJ
          + pI.QIndex * pJ.QIndex * (1 / (getDeltaR Real.sqrt xJ xI).RIndex)
          + pI.QIndex * pJ.QIndex *
              (selfC.krf * (getDeltaR Real.sqrt xJ xI).RIndex ^ 2 - selfC.crf) := by
  have hdC : pairDeltaR Real.sqrt selfC xI xJ = getDeltaR Real.sqrt xJ xI := by
    simp [pairDeltaR, hpC]
  have hdN : pairDeltaR Real.sqrt selfN xI xJ = getDeltaR Real.sqrt xJ xI := by
    simp [pairDeltaR, hpN]
  have h2 : (getDeltaR Real.sqrt xJ xI).RIndex ^ 2 = (getDeltaR Real.sqrt xJ xI).R2Index := by
    have := pairDeltaR_sq selfN xI xJ
    rwa [hdN] at this
  refine ⟨hdC, hdN, ?_, ?_, ?_⟩
  · rw [hdC, hdN]
    simp only [pairEnergy, hC, hN, if_true, Bool.false_eq_true, if_false, h2]
    ring
  · rw [hdN]
    simp only [pairEnergy, hN, Bool.false_eq_true, if_false]
    ring
  · rw [hdC]
    simp only [pairEnergy, hC, if_true, h2]
    ring

/-- Witness for C12: two atoms at distance 1, cutoff configuration with `krf = 0`,
`crf = 2`, charges `+1` and `-1`; the energies differ by `(-1)*(0*1 - 2) = 2`. -/
theorem pairEnergy_cutoff_minus_noCutoff_witness :
    0 < (getDeltaR Real.sqrt (⟨0, 0, 0⟩ : Vec3 ℝ) ⟨1, 0, 0⟩).RIndex ∧
      pairEnergy (exampleCutoffIxn ℝ)
          (pairDeltaR Real.sqrt (exampleCutoffIxn ℝ) ⟨1, 0, 0⟩ ⟨0, 0, 0⟩)
          ⟨1 / 2, 1, 1⟩ ⟨1 / 2, 1, -1⟩
        - pairEnergy (exampleIxn ℝ) (pairDeltaR Real.sqrt (exampleIxn ℝ) ⟨1, 0, 0⟩ ⟨0, 0, 0⟩)
          ⟨1 / 2, 1, 1⟩ ⟨1 / 2, 1, -1⟩ = 2 :=
  ⟨by simp [getDeltaR],
    (pairEnergy_cutoff_minus_noCutoff (exampleCutoffIxn ℝ) (exampleIxn ℝ) ⟨1, 0, 0⟩ ⟨0, 0, 0⟩
      ⟨1 / 2, 1, 1⟩ ⟨1 / 2, 1, -1⟩ rfl rfl rfl rfl (by simp [getDeltaR])).2.2.1.trans
      (by simp [getDeltaR, exampleCutoffIxn])⟩

/-- The checked computation, when it succeeds, returns the parameters of
`getDerivedParameters`. -/
theorem getDerivedParametersChecked_eq {α : Type} [LinearOrderedField α]
    (SQRT : α → α) (POW : α → α → α) (c6 c12 q1 epsfacSqrt : α) (p : AtomParameters α)
    (h : getDerivedParametersChecked SQRT POW c6 c12 q1 epsfacSqrt = some p) :
    p = getDerivedParameters SQRT POW c6 c12 q1 epsfacSqrt := by
  have h6 : (6 : α) ≠ 0 := by norm_num
  simp only [getDerivedParametersChecked, checkedDiv, checkedSqrt, checkedPow, h6, if_false,
    bind, Option.some_bind] at h
  by_cases hc : c12 ≤ 0
  · simp only [hc, if_true, Option.some_bind, Option.some.injEq] at h
    simp only [getDerivedParameters, hc, if_true]
    exact h.symm
  · simp only [hc, if_false] at h
    simp only [getDerivedParameters, hc, if_false]
    split at h
    · simp at h
    · simp only [Option.some_bind] at h
      split at h
      · simp at h
      · simp only [Option.some_bind] at h
        split at h
        · simp at h
        · simp only [Option.some_bind] at h
          split at h
          · simp at h
          · simp only [Option.some_bind, Option.some.injEq] at h
            exact h.symm

/-- C16 (counterexample): with `c6 = 0`, `c12 = 1` the computation divides by zero
(`c12/c6`), and with `c6 = -1`, `c12 = 1` it takes the sixth root of `-1`; in both cases the
guard `c12 <= 0` is not taken. -/
theorem getDerivedParametersChecked_fails :
    getDerivedParametersChecked Real.sqrt (fun x y => x ^ y) (0 : ℝ) 1 1 1 = none ∧
      getDerivedParametersChecked Real.sqrt (fun x y => x ^ y) (-1 : ℝ) 1 1 1 = none ∧
      ¬ ((1 : ℝ) ≤ 0) := by
  have h6 : (6 : ℝ) ≠ 0 := by norm_num
  have h1 : ¬ ((1 : ℝ) ≤ 0) := by norm_num
  refine ⟨?_, ?_, h1⟩
  · simp [getDerivedParametersChecked, checkedDiv, checkedSqrt, checkedPow, h1]
  · simp [getDerivedParametersChecked, checkedDiv, checkedSqrt, checkedPow, h1]

/-- C16 (amended): whenever `c12 <= 0`, or `c12 > 0` and `c6 > 0`, the computation of the
derived parameters never divides by zero and never takes a root or a fractional power of a
negative number, and yields the parameters of `getDerivedParameters`. -/
theorem getDerivedParametersChecked_defined {α : Type} [LinearOrderedField α]
    (SQRT : α → α) (POW : α → α → α) (c6 c12 q1 epsfacSqrt : α) (h : c12 ≤ 0 ∨ 0 < c6) :
    getDerivedParametersChecked SQRT POW c6 c12 q1 epsfacSqrt
      = some (getDerivedParameters SQRT POW c6 c12 q1 epsfacSqrt) := by
  have h6 : (6 : α) ≠ 0 := by norm_num
  by_cases hc : c12 ≤ 0
  · simp [getDerivedParametersChecked, getDerivedParameters, checkedDiv, h6, hc]
  · have h12 : 0 < c12 := lt_of_not_ge hc
    have hc6 : 0 < c6 := by
      rcases h with h | h
      · exact absurd h hc
      · exact h
    have hinv : ¬ (1 / c12 < 0) := not_lt.mpr (le_of_lt (one_div_pos.mpr h12))
    have hquot : ¬ (c12 / c6 < 0) := not_lt.mpr (le_of_lt (div_pos h12 hc6))
    have hn12 : ¬ (c12 < 0) := not_lt.mpr (le_of_lt h12)
    simp [getDerivedParametersChecked, getDerivedParameters, checkedDiv, checkedSqrt,
      checkedPow, h6, hc, ne_of_gt h12, ne_of_gt hc6, hinv, hquot, hn12]

/-- Witness for C16 (amended): `c6 = 1`, `c12 = 1`. -/
theorem getDerivedParametersChecked_defined_witness :
    ((1 : ℝ) ≤ 0 ∨ (0 : ℝ) < 1) ∧
      getDerivedParametersChecked Real.sqrt (fun x y => x ^ y) (1 : ℝ) 1 1 1
        = some (getDerivedParameters Real.sqrt (fun x y => x ^ y) (1 : ℝ) 1 1 1) :=
  ⟨Or.inr one_pos,
    getDerivedParametersChecked_defined Real.sqrt (fun x y => x ^ y) (1 : ℝ) 1 1 1
      (Or.inr one_pos)⟩

/-- An index loop over a list visits the entries from position `pre.length` on, in order. -/
theorem forLoop_list {β σ : Type} (g : β → σ → Option σ) :
    ∀ (rest pre : List β) (s : σ),
      forLoop (fun i s => (getAt (pre ++ rest) i).bind (fun x => g x s))
        rest.length (pre.length : Int) s = rest.foldlM (fun s x => g x s) s := by
  intro rest
  induction rest with
  | nil => intro pre s; rfl
  | cons p rest ih =>
    intro pre s
    rw [List.length_cons, forLoop_succ, List.foldlM_cons, getAt_natCast]
    have h1 : (pre ++ p :: rest)[pre.length]? = some p := by
      rw [List.getElem?_append_right (Nat.le_refl _)]
      simp
    rw [h1]
    have h2 : pre ++ p :: rest = (pre ++ [p]) ++ rest := by simp
    have h3 : ((pre.length : Int) + 1) = ((pre ++ [p]).length : Int) := by simp
    simp only [Option.some_bind]
    show (g p s).bind _ = (g p s).bind _
    congr 1
    funext s1
    rw [h2, h3]
    exact ih (pre ++ [p]) s1

/-- Folding recording kernels numbered from `k` on sums their energies left to right and
appends their device indices in ascending order. -/
theorem foldlM_recordingKernel {α : Type} [LinearOrderedField α]
    (includeForce includeEnergy : Bool) :
    ∀ (energies : List α) (k : Nat) (acc : α) (log : List Nat),
      (energies.mapIdx (fun d e => recordingKernel (k + d) e)).foldlM
          (fun (st : α × List Nat) kernel =>
            (kernel st.2 includeForce includeEnergy).bind
              (fun r => some (st.1 + r.1, r.2))) (acc, log)
        = some (energies.foldl (fun a e => a + e) acc, log ++ List.range' k energies.length) := by
  intro energies
  induction energies with
  | nil => intro k acc log; simp
  | cons e es ih =>
    intro k acc log
    rw [List.mapIdx_cons, List.foldlM_cons]
    simp only [recordingKernel, Nat.add_zero, Option.some_bind, List.foldl_cons,
      List.length_cons, List.range'_succ]
    have hshift : (fun d e1 => recordingKernel (α := α) (k + (d + 1)) e1)
        = (fun d e1 => recordingKernel (k + 1 + d) e1) := by
      funext d e1
      have hk : k + (d + 1) = k + 1 + d := by omega
      rw [hk]
    rw [hshift]
    have := ih (k + 1) (acc + e) (log ++ [k])
    simp only [List.append_assoc, List.singleton_append] at this
    exact this

/-- C17: `finishComputation` of the parallel orchestrator runs the device kernels' finish
calls over the kernel list from device index 0 upwards, threading the shared context and
adding each returned energy to the running total in that order (its result is the left fold
over the kernel list, for every kind of kernel); for kernels that record their device index,
the calls happen in the order `0, 1, ..., n-1` and the returned total is the left-to-right
sum of the per-device energies. -/
theorem finishComputation_ascending_sum (α : Type) [LinearOrderedField α] :
    (∀ (κ : Type) (kernels : List (κ → Bool → Bool → Option (α × κ))) (context : κ)
        (includeForce includeEnergy : Bool),
      finishComputation kernels context includeForce includeEnergy
        = kernels.foldlM (fun (st : α × κ) kernel =>
            (kernel st.2 includeForce includeEnergy).bind
              (fun r => some (st.1 + r.1, r.2))) (0, context)) ∧
    (∀ (energies : List α) (includeForce includeEnergy : Bool),
      finishComputation (energies.mapIdx (fun d e => recordingKernel d e)) []
          includeForce includeEnergy
        = some (energies.foldl (fun a e => a + e) 0, List.range energies.length)) := by
  have hgen : ∀ (κ : Type) (kernels : List (κ → Bool → Bool → Option (α × κ))) (context : κ)
      (includeForce includeEnergy : Bool),
      finishComputation kernels context includeForce includeEnergy
        = kernels.foldlM (fun (st : α × κ) kernel =>
            (kernel st.2 includeForce includeEnergy).bind
              (fun r => some (st.1 + r.1, r.2))) (0, context) := by
    intro κ kernels context includeForce includeEnergy
    have h := forLoop_list
      (fun (kernel : κ → Bool → Bool → Option (α × κ)) (st : α × κ) =>
        (kernel st.2 includeForce includeEnergy).bind (fun r => some (st.1 + r.1, r.2)))
      kernels [] (0, context)
    simp only [List.nil_append, List.length_nil, Int.ofNat_zero] at h
    simp only [finishComputation, forRange, Int.sub_zero, Int.toNat_ofNat, bind]
    exact h
  refine ⟨hgen, ?_⟩
  intro energies includeForce includeEnergy
  rw [hgen]
  have h := foldlM_recordingKernel includeForce includeEnergy energies 0 (0 : α) []
  simp only [Nat.zero_add, List.nil_append] at h
  rw [List.range_eq_range']
  exact h

/-- For parameters derived from the same `c6 > 0` and `c12 > 0`: the product of the epsilon
parameters is `c6^2/c12`, and `sig6` at separation `r` is `(c12/c6)/r^6`. -/
theorem derived_eps_sig6 (c6 c12 q1 q2 e1 e2 : ℝ) (d : DeltaR ℝ)
    (h6 : 0 < c6) (h12 : 0 < c12) :
    pairEps (getDerivedParameters Real.sqrt (fun x y => x ^ y) c6 c12 q1 e1)
        (getDerivedParameters Real.sqrt (fun x y => x ^ y) c6 c12 q2 e2) = c6 ^ 2 / c12 ∧
      pairSig6 d (getDerivedParameters Real.sqrt (fun x y => x ^ y) c6 c12 q1 e1)
        (getDerivedParameters Real.sqrt (fun x y => x ^ y) c6 c12 q2 e2)
        = c12 / c6 / d.RIndex ^ 6 := by
  have hn : ¬ c12 ≤ 0 := not_le.mpr h12
  have ht : Real.sqrt (1 / c12) ^ 2 = 1 / c12 :=
    Real.sq_sqrt (le_of_lt (one_div_pos.mpr h12))
  have hq : 0 ≤ c12 / c6 := le_of_lt (div_pos h12 h6)
  have hs : ((c12 / c6) ^ ((1 : ℝ) / 6)) ^ 6 = c12 / c6 := by
    rw [← Real.rpow_natCast, ← Real.rpow_mul hq]
    norm_num
  constructor
  · simp only [pairEps, getDerivedParameters, if_neg hn]
    have : c6 * Real.sqrt (1 / c12) * (c6 * Real.sqrt (1 / c12))
        = c6 ^ 2 * Real.sqrt (1 / c12) ^ 2 := by ring
    rw [this, ht]
    ring
  · simp only [pairSig6, getDerivedParameters, if_neg hn]
    have : 1 / d.RIndex * ((c12 / c6) ^ ((1 : ℝ) / 6) * (1 / 2) + (c12 / c6) ^ ((1 : ℝ) / 6) * (1 / 2))
          * (1 / d.RIndex * ((c12 / c6) ^ ((1 : ℝ) / 6) * (1 / 2) + (c12 / c6) ^ ((1 : ℝ) / 6) * (1 / 2)))
          * (1 / d.RIndex * ((c12 / c6) ^ ((1 : ℝ) / 6) * (1 / 2) + (c12 / c6) ^ ((1 : ℝ) / 6) * (1 / 2))
            * (1 / d.RIndex * ((c12 / c6) ^ ((1 : ℝ) / 6) * (1 / 2) + (c12 / c6) ^ ((1 : ℝ) / 6) * (1 / 2))))
          * (1 / d.RIndex * ((c12 / c6) ^ ((1 : ℝ) / 6) * (1 / 2) + (c12 / c6) ^ ((1 : ℝ) / 6) * (1 / 2))
            * (1 / d.RIndex * ((c12 / c6) ^ ((1 : ℝ) / 6) * (1 / 2) + (c12 / c6) ^ ((1 : ℝ) / 6) * (1 / 2))))
        = ((c12 / c6) ^ ((1 : ℝ) / 6)) ^ 6 / d.RIndex ^ 6 := by
      ring
    rw [this, hs]

/-- C20: for two particles whose parameters are derived by `getDerivedParameters` from the
same `c6 > 0` and `c12 > 0` (any charges), and every separation `r > 0`, the Lennard-Jones
part `eps*(sig6 - 1)*sig6` of the pair energy equals `c12/r^12 - c6/r^6`; hence the
no-cutoff pair energy is `c12/r^12 - c6/r^6 + qq/r`. -/
theorem lennardJones_from_derivedParameters (self : ReferenceLJCoulombIxn ℝ)
    (c6 c12 q1 q2 e1 e2 : ℝ) (d : DeltaR ℝ)
    (h6 : 0 < c6) (h12 : 0 < c12) (hr : 0 < d.RIndex) :
    pairEps (getDerivedParameters Real.sqrt (fun x y => x ^ y) c6 c12 q1 e1)
          (getDerivedParameters Real.sqrt (fun x y => x ^ y) c6 c12 q2 e2)
        * (pairSig6 d (getDerivedParameters Real.sqrt (fun x y => x ^ y) c6 c12 q1 e1)
            (getDerivedParameters Real.sqrt (fun x y => x ^ y) c6 c12 q2 e2) - 1)
        * pairSig6 d (getDerivedParameters Real.sqrt (fun x y => x ^ y) c6 c12 q1 e1)
            (getDerivedParameters Real.sqrt (fun x y => x ^ y) c6 c12 q2 e2)
      = c12 / d.RIndex ^ 12 - c6 / d.RIndex ^ 6 ∧
    (self.cutoff = false →
      pairEnergy self d (getDerivedParameters Real.sqrt (fun x y => x ^ y) c6 c12 q1 e1)
          (getDerivedParameters Real.sqrt (fun x y => x ^ y) c6 c12 q2 e2)
        = c12 / d.RIndex ^ 12 - c6 / d.RIndex ^ 6
          + (e1 * q1) * (e2 * q2) * (1 / d.RIndex)) := by
  obtain ⟨heps, hsig⟩ := derived_eps_sig6 c6 c12 q1 q2 e1 e2 d h6 h12
  have hr0 : d.RIndex ≠ 0 := ne_of_gt hr
  have h60 : c6 ≠ 0 := ne_of_gt h6
  have h120 : c12 ≠ 0 := ne_of_gt h12
  have hLJ : c6 ^ 2 / c12 * (c12 / c6 / d.RIndex ^ 6 - 1) * (c12 / c6 / d.RIndex ^ 6)
      = c12 / d.RIndex ^ 12 - c6 / d.RIndex ^ 6 := by
    field_simp
    ring
  refine ⟨by rw [heps, hsig, hLJ], ?_⟩
  intro hcut
  have hQ1 : (getDerivedParameters Real.sqrt (fun x y => x ^ y) c6 c12 q1 e1).QIndex = e1 * q1 :=
    rfl
  have hQ2 : (getDerivedParameters Real.sqrt (fun x y => x ^ y) c6 c12 q2 e2).QIndex = e2 * q2 :=
    rfl
  simp only [pairEnergy, hcut, Bool.false_eq_true, if_false, heps, hsig, hLJ, hQ1, hQ2]
  ring

/-- Witness for C20: `c6 = 1`, `c12 = 1`, separation 1; the Lennard-Jones part is
`1/1 - 1/1 = 0`. -/
theorem lennardJones_from_derivedParameters_witness :
    (0 : ℝ) < 1 ∧
      pairEps (getDerivedParameters Real.sqrt (fun x y => x ^ y) (1 : ℝ) 1 1 1)
            (getDerivedParameters Real.sqrt (fun x y => x ^ y) (1 : ℝ) 1 (-1) 1)
          * (pairSig6 ⟨⟨1, 0, 0⟩, 1, 1⟩
              (getDerivedParameters Real.sqrt (fun x y => x ^ y) (1 : ℝ) 1 1 1)
              (getDerivedParameters Real.sqrt (fun x y => x ^ y) (1 : ℝ) 1 (-1) 1) - 1)
          * pairSig6 ⟨⟨1, 0, 0⟩, 1, 1⟩
              (getDerivedParameters Real.sqrt (fun x y => x ^ y) (1 : ℝ) 1 1 1)
              (getDerivedParameters Real.sqrt (fun x y => x ^ y) (1 : ℝ) 1 (-1) 1)
        = 0 :=
  ⟨one_pos,
    (lennardJones_from_derivedParameters (exampleIxn ℝ) 1 1 1 (-1) 1 1 ⟨⟨1, 0, 0⟩, 1, 1⟩
      one_pos one_pos one_pos).1.trans (by norm_num)⟩

/-- C14: the concrete scenario. Two particles with parameters derived from `c6 = 1e-3`,
`c12 = 1e-6`, charges `+1` and `-1` (`epsfacSqrt = 1`), at separation `0.3`, no cutoff and no
periodic box: the force factor computed by `calculateOneIxn` is positive, the pair energy is
negative, and the call adds `factor * displacement` to the force of particle 0 and subtracts
the same vector from the force of particle 1. -/
theorem scenario_force_positive_energy_negative (self : ReferenceLJCoulombIxn ℝ)
    (xI xJ : Vec3 ℝ) (out : Outputs ℝ) (f0 f1 : Vec3 ℝ)
    (hcut : self.cutoff = false) (hper : self.periodic = false)
    (hforces : out.forces = [f0, f1])
    (hE : ∀ byAtom, out.energyByAtom = some byAtom → byAtom.length = 2)
    (hr : (getDeltaR Real.sqrt xJ xI).RIndex = 3 / 10) :
    0 < pairDEdR self (pairDeltaR Real.sqrt self xI xJ)
          (scenarioParameters Real.sqrt (fun x y => x ^ y) 1)
          (scenarioParameters Real.sqrt (fun x y => x ^ y) (-1)) ∧
      pairEnergy self (pairDeltaR Real.sqrt self xI xJ)
          (scenarioParameters Real.sqrt (fun x y => x ^ y) 1)
          (scenarioParameters Real.sqrt (fun x y => x ^ y) (-1)) < 0 ∧
      ∃ out1, calculateOneIxn Real.sqrt self 0 1 [xI, xJ]
            [scenarioParameters Real.sqrt (fun x y => x ^ y) 1,
              scenarioParameters Real.sqrt (fun x y => x ^ y) (-1)] out = some out1 ∧
        out1.forces =
          [f0.addScaled
              (pairDEdR self (pairDeltaR Real.sqrt self xI xJ)
                (scenarioParameters Real.sqrt (fun x y => x ^ y) 1)
                (scenarioParameters Real.sqrt (fun x y => x ^ y) (-1)))
              (pairDeltaR Real.sqrt self xI xJ).d,
            f1.subScaled
              (pairDEdR self (pairDeltaR Real.sqrt self xI xJ)
                (scenarioParameters Real.sqrt (fun x y => x ^ y) 1)
                (scenarioParameters Real.sqrt (fun x y => x ^ y) (-1)))
              (pairDeltaR Real.sqrt self xI xJ).d] := by
  have hd : pairDeltaR Real.sqrt self xI xJ = getDeltaR Real.sqrt xJ xI := by
    simp [pairDeltaR, hper]
  obtain ⟨heps, hsig⟩ := derived_eps_sig6 (1 / 1000) (1 / 1000000) 1 (-1) 1 1
    (getDeltaR Real.sqrt xJ xI) (by norm_num) (by norm_num)
  have hQ1 : (getDerivedParameters Real.sqrt (fun x y => x ^ y)
      (1 / 1000 : ℝ) (1 / 1000000) 1 1).QIndex = 1 := by
    simp [getDerivedParameters]
  have hQ2 : (getDerivedParameters Real.sqrt (fun x y => x ^ y)
      (1 / 1000 : ℝ) (1 / 1000000) (-1) 1).QIndex = -1 := by
    simp [getDerivedParameters]
  refine ⟨?_, ?_, ?_⟩
  · rw [hd]
    simp only [pairDEdR, scenarioParameters, hcut, Bool.false_eq_true, if_false, heps, hsig,
      hQ1, hQ2, hr]
    norm_num
  · rw [hd]
    simp only [pairEnergy, scenarioParameters, hcut, Bool.false_eq_true, if_false, heps, hsig,
      hQ1, hQ2, hr]
    norm_num
  · have hone := calculateOneIxn_eq Real.sqrt self 0 1 [xI, xJ]
      [scenarioParameters Real.sqrt (fun x y => x ^ y) 1,
        scenarioParameters Real.sqrt (fun x y => x ^ y) (-1)] out xI xJ
      (scenarioParameters Real.sqrt (fun x y => x ^ y) 1)
      (scenarioParameters Real.sqrt (fun x y => x ^ y) (-1)) rfl rfl rfl rfl
      (by simp [hforces]) (by simp [hforces])
      (by intro byAtom h; have := hE byAtom h; omega)
    refine ⟨_, hone, ?_⟩
    simp [hforces, List.mapIdx_cons, forceUpdate, Vec3.addScaled, Vec3.subScaled]

/-- Witness for C14: the two particles on the x axis at `x = 0.3` and `x = 0`, zero initial
forces, both energy outputs supplied. -/
theorem scenario_force_positive_energy_negative_witness :
    (getDeltaR Real.sqrt (⟨0, 0, 0⟩ : Vec3 ℝ) ⟨3 / 10, 0, 0⟩).RIndex = 3 / 10 ∧
      0 < pairDEdR (exampleIxn ℝ)
          (pairDeltaR Real.sqrt (exampleIxn ℝ) ⟨3 / 10, 0, 0⟩ ⟨0, 0, 0⟩)
          (scenarioParameters Real.sqrt (fun x y => x ^ y) 1)
          (scenarioParameters Real.sqrt (fun x y => x ^ y) (-1)) ∧
      pairEnergy (exampleIxn ℝ)
          (pairDeltaR Real.sqrt (exampleIxn ℝ) ⟨3 / 10, 0, 0⟩ ⟨0, 0, 0⟩)
          (scenarioParameters Real.sqrt (fun x y => x ^ y) 1)
          (scenarioParameters Real.sqrt (fun x y => x ^ y) (-1)) < 0 :=
  have hr : (getDeltaR Real.sqrt (⟨0, 0, 0⟩ : Vec3 ℝ) ⟨3 / 10, 0, 0⟩).RIndex = 3 / 10 := by
    have h9 : ((3 : ℝ) / 10 - 0) * (3 / 10 - 0) + (0 - 0) * (0 - 0) + (0 - 0) * (0 - 0)
        = (3 / 10) ^ 2 := by norm_num
    simp only [getDeltaR, h9]
    exact Real.sqrt_sq (by norm_num)
  have h := scenario_force_positive_energy_negative (exampleIxn ℝ) ⟨3 / 10, 0, 0⟩ ⟨0, 0, 0⟩
    (exampleOutputs ℝ) ⟨0, 0, 0⟩ ⟨0, 0, 0⟩ rfl rfl rfl
    (by intro byAtom h; simp only [exampleOutputs, Option.some.injEq] at h; subst h; rfl) hr
  ⟨hr, h.1, h.2.1⟩

/-! ## Claims about periodic wrapping -/

theorem translateAtom_zero {α : Type} [LinearOrderedField α] (atomCoordinates : List (Vec3 α)) (m : Nat) (kk : Fin 3) :
    translateAtom atomCoordinates m kk 0 = atomCoordinates := by
  unfold translateAtom
  apply List.ext_getElem?
  intro k
  rw [List.getElem?_mapIdx]
  cases atomCoordinates[k]? with
  | none => rfl
  | some v =>
    simp only [Option.map_some', Option.some.injEq]
    split
    · fin_cases kk <;> simp [Vec3.modify]
    · rfl

theorem getAt_translateAtom {α : Type} [LinearOrderedField α] (atomCoordinates : List (Vec3 α)) (m : Nat) (kk : Fin 3)
    (shift : α) (i : Int) :
    getAt (translateAtom atomCoordinates m kk shift) i
      = (getAt atomCoordinates i).map
          (fun v => if i.toNat = m then v.modify kk (fun a => a + shift) else v) := by
  unfold getAt translateAtom
  split
  · rw [List.getElem?_mapIdx]
  · rfl

section Periodic

variable {α : Type} [LinearOrderedField α] [FloorRing α]

theorem periodicDifference_add_left (a b L : α) (hL : L ≠ 0) :
    periodicDifference (a + L) b L = periodicDifference a b L := by
  unfold periodicDifference
  have h1 : (a + L - b) / L + 1 / 2 = ((a - b) / L + 1 / 2) + 1 := by
    field_simp
    ring
  simp only [h1, Int.floor_add_one, Int.cast_add, Int.cast_one]
  ring

theorem periodicDifference_add_right (a b L : α) (hL : L ≠ 0) :
    periodicDifference a (b + L) L = periodicDifference a b L := by
  unfold periodicDifference
  have h1 : (a - (b + L)) / L + 1 / 2 = ((a - b) / L + 1 / 2) - 1 := by
    field_simp
    ring
  simp only [h1, Int.floor_sub_one, Int.cast_sub, Int.cast_one]
  ring

theorem periodicDifference_add_both (a b L : α) :
    periodicDifference (a + L) (b + L) L = periodicDifference a b L := by
  unfold periodicDifference
  have h1 : a + L - (b + L) = a - b := by ring
  simp only [h1]

/-- The minimum-image difference lies in `[-L/2, L/2)` and differs from `val1 - val2` by a
whole number of periods. -/
theorem periodicDifference_minimumImage (a b L : α) (hL : 0 < L) :
    -(L / 2) ≤ periodicDifference a b L ∧ periodicDifference a b L < L / 2 ∧
      ∃ n : Int, periodicDifference a b L = (a - b) - (n : α) * L := by
  have hfl := Int.floor_le ((a - b) / L + 1 / 2)
  have hlt := Int.lt_floor_add_one ((a - b) / L + 1 / 2)
  have hd : (a - b) / L * L = a - b := by field_simp
  refine ⟨?_, ?_, ⟨⌊(a - b) / L + 1 / 2⌋, rfl⟩⟩
  · unfold periodicDifference
    have := mul_le_mul_of_nonneg_right hfl (le_of_lt hL)
    nlinarith
  · unfold periodicDifference
    have := mul_lt_mul_of_pos_right hlt hL
    nlinarith

/-- Moving either atom, or both, by one box length along one axis does not change the
periodic displacement record. -/
theorem getDeltaRPeriodic_translate (SQRT : α → α) (xI xJ box : Vec3 α) (kk : Fin 3)
    (hbox : box.get kk ≠ 0) :
    getDeltaRPeriodic SQRT (xJ.modify kk (fun a => a + box.get kk)) xI box
        = getDeltaRPeriodic SQRT xJ xI box ∧
      getDeltaRPeriodic SQRT xJ (xI.modify kk (fun a => a + box.get kk)) box
        = getDeltaRPeriodic SQRT xJ xI box ∧
      getDeltaRPeriodic SQRT (xJ.modify kk (fun a => a + box.get kk))
          (xI.modify kk (fun a => a + box.get kk)) box
        = getDeltaRPeriodic SQRT xJ xI box := by
  fin_cases kk
  · have hb : box.x ≠ 0 := hbox
    refine ⟨?_, ?_, ?_⟩ <;>
      simp [getDeltaRPeriodic, Vec3.modify, Vec3.get, periodicDifference_add_left _ _ _ hb,
        periodicDifference_add_right _ _ _ hb, periodicDifference_add_both]
  · have hb : box.y ≠ 0 := hbox
    refine ⟨?_, ?_, ?_⟩ <;>
      simp [getDeltaRPeriodic, Vec3.modify, Vec3.get, periodicDifference_add_left _ _ _ hb,
        periodicDifference_add_right _ _ _ hb, periodicDifference_add_both]
  · have hb : box.z ≠ 0 := hbox
    refine ⟨?_, ?_, ?_⟩ <;>
      simp [getDeltaRPeriodic, Vec3.modify, Vec3.get, periodicDifference_add_left _ _ _ hb,
        periodicDifference_add_right _ _ _ hb, periodicDifference_add_both]

/-- C13: in periodic mode, moving one particle by exactly one box length along one axis
leaves the result of `calculateOneIxn` (force contributions and pair energy) unchanged for
every pair; and the displacement component handed to the pair formulas is the minimum image:
for a positive period it lies in `[-L/2, L/2)` and differs from the coordinate difference by
a whole number of periods. -/
theorem calculateOneIxn_periodic_translation (SQRT : α → α) (self : ReferenceLJCoulombIxn α)
    (hper : self.periodic = true) (kk : Fin 3) (m : Nat) (ii jj : Int)
    (atomCoordinates : List (Vec3 α)) (atomParameters : List (AtomParameters α))
    (out : Outputs α) :
    calculateOneIxn SQRT self ii jj
        (translateAtom atomCoordinates m kk (self.periodicBoxSize.get kk)) atomParameters out
      = calculateOneIxn SQRT self ii jj atomCoordinates atomParameters out ∧
    (∀ a b L : α, 0 < L →
      -(L / 2) ≤ periodicDifference a b L ∧ periodicDifference a b L < L / 2 ∧
        ∃ n : Int, periodicDifference a b L = (a - b) - (n : α) * L) := by
  refine ⟨?_, fun a b L hL => periodicDifference_minimumImage a b L hL⟩
  by_cases hbox : self.periodicBoxSize.get kk = 0
  · rw [hbox, translateAtom_zero]
  · have ht := fun xI xJ =>
      getDeltaRPeriodic_translate SQRT xI xJ self.periodicBoxSize kk hbox
    unfold calculateOneIxn
    simp only [getAt_translateAtom, bind]
    cases getAt atomCoordinates jj with
    | none => rfl
    | some xJ =>
      cases getAt atomCoordinates ii with
      | none => rfl
      | some xI =>
        simp only [Option.map_some', Option.some_bind, pairDeltaR, hper, if_true]
        by_cases hi : ii.toNat = m <;> by_cases hj : jj.toNat = m <;>
          simp only [hi, hj, if_true, if_false, (ht xI xJ).1, (ht xI xJ).2.1, (ht xI xJ).2.2]

end Periodic

/-- Witness for C13: box `(2, 2, 2)`, atoms at `x = 1/2` and `x = 0`; atom 0 moved to
`x = 5/2` gives the same result. -/
theorem calculateOneIxn_periodic_translation_witness :
    (examplePeriodicIxn ℚ).periodic = true ∧
      calculateOneIxn (fun (a : ℚ) => a) (examplePeriodicIxn ℚ) 0 1
          (translateAtom [⟨1 / 2, 0, 0⟩, ⟨0, 0, 0⟩] 0 0 ((examplePeriodicIxn ℚ).periodicBoxSize.get 0))
          (exampleParameters ℚ) (exampleOutputs ℚ)
        = calculateOneIxn (fun (a : ℚ) => a) (examplePeriodicIxn ℚ) 0 1
          [⟨1 / 2, 0, 0⟩, ⟨0, 0, 0⟩] (exampleParameters ℚ) (exampleOutputs ℚ) :=
  ⟨rfl,
    (calculateOneIxn_periodic_translation (fun (a : ℚ) => a) (examplePeriodicIxn ℚ) rfl 0 0 0 1
      [⟨1 / 2, 0, 0⟩, ⟨0, 0, 0⟩] (exampleParameters ℚ) (exampleOutputs ℚ)).1⟩

/-! ## When a kernel call returns, and generic facts about the loops -/

theorem getAt_some_iff {β : Type} (xs : List β) (i : Int) (x : β) :
    getAt xs i = some x ↔ 0 ≤ i ∧ xs[i.toNat]? = some x := by
  unfold getAt
  split
  · rename_i h; simp [h]
  · rename_i h; simp [h]

theorem getAt_some_lt {β : Type} (xs : List β) (i : Int) (x : β) (h : getAt xs i = some x) :
    0 ≤ i ∧ i.toNat < xs.length := by
  obtain ⟨h0, h1⟩ := (getAt_some_iff xs i x).1 h
  refine ⟨h0, ?_⟩
  by_contra hlt
  rw [List.getElem?_eq_none (by omega)] at h1
  cases h1

theorem setAt_some_iff {β : Type} (xs ys : List β) (i : Int) (v : β) :
    setAt xs i v = some ys ↔ (0 ≤ i ∧ i.toNat < xs.length) ∧ ys = xs.set i.toNat v := by
  unfold setAt
  split
  · rename_i h
    simp only [Option.some.injEq, h, true_and]
    exact eq_comm
  · rename_i h
    simp [h]

theorem accumulateForce_some {α : Type} [LinearOrderedField α] (kk : Fin 3) (force : α)
    (ii jj : Int) (forces fs : List (Vec3 α))
    (h : accumulateForce kk force ii jj forces = some fs) :
    0 ≤ ii ∧ ii.toNat < forces.length ∧ 0 ≤ jj ∧ jj.toNat < forces.length := by
  simp only [accumulateForce, bind, Option.bind_eq_some] at h
  obtain ⟨fI, hI, forces1, hs1, fJ, hJ, hs2⟩ := h
  obtain ⟨hi0, hil⟩ := getAt_some_lt _ _ _ hI
  obtain ⟨⟨hj0, hjl⟩, _⟩ := (setAt_some_iff _ _ _ _).1 hs2
  obtain ⟨_, hf1⟩ := (setAt_some_iff _ _ _ _).1 hs1
  rw [hf1, List.length_set] at hjl
  exact ⟨hi0, hil, hj0, hjl⟩

theorem accumulateEnergyByAtom_some {α : Type} [LinearOrderedField α] (energy : α)
    (ii jj : Int) (byAtom e1 : List α)
    (h : accumulateEnergyByAtom energy ii jj byAtom = some e1) :
    ii.toNat < byAtom.length ∧ jj.toNat < byAtom.length := by
  simp only [accumulateEnergyByAtom, bind, Option.bind_eq_some] at h
  obtain ⟨eI, hI, byAtom1, hs1, eJ, hJ, hs2⟩ := h
  obtain ⟨_, hil⟩ := getAt_some_lt _ _ _ hI
  obtain ⟨⟨_, hjl⟩, _⟩ := (setAt_some_iff _ _ _ _).1 hs2
  obtain ⟨_, hf1⟩ := (setAt_some_iff _ _ _ _).1 hs1
  rw [hf1, List.length_set] at hjl
  exact ⟨hil, hjl⟩

section Inversion

variable {α : Type} [LinearOrderedField α] [FloorRing α]

/-- A call of `calculateOneIxn` that returns has its atom indices inside every array. -/
theorem calculateOneIxn_inRange (SQRT : α → α) (self : ReferenceLJCoulombIxn α) (ii jj : Int)
    (atomCoordinates : List (Vec3 α)) (atomParameters : List (AtomParameters α))
    (out out1 : Outputs α)
    (h : calculateOneIxn SQRT self ii jj atomCoordinates atomParameters out = some out1) :
    pairInRange ii jj atomCoordinates atomParameters out := by
  simp only [calculateOneIxn, bind, Option.bind_eq_some] at h
  obtain ⟨xJ, hxJ, xI, hxI, pI, hpI, pJ, hpJ, f0, hf0, f1, hf1, f2, hf2, hrest⟩ := h
  obtain ⟨hj0, hjc⟩ := getAt_some_lt _ _ _ hxJ
  obtain ⟨hi0, hic⟩ := getAt_some_lt _ _ _ hxI
  obtain ⟨_, hip⟩ := getAt_some_lt _ _ _ hpI
  obtain ⟨_, hjp⟩ := getAt_some_lt _ _ _ hpJ
  obtain ⟨_, hif, _, hjf⟩ := accumulateForce_some _ _ _ _ _ _ hf0
  refine ⟨hi0, hj0, hic, hjc, hip, hjp, hif, hjf, ?_⟩
  intro byAtom hb
  rw [hb] at hrest
  simp only [Option.isSome_some, Bool.or_true, if_true, Option.bind_eq_some] at hrest
  obtain ⟨e1, he1, _⟩ := hrest
  exact accumulateEnergyByAtom_some _ _ _ _ _ he1

/-- A call of `calculateOneIxn` with atom indices inside every array returns the entry-wise
updated outputs. -/
theorem calculateOneIxn_of_inRange (SQRT : α → α) (self : ReferenceLJCoulombIxn α)
    (ii jj : Int) (atomCoordinates : List (Vec3 α)) (atomParameters : List (AtomParameters α))
    (out : Outputs α) (h : pairInRange ii jj atomCoordinates atomParameters out) :
    ∃ xI xJ pI pJ, atomCoordinates[ii.toNat]? = some xI ∧
      atomCoordinates[jj.toNat]? = some xJ ∧ atomParameters[ii.toNat]? = some pI ∧
      atomParameters[jj.toNat]? = some pJ ∧
      calculateOneIxn SQRT self ii jj atomCoordinates atomParameters out
        = some
            { forces := out.forces.mapIdx
                (forceUpdate ii.toNat jj.toNat
                  (pairDEdR self (pairDeltaR SQRT self xI xJ) pI pJ)
                  (pairDeltaR SQRT self xI xJ).d)
              energyByAtom := out.energyByAtom.map (fun byAtom =>
                byAtom.mapIdx (energyUpdate ii.toNat jj.toNat
                  (pairEnergy self (pairDeltaR SQRT self xI xJ) pI pJ)))
              totalEnergy := out.totalEnergy.map (fun e =>
                e + pairEnergy self (pairDeltaR SQRT self xI xJ) pI pJ) } := by
  obtain ⟨hi0, hj0, hic, hjc, hip, hjp, hif, hjf, hE⟩ := h
  refine ⟨atomCoordinates[ii.toNat], atomCoordinates[jj.toNat], atomParameters[ii.toNat],
    atomParameters[jj.toNat], List.getElem?_eq_getElem hic, List.getElem?_eq_getElem hjc,
    List.getElem?_eq_getElem hip, List.getElem?_eq_getElem hjp, ?_⟩
  have h := calculateOneIxn_eq SQRT self ii.toNat jj.toNat atomCoordinates atomParameters out
    atomCoordinates[ii.toNat] atomCoordinates[jj.toNat] atomParameters[ii.toNat]
    atomParameters[jj.toNat] (List.getElem?_eq_getElem hic) (List.getElem?_eq_getElem hjc)
    (List.getElem?_eq_getElem hip) (List.getElem?_eq_getElem hjp) hif hjf hE
  rw [Int.toNat_of_nonneg hi0, Int.toNat_of_nonneg hj0] at h
  exact h

end Inversion

theorem forLoop_inv {σ : Type} (P : σ → Prop) (body : Int → σ → Option σ)
    (hP : ∀ i s s1, P s → body i s = some s1 → P s1) :
    ∀ (n : Nat) (i : Int) (s s1 : σ), P s → forLoop body n i s = some s1 → P s1 := by
  intro n
  induction n with
  | zero =>
    intro i s s1 hs h
    simp only [forLoop, Option.some.injEq] at h
    exact h ▸ hs
  | succ n ih =>
    intro i s s1 hs h
    rw [forLoop_succ, Option.bind_eq_some] at h
    obtain ⟨s2, h2, h3⟩ := h
    exact ih (i + 1) s2 s1 (hP i s s2 hs h2) h3

theorem forLoop_map {σ τ : Type} (f : σ → τ) (P : σ → Prop) (body : Int → σ → Option σ)
    (body1 : Int → τ → Option τ)
    (hP : ∀ i s s1, P s → body i s = some s1 → P s1)
    (hcomm : ∀ i s, P s → body1 i (f s) = (body i s).map f) :
    ∀ (n : Nat) (i : Int) (s : σ), P s →
      forLoop body1 n i (f s) = (forLoop body n i s).map f := by
  intro n
  induction n with
  | zero => intro i s _; rfl
  | succ n ih =>
    intro i s hs
    rw [forLoop_succ, forLoop_succ, hcomm i s hs]
    cases hb : body i s with
    | none => rfl
    | some s2 =>
      simp only [Option.map_some', Option.some_bind]
      exact ih (i + 1) s2 (hP i s s2 hs hb)

theorem calculatePairIxnWith_noCutoff {σ : Type} (one : Int → Int → σ → Option σ)
    (neighborList : List (Int × Int)) (numberOfAtoms : Int) (exclusions : List (List Int))
    (s : σ) :
    calculatePairIxnWith one false neighborList numberOfAtoms exclusions s
      = if numberOfAtoms < 0 then none
        else
          (forRange 0 numberOfAtoms (fun ii ex => setAt ex ii (-1))
              (List.replicate numberOfAtoms.toNat 0)).bind fun ex =>
            (forRange 0 numberOfAtoms (exhaustiveRow one exclusions numberOfAtoms)
              (ex, s)).bind fun r => some r.2 := by
  unfold calculatePairIxnWith
  simp only [Bool.false_eq_true, if_false]
  rfl

theorem calculatePairIxnWith_withCutoff {σ : Type} (one : Int → Int → σ → Option σ)
    (neighborList : List (Int × Int)) (numberOfAtoms : Int) (exclusions : List (List Int))
    (s : σ) :
    calculatePairIxnWith one true neighborList numberOfAtoms exclusions s
      = forRange 0 (neighborList.length : Int)
          (fun i s => (getAt neighborList i).bind fun pair => one pair.1 pair.2 s) s := by
  unfold calculatePairIxnWith
  simp only [if_true]
  rfl

section LoopMap

variable {σ τ : Type} (f : σ → τ) (P : σ → Prop) (one : Int → Int → σ → Option σ)
  (one1 : Int → Int → τ → Option τ)

theorem exhaustiveRow_inv (hP : ∀ i j s s1, P s → one i j s = some s1 → P s1)
    (exclusions : List (List Int)) (numberOfAtoms ii : Int) (st st1 : List Int × σ)
    (hs : P st.2) (h : exhaustiveRow one exclusions numberOfAtoms ii st = some st1) :
    P st1.2 := by
  simp only [exhaustiveRow, Option.bind_eq_some] at h
  obtain ⟨row, _, count, _, ex, _, s1, hinner, hst⟩ := h
  simp only [Option.some.injEq] at hst
  subst hst
  refine forLoop_inv P _ ?_ _ _ st.2 s1 hs hinner
  intro jj s s2 hps hb
  simp only [Option.bind_eq_some] at hb
  obtain ⟨owner, _, hrun⟩ := hb
  split at hrun
  · exact hP ii jj s s2 hps hrun
  · simp only [Option.some.injEq] at hrun
    exact hrun ▸ hps

theorem exhaustiveRow_map (hP : ∀ i j s s1, P s → one i j s = some s1 → P s1)
    (hcomm : ∀ i j s, P s → one1 i j (f s) = (one i j s).map f)
    (exclusions : List (List Int)) (numberOfAtoms ii : Int) (st : List Int × σ)
    (hs : P st.2) :
    exhaustiveRow one1 exclusions numberOfAtoms ii (st.1, f st.2)
      = (exhaustiveRow one exclusions numberOfAtoms ii st).map (fun r => (r.1, f r.2)) := by
  simp only [exhaustiveRow]
  cases getAt exclusions ii with
  | none => rfl
  | some row =>
    simp only [Option.some_bind]
    cases getAt row 0 with
    | none => rfl
    | some count =>
      simp only [Option.some_bind]
      cases forRange 1 (count + 1)
          (fun jj ex => (getAt row jj).bind fun e => setAt ex e ii) st.1 with
      | none => rfl
      | some ex =>
        simp only [Option.some_bind]
        have hinner := forLoop_map f P
          (fun jj s => (getAt ex jj).bind fun owner =>
            if owner ≠ ii then one ii jj s else some s)
          (fun jj t => (getAt ex jj).bind fun owner =>
            if owner ≠ ii then one1 ii jj t else some t)
          (by
            intro jj s s2 hps hb
            simp only [Option.bind_eq_some] at hb
            obtain ⟨owner, _, hrun⟩ := hb
            split at hrun
            · exact hP ii jj s s2 hps hrun
            · simp only [Option.some.injEq] at hrun
              exact hrun ▸ hps)
          (by
            intro jj s hps
            beta_reduce
            cases getAt ex jj with
            | none => rfl
            | some owner =>
              simp only [Option.some_bind]
              split
              · exact hcomm ii jj s hps
              · rfl)
          (numberOfAtoms - (ii + 1)).toNat (ii + 1) st.2 hs
        simp only [forRange]
        rw [hinner]
        cases forLoop (fun jj s => (getAt ex jj).bind fun owner =>
            if owner ≠ ii then one ii jj s else some s)
          (numberOfAtoms - (ii + 1)).toNat (ii + 1) st.2 <;> rfl

/-- A state transformation `f` that commutes with the kernel (on states satisfying an
invariant `P` of the kernel) commutes with the whole pair loop. -/
theorem calculatePairIxnWith_map (hP : ∀ i j s s1, P s → one i j s = some s1 → P s1)
    (hcomm : ∀ i j s, P s → one1 i j (f s) = (one i j s).map f)
    (cutoff : Bool) (neighborList : List (Int × Int)) (numberOfAtoms : Int)
    (exclusions : List (List Int)) (s : σ) (hs : P s) :
    calculatePairIxnWith one1 cutoff neighborList numberOfAtoms exclusions (f s)
      = (calculatePairIxnWith one cutoff neighborList numberOfAtoms exclusions s).map f := by
  cases cutoff with
  | true =>
    rw [calculatePairIxnWith_withCutoff, calculatePairIxnWith_withCutoff]
    refine forLoop_map f P _ _ ?_ ?_ _ _ s hs
    · intro i s0 s1 hps hb
      simp only [Option.bind_eq_some] at hb
      obtain ⟨pair, _, hrun⟩ := hb
      exact hP _ _ s0 s1 hps hrun
    · intro i s0 hps
      beta_reduce
      cases getAt neighborList i with
      | none => rfl
      | some pair => exact hcomm _ _ s0 hps
  | false =>
    rw [calculatePairIxnWith_noCutoff, calculatePairIxnWith_noCutoff]
    split
    · rfl
    · cases forRange 0 numberOfAtoms (fun ii ex => setAt ex ii (-1))
          (List.replicate numberOfAtoms.toNat 0) with
      | none => rfl
      | some ex =>
        simp only [Option.some_bind]
        have houter := forLoop_map (fun (r : List Int × σ) => (r.1, f r.2))
          (fun (r : List Int × σ) => P r.2)
          (exhaustiveRow one exclusions numberOfAtoms)
          (exhaustiveRow one1 exclusions numberOfAtoms)
          (fun ii st st1 hps hb =>
            exhaustiveRow_inv P one hP exclusions numberOfAtoms ii st st1 hps hb)
          (fun ii st hps =>
            exhaustiveRow_map f P one one1 hP hcomm exclusions numberOfAtoms ii st hps)
          (numberOfAtoms - 0).toNat 0 (ex, s) hs
        simp only [forRange]
        rw [houter]
        cases forLoop (exhaustiveRow one exclusions numberOfAtoms) (numberOfAtoms - 0).toNat 0
          (ex, s) <;> rfl

/-- An invariant of the kernel is an invariant of the whole pair loop. -/
theorem calculatePairIxnWith_inv (hP : ∀ i j s s1, P s → one i j s = some s1 → P s1)
    (cutoff : Bool) (neighborList : List (Int × Int)) (numberOfAtoms : Int)
    (exclusions : List (List Int)) (s s1 : σ) (hs : P s)
    (h : calculatePairIxnWith one cutoff neighborList numberOfAtoms exclusions s = some s1) :
    P s1 := by
  cases cutoff with
  | true =>
    rw [calculatePairIxnWith_withCutoff] at h
    refine forLoop_inv P _ ?_ _ _ s s1 hs h
    intro i s0 s2 hps hb
    simp only [Option.bind_eq_some] at hb
    obtain ⟨pair, _, hrun⟩ := hb
    exact hP _ _ s0 s2 hps hrun
  | false =>
    rw [calculatePairIxnWith_noCutoff] at h
    split at h
    · cases h
    · simp only [Option.bind_eq_some, Option.some.injEq] at h
      obtain ⟨ex, _, r, hr, hr2⟩ := h
      subst hr2
      exact forLoop_inv (fun (r : List Int × σ) => P r.2) _
        (fun ii st st1 hps hb =>
          exhaustiveRow_inv P one hP exclusions numberOfAtoms ii st st1 hps hb)
        _ _ (ex, s) r hs hr

end LoopMap

/-! ## Claims about accumulation -/

theorem mapIdx_zipWith_right {β γ : Type} (h : β → γ → γ) (g : Nat → γ → γ)
    (hg : ∀ k x y, g k (h x y) = h x (g k y)) (l1 : List β) (l2 : List γ) :
    (List.zipWith h l1 l2).mapIdx g = List.zipWith h l1 (l2.mapIdx g) := by
  apply List.ext_getElem?
  intro k
  rw [List.getElem?_mapIdx, List.getElem?_zipWith', List.getElem?_zipWith',
    List.getElem?_mapIdx]
  cases l1[k]? with
  | none => rfl
  | some x =>
    cases l2[k]? with
    | none => rfl
    | some y => simp [hg]

theorem pairInRange_congr {α : Type} (ii jj : Int) (atomCoordinates : List (Vec3 α))
    (atomParameters : List (AtomParameters α)) (o o1 : Outputs α)
    (hf : o.forces.length = o1.forces.length)
    (he : o.energyByAtom.map List.length = o1.energyByAtom.map List.length)
    (h : pairInRange ii jj atomCoordinates atomParameters o) :
    pairInRange ii jj atomCoordinates atomParameters o1 := by
  obtain ⟨hi0, hj0, hic, hjc, hip, hjp, hif, hjf, hE⟩ := h
  refine ⟨hi0, hj0, hic, hjc, hip, hjp, hf ▸ hif, hf ▸ hjf, ?_⟩
  intro b1 hb1
  rw [hb1] at he
  cases hb : o.energyByAtom with
  | none => rw [hb] at he; cases he
  | some b =>
    rw [hb] at he
    simp only [Option.map_some', Option.some.injEq] at he
    have := hE b hb
    omega

section Additive

variable {α : Type} [LinearOrderedField α]

theorem forceUpdate_add (i j : Nat) (c : α) (d : Vec3 α) (k : Nat) (x y : Vec3 α) :
    forceUpdate i j c d k (Vec3.add x y) = Vec3.add x (forceUpdate i j c d k y) := by
  unfold forceUpdate Vec3.add
  by_cases hi : k = i
  · subst hi
    by_cases hj : k = j
    · subst hj
      simp only [if_true, Vec3.mk.injEq]
      refine ⟨?_, ?_, ?_⟩ <;> ring
    · simp only [if_true, if_neg hj, Vec3.mk.injEq]
      refine ⟨?_, ?_, ?_⟩ <;> ring
  · by_cases hj : k = j
    · subst hj
      simp only [if_true, if_neg hi, Vec3.mk.injEq]
      refine ⟨?_, ?_, ?_⟩ <;> ring
    · simp only [if_neg hi, if_neg hj]

theorem energyUpdate_add (i j : Nat) (e : α) (k : Nat) (x y : α) :
    energyUpdate i j e k (x + y) = x + energyUpdate i j e k y := by
  unfold energyUpdate
  by_cases hi : k = i
  · subst hi
    by_cases hj : k = j
    · subst hj
      simp only [if_true]
      ring
    · simp only [if_true, if_neg hj]
      ring
  · by_cases hj : k = j
    · subst hj
      simp only [if_true, if_neg hi]
      ring
    · simp only [if_neg hi, if_neg hj]

theorem add_shape (a o : Outputs α) (h : Outputs.sameShape a o) :
    (a.add o).forces.length = o.forces.length ∧
      (a.add o).energyByAtom.map List.length = o.energyByAtom.map List.length ∧
      (a.add o).totalEnergy.isSome = o.totalEnergy.isSome := by
  obtain ⟨hf, he, ht⟩ := h
  refine ⟨?_, ?_, ?_⟩
  · simp only [Outputs.add, List.length_zipWith]
    omega
  · simp only [Outputs.add]
    cases ha : a.energyByAtom with
    | none =>
      rw [ha] at he
      cases ho : o.energyByAtom with
      | none => rfl
      | some y => rw [ho] at he; cases he
    | some x =>
      rw [ha] at he
      cases ho : o.energyByAtom with
      | none => simp [ho] at he
      | some y =>
        rw [ho] at he
        simp only [Option.map_some', Option.some.injEq] at he
        simp only [Option.map_some', Option.some.injEq, List.length_zipWith]
        omega
  · simp only [Outputs.add]
    cases ha : a.totalEnergy with
    | none =>
      rw [ha] at ht
      cases ho : o.totalEnergy with
      | none => rfl
      | some y => rw [ho] at ht; cases ht
    | some x =>
      rw [ha] at ht
      cases ho : o.totalEnergy with
      | none => simp [ho] at ht
      | some y => rfl

theorem add_zeroLike (a : Outputs α) : a.add a.zeroLike = a := by
  obtain ⟨forces, byAtom, total⟩ := a
  simp only [Outputs.add, Outputs.zeroLike, Outputs.mk.injEq]
  refine ⟨?_, ?_, ?_⟩
  · apply List.ext_getElem?
    intro k
    rw [List.getElem?_zipWith', List.getElem?_map]
    cases forces[k]? with
    | none => rfl
    | some v => simp [Vec3.add]
  · cases byAtom with
    | none => rfl
    | some x =>
      simp only [Option.map_some', Option.some.injEq]
      apply List.ext_getElem?
      intro k
      rw [List.getElem?_zipWith', List.getElem?_map]
      cases x[k]? with
      | none => rfl
      | some v => simp
  · cases total with
    | none => rfl
    | some x => simp

theorem sameShape_zeroLike (a : Outputs α) : Outputs.sameShape a a.zeroLike := by
  obtain ⟨forces, byAtom, total⟩ := a
  refine ⟨?_, ?_, ?_⟩
  · simp [Outputs.zeroLike]
  · cases byAtom <;> simp [Outputs.zeroLike]
  · cases total <;> simp [Outputs.zeroLike]

variable [FloorRing α]

/-- The shape of the outputs is not changed by a kernel call. -/
theorem calculateOneIxn_shape (SQRT : α → α) (self : ReferenceLJCoulombIxn α) (ii jj : Int)
    (atomCoordinates : List (Vec3 α)) (atomParameters : List (AtomParameters α))
    (a o o1 : Outputs α) (hs : Outputs.sameShape a o)
    (h : calculateOneIxn SQRT self ii jj atomCoordinates atomParameters o = some o1) :
    Outputs.sameShape a o1 := by
  have hr := calculateOneIxn_inRange SQRT self ii jj atomCoordinates atomParameters o o1 h
  obtain ⟨xI, xJ, pI, pJ, _, _, _, _, heq⟩ :=
    calculateOneIxn_of_inRange SQRT self ii jj atomCoordinates atomParameters o hr
  rw [heq] at h
  simp only [Option.some.injEq] at h
  subst h
  obtain ⟨hf, he, ht⟩ := hs
  refine ⟨?_, ?_, ?_⟩
  · simpa using hf
  · rw [he]
    cases o.energyByAtom <;> simp
  · rw [ht]
    cases o.totalEnergy <;> simp

/-- A kernel call on `a + o` returns `a +` the result of the call on `o`, for `a` of the
shape of `o`. -/
theorem calculateOneIxn_add (SQRT : α → α) (self : ReferenceLJCoulombIxn α) (ii jj : Int)
    (atomCoordinates : List (Vec3 α)) (atomParameters : List (AtomParameters α))
    (a o : Outputs α) (hs : Outputs.sameShape a o) :
    calculateOneIxn SQRT self ii jj atomCoordinates atomParameters (a.add o)
      = (calculateOneIxn SQRT self ii jj atomCoordinates atomParameters o).map
          (fun delta => a.add delta) := by
  obtain ⟨hsf, hse, hst⟩ := add_shape a o hs
  by_cases hr : pairInRange ii jj atomCoordinates atomParameters o
  · have hr1 : pairInRange ii jj atomCoordinates atomParameters (a.add o) :=
      pairInRange_congr ii jj atomCoordinates atomParameters o (a.add o) hsf.symm hse.symm hr
    obtain ⟨xI, xJ, pI, pJ, hxI, hxJ, hpI, hpJ, heq⟩ :=
      calculateOneIxn_of_inRange SQRT self ii jj atomCoordinates atomParameters o hr
    obtain ⟨xI1, xJ1, pI1, pJ1, hxI1, hxJ1, hpI1, hpJ1, heq1⟩ :=
      calculateOneIxn_of_inRange SQRT self ii jj atomCoordinates atomParameters (a.add o) hr1
    rw [hxI] at hxI1
    rw [hxJ] at hxJ1
    rw [hpI] at hpI1
    rw [hpJ] at hpJ1
    cases hxI1
    cases hxJ1
    cases hpI1
    cases hpJ1
    rw [heq, heq1]
    simp only [Option.map_some', Option.some.injEq]
    obtain ⟨hf, he, ht⟩ := hs
    simp only [Outputs.add, Outputs.mk.injEq]
    refine ⟨?_, ?_, ?_⟩
    · exact mapIdx_zipWith_right Vec3.add _ (fun k x y => forceUpdate_add _ _ _ _ k x y) _ _
    · cases ha : a.energyByAtom with
      | none => cases o.energyByAtom <;> rfl
      | some x =>
        cases ho : o.energyByAtom with
        | none => rfl
        | some y =>
          simp only [Option.map_some', Option.some.injEq]
          exact mapIdx_zipWith_right (fun u v => u + v) _
            (fun k x y => energyUpdate_add _ _ _ k x y) _ _
    · cases ha : a.totalEnergy with
      | none => cases o.totalEnergy <;> rfl
      | some x =>
        cases ho : o.totalEnergy with
        | none => rfl
        | some y =>
          simp only [Option.map_some', Option.some.injEq]
          ring
  · have h1 : calculateOneIxn SQRT self ii jj atomCoordinates atomParameters o = none := by
      cases hc : calculateOneIxn SQRT self ii jj atomCoordinates atomParameters o with
      | none => rfl
      | some o1 => exact absurd (calculateOneIxn_inRange _ _ _ _ _ _ _ _ hc) hr
    have h2 : calculateOneIxn SQRT self ii jj atomCoordinates atomParameters (a.add o)
        = none := by
      cases hc : calculateOneIxn SQRT self ii jj atomCoordinates atomParameters (a.add o) with
      | none => rfl
      | some o1 =>
        exact absurd (pairInRange_congr ii jj atomCoordinates atomParameters (a.add o) o
          hsf hse (calculateOneIxn_inRange _ _ _ _ _ _ _ _ hc)) hr
    rw [h1, h2]
    rfl

/-- C15: forces and energies are accumulated additively. For every input and every initial
content of the outputs, the outputs after `calculatePairIxn` are the initial outputs plus,
entry by entry, the outputs that the same call produces when started from all zeros (and
the call fails from the initial outputs exactly when it fails from zeros). -/
theorem calculatePairIxn_additive (SQRT : α → α) (self : ReferenceLJCoulombIxn α)
    (numberOfAtoms : Int) (atomCoordinates : List (Vec3 α))
    (atomParameters : List (AtomParameters α)) (exclusions : List (List Int))
    (out : Outputs α) :
    calculatePairIxn SQRT self numberOfAtoms atomCoordinates atomParameters exclusions out
      = (calculatePairIxn SQRT self numberOfAtoms atomCoordinates atomParameters exclusions
          out.zeroLike).map (fun delta => out.add delta) := by
  have h := calculatePairIxnWith_map (fun delta => out.add delta)
    (fun o => Outputs.sameShape out o)
    (fun ii jj o => calculateOneIxn SQRT self ii jj atomCoordinates atomParameters o)
    (fun ii jj o => calculateOneIxn SQRT self ii jj atomCoordinates atomParameters o)
    (fun ii jj o o1 hs hc =>
      calculateOneIxn_shape SQRT self ii jj atomCoordinates atomParameters out o o1 hs hc)
    (fun ii jj o hs =>
      calculateOneIxn_add SQRT self ii jj atomCoordinates atomParameters out o hs)
    self.cutoff self.neighborList numberOfAtoms exclusions out.zeroLike
    (sameShape_zeroLike out)
  simp only [add_zeroLike] at h
  exact h

end Additive

/-- C19: the energy outputs do not affect the forces, and nothing else is touched when no
energy is requested. For two output records with the same force array (whatever energy
outputs each supplies) and atom indices inside all arrays, both calls of `calculateOneIxn`
return and produce the same force array; and when neither `totalEnergy` nor `energyByAtom`
is supplied, both stay absent in the result and every force entry other than those of the
two atoms is unchanged. -/
theorem calculateOneIxn_energy_on_request {α : Type} [LinearOrderedField α] [FloorRing α]
    (SQRT : α → α) (self : ReferenceLJCoulombIxn α) (ii jj : Int)
    (atomCoordinates : List (Vec3 α)) (atomParameters : List (AtomParameters α))
    (outA outB : Outputs α) (hforces : outA.forces = outB.forces)
    (hA : pairInRange ii jj atomCoordinates atomParameters outA)
    (hB : pairInRange ii jj atomCoordinates atomParameters outB) :
    ∃ o1 o2,
      calculateOneIxn SQRT self ii jj atomCoordinates atomParameters outA = some o1 ∧
      calculateOneIxn SQRT self ii jj atomCoordinates atomParameters outB = some o2 ∧
      o1.forces = o2.forces ∧
      (outA.energyByAtom = none → outA.totalEnergy = none →
        o1.energyByAtom = none ∧ o1.totalEnergy = none ∧
          o1.forces.length = outA.forces.length ∧
          ∀ k : Nat, k ≠ ii.toNat → k ≠ jj.toNat → o1.forces[k]? = outA.forces[k]?) := by
  obtain ⟨xI, xJ, pI, pJ, hxI, hxJ, hpI, hpJ, heqA⟩ :=
    calculateOneIxn_of_inRange SQRT self ii jj atomCoordinates atomParameters outA hA
  obtain ⟨xI1, xJ1, pI1, pJ1, hxI1, hxJ1, hpI1, hpJ1, heqB⟩ :=
    calculateOneIxn_of_inRange SQRT self ii jj atomCoordinates atomParameters outB hB
  rw [hxI] at hxI1
  rw [hxJ] at hxJ1
  rw [hpI] at hpI1
  rw [hpJ] at hpJ1
  cases hxI1
  cases hxJ1
  cases hpI1
  cases hpJ1
  refine ⟨_, _, heqA, heqB, ?_, ?_⟩
  · simp only [hforces]
  · intro hnoneE hnoneT
    refine ⟨by simp only [hnoneE, Option.map_none'], by simp only [hnoneT, Option.map_none'],
      by simp only [List.length_mapIdx], ?_⟩
    intro k hki hkj
    simp only [List.getElem?_mapIdx]
    cases outA.forces[k]? with
    | none => rfl
    | some v => simp only [Option.map_some', forceUpdate, if_neg hki, if_neg hkj]

/-- Witness for C19: the two example atoms, once with both energy outputs supplied and once
with none; both calls return. -/
theorem calculateOneIxn_energy_on_request_witness :
    pairInRange 0 1 (exampleCoordinates ℚ) (exampleParameters ℚ) (exampleOutputs ℚ) ∧
      pairInRange 0 1 (exampleCoordinates ℚ) (exampleParameters ℚ)
        (exampleOutputs ℚ).withoutEnergy ∧
      ∃ o1 o2,
        calculateOneIxn (fun (a : ℚ) => a) (exampleIxn ℚ) 0 1 (exampleCoordinates ℚ)
          (exampleParameters ℚ) (exampleOutputs ℚ) = some o1 ∧
        calculateOneIxn (fun (a : ℚ) => a) (exampleIxn ℚ) 0 1 (exampleCoordinates ℚ)
          (exampleParameters ℚ) (exampleOutputs ℚ).withoutEnergy = some o2 ∧
        o1.forces = o2.forces :=
  have hA : pairInRange 0 1 (exampleCoordinates ℚ) (exampleParameters ℚ) (exampleOutputs ℚ) :=
    ⟨by decide, by decide, by decide, by decide, by decide, by decide, by decide, by decide,
      by intro byAtom h; simp only [exampleOutputs, Option.some.injEq] at h; subst h; decide⟩
  have hB : pairInRange 0 1 (exampleCoordinates ℚ) (exampleParameters ℚ)
      (exampleOutputs ℚ).withoutEnergy :=
    ⟨by decide, by decide, by decide, by decide, by decide, by decide, by decide, by decide,
      by intro byAtom h; cases h⟩
  ⟨hA, hB,
    (calculateOneIxn_energy_on_request (fun (a : ℚ) => a) (exampleIxn ℚ) 0 1
      (exampleCoordinates ℚ) (exampleParameters ℚ) (exampleOutputs ℚ)
      (exampleOutputs ℚ).withoutEnergy rfl hA hB).elim
      (fun o1 h => h.elim (fun o2 h2 => ⟨o1, o2, h2.1, h2.2.1, h2.2.2.1⟩))⟩

/-! ## Claims relating force and energy, and the reaction field at the cutoff -/

/-- The pair energy and the force factor depend on the displacement record only through its
length: for every pair of positions they are the values at the separation `r`. -/
theorem pair_values_at_separation (self : ReferenceLJCoulombIxn ℝ) (xI xJ : Vec3 ℝ)
    (pI pJ : AtomParameters ℝ) :
    pairEnergy self (pairDeltaR Real.sqrt self xI xJ) pI pJ
        = energyAtSeparation self pI pJ (pairDeltaR Real.sqrt self xI xJ).RIndex ∧
      pairDEdR self (pairDeltaR Real.sqrt self xI xJ) pI pJ
        = forceFactorAtSeparation self pI pJ (pairDeltaR Real.sqrt self xI xJ).RIndex := by
  have h2 := pairDeltaR_sq self xI xJ
  constructor
  · simp only [energyAtSeparation, pairEnergy, pairSig6, pairEps, separationRecord, ← h2]
    split <;> ring
  · simp only [forceFactorAtSeparation, pairDEdR, pairSig6, pairEps, separationRecord, ← h2]
    split <;> ring

/-- The derivative of the pair energy with respect to the separation. -/
theorem hasDerivAt_energyAtSeparation (self : ReferenceLJCoulombIxn ℝ)
    (pI pJ : AtomParameters ℝ) (r : ℝ) (hr : 0 < r) :
    HasDerivAt (energyAtSeparation self pI pJ)
      (-(r * forceFactorAtSeparation self pI pJ r)) r := by
  have hr0 : r ≠ 0 := ne_of_gt hr
  have hu : HasDerivAt (fun ρ : ℝ => ρ⁻¹) (-(r ^ 2)⁻¹) r := hasDerivAt_inv hr0
  have hs := hu.mul_const (pI.SigIndex + pJ.SigIndex)
  have hs6 := hs.pow 6
  have hsq : HasDerivAt (fun ρ : ℝ => ρ ^ 2) (2 * r) r := by
    simpa using hasDerivAt_pow 2 r
  by_cases hc : self.cutoff = true
  · have hE := (((hs6.sub_const 1).const_mul (pI.EpsIndex * pJ.EpsIndex)).mul hs6).add
      (((hu.add (hsq.const_mul self.krf)).sub_const self.crf).const_mul
        (pI.QIndex * pJ.QIndex))
    refine HasDerivAt.congr_deriv (hE.congr_of_eventuallyEq ?_) ?_
    · apply Filter.Eventually.of_forall
      intro ρ
      simp only [energyAtSeparation, pairEnergy, pairSig6, pairEps, separationRecord, hc,
        if_true, Pi.add_apply, Pi.mul_apply]
      ring
    · simp only [forceFactorAtSeparation, pairDEdR, pairSig6, pairEps, separationRecord, hc,
        if_true]
      field_simp
      ring
  · have hc1 : self.cutoff = false := by simpa using hc
    have hE := (((hs6.sub_const 1).const_mul (pI.EpsIndex * pJ.EpsIndex)).mul hs6).add
      (hu.const_mul (pI.QIndex * pJ.QIndex))
    refine HasDerivAt.congr_deriv (hE.congr_of_eventuallyEq ?_) ?_
    · apply Filter.Eventually.of_forall
      intro ρ
      simp only [energyAtSeparation, pairEnergy, pairSig6, pairEps, separationRecord, hc1,
        Bool.false_eq_true, if_false, Pi.add_apply, Pi.mul_apply]
      ring
    · simp only [forceFactorAtSeparation, pairDEdR, pairSig6, pairEps, separationRecord, hc1,
        Bool.false_eq_true, if_false]
      field_simp
      ring

/-- C21: the force is consistent with the energy. In both modes, for fixed particle
parameters and every separation `r > 0`, the force factor computed by `calculateOneIxn`
equals `-(1/r) * dE/dr`, where `E` is the pair energy the same function computes, as a
function of the separation (with `r2 = r^2`); the pair energy and the force factor of any
two positions are the values of these functions at their separation. -/
theorem forceFactor_eq_neg_deriv_energy (self : ReferenceLJCoulombIxn ℝ)
    (pI pJ : AtomParameters ℝ) (r : ℝ) (hr : 0 < r) :
    forceFactorAtSeparation self pI pJ r
        = -(1 / r) * deriv (energyAtSeparation self pI pJ) r ∧
      HasDerivAt (energyAtSeparation self pI pJ)
        (-(r * forceFactorAtSeparation self pI pJ r)) r ∧
      (∀ xI xJ : Vec3 ℝ,
        pairEnergy self (pairDeltaR Real.sqrt self xI xJ) pI pJ
            = energyAtSeparation self pI pJ (pairDeltaR Real.sqrt self xI xJ).RIndex ∧
          pairDEdR self (pairDeltaR Real.sqrt self xI xJ) pI pJ
            = forceFactorAtSeparation self pI pJ (pairDeltaR Real.sqrt self xI xJ).RIndex) := by
  have hd := hasDerivAt_energyAtSeparation self pI pJ r hr
  refine ⟨?_, hd, fun xI xJ => pair_values_at_separation self xI xJ pI pJ⟩
  rw [hd.deriv]
  field_simp

/-- Witness for C21: the example parameters without cutoff at separation 1; the force factor
is 5 and the derivative of the energy is `-5`. -/
theorem forceFactor_eq_neg_deriv_energy_witness :
    (0 : ℝ) < 1 ∧
      forceFactorAtSeparation (exampleIxn ℝ) ⟨1 / 2, 1, 1⟩ ⟨1 / 2, 1, -1⟩ 1
        = -(1 / 1) * deriv (energyAtSeparation (exampleIxn ℝ) ⟨1 / 2, 1, 1⟩ ⟨1 / 2, 1, -1⟩) 1 :=
  ⟨one_pos,
    (forceFactor_eq_neg_deriv_energy (exampleIxn ℝ) ⟨1 / 2, 1, 1⟩ ⟨1 / 2, 1, -1⟩ 1 one_pos).1⟩

/-- C22: the reaction-field electrostatic energy vanishes at the cutoff. For every cutoff
distance `rc > 0` and solvent dielectric `e` with `2e + 1 ≠ 0`, with `krf` and `crf` as set
by `setUseCutoff`, the factor `1/r + krf*r^2 - crf` is 0 at `r = rc`, and the cutoff-mode
pair energy at separation `rc` is its Lennard-Jones term `eps*(sig6 - 1)*sig6` alone. -/
theorem reactionField_zero_at_cutoff (self : ReferenceLJCoulombIxn ℝ) (rc e : ℝ)
    (neighbors : List (Int × Int)) (hrc : 0 < rc) (he : 2 * e + 1 ≠ 0) :
    1 / rc + (self.setUseCutoff (fun x y => x ^ y) rc neighbors e).krf * rc ^ 2
        - (self.setUseCutoff (fun x y => x ^ y) rc neighbors e).crf = 0 ∧
      (∀ (pI pJ : AtomParameters ℝ) (d : DeltaR ℝ), d.RIndex = rc → d.R2Index = rc ^ 2 →
        pairEnergy (self.setUseCutoff (fun x y => x ^ y) rc neighbors e) d pI pJ
          = pairEps pI pJ * (pairSig6 d pI pJ - 1) * pairSig6 d pI pJ) ∧
      (∀ pI pJ : AtomParameters ℝ,
        energyAtSeparation (self.setUseCutoff (fun x y => x ^ y) rc neighbors e) pI pJ rc
          = pairEps pI pJ * (pairSig6 (separationRecord rc) pI pJ - 1)
              * pairSig6 (separationRecord rc) pI pJ) := by
  have hrc0 : rc ≠ 0 := ne_of_gt hrc
  have hp : rc ^ (-3 : ℝ) = (rc ^ 3)⁻¹ := by
    have h1 : rc ^ (-3 : ℝ) = rc ^ (-3 : ℤ) := by
      rw [← Real.rpow_intCast]
      norm_num
    rw [h1, zpow_neg]
    norm_cast
  have hk : (self.setUseCutoff (fun x y => x ^ y) rc neighbors e).krf
      = (rc ^ 3)⁻¹ * (e - 1) / (2 * e + 1) := by
    simp only [ReferenceLJCoulombIxn.setUseCutoff, hp]
  have hcr : (self.setUseCutoff (fun x y => x ^ y) rc neighbors e).crf
      = (1 / rc) * (3 * e) / (2 * e + 1) := rfl
  have hcut : (self.setUseCutoff (fun x y => x ^ y) rc neighbors e).cutoff = true := rfl
  have hzero : 1 / rc + (self.setUseCutoff (fun x y => x ^ y) rc neighbors e).krf * rc ^ 2
      - (self.setUseCutoff (fun x y => x ^ y) rc neighbors e).crf = 0 := by
    rw [hk, hcr]
    field_simp
    ring
  refine ⟨hzero, ?_, ?_⟩
  · intro pI pJ d hR hR2
    have hq : pI.QIndex * pJ.QIndex *
        (1 / rc + (self.setUseCutoff (fun x y => x ^ y) rc neighbors e).krf * rc ^ 2
          - (self.setUseCutoff (fun x y => x ^ y) rc neighbors e).crf) = 0 := by
      rw [hzero, mul_zero]
    simp only [pairEnergy, hcut, if_true, hR, hR2]
    linarith
  · intro pI pJ
    have hq : pI.QIndex * pJ.QIndex *
        (1 / rc + (self.setUseCutoff (fun x y => x ^ y) rc neighbors e).krf * (rc * rc)
          - (self.setUseCutoff (fun x y => x ^ y) rc neighbors e).crf) = 0 := by
      have : rc * rc = rc ^ 2 := by ring
      rw [this, hzero, mul_zero]
    simp only [energyAtSeparation, pairEnergy, hcut, if_true, separationRecord]
    simp only [separationRecord] at hq ⊢
    linarith

/-- Witness for C22: cutoff distance 1 and solvent dielectric 1, so `krf = 0` and
`crf = 1`. -/
theorem reactionField_zero_at_cutoff_witness :
    (0 : ℝ) < 1 ∧ (2 * (1 : ℝ) + 1 ≠ 0) ∧
      1 / (1 : ℝ) + ((exampleIxn ℝ).setUseCutoff (fun x y => x ^ y) 1 [] 1).krf * 1 ^ 2
        - ((exampleIxn ℝ).setUseCutoff (fun x y => x ^ y) 1 [] 1).crf = 0 :=
  ⟨one_pos, by norm_num,
    (reactionField_zero_at_cutoff (exampleIxn ℝ) 1 1 [] one_pos (by norm_num)).1⟩

/-! ## Sums over the particles -/

theorem mapIdx_self {α : Type} (l : List α) (g : Nat → α → α) (hg : ∀ k v, g k v = v) :
    l.mapIdx g = l := by
  apply List.ext_getElem?
  intro k
  rw [List.getElem?_mapIdx]
  cases l[k]? with
  | none => rfl
  | some v => simp only [Option.map_some', hg]

section Sums

variable {α : Type} [LinearOrderedField α]

/-- Adding `a` at one position inside a list adds `a` to its sum. -/
theorem sum_mapIdx_pointUpdate (a : α) :
    ∀ (l : List α) (i : Nat), i < l.length → (l.mapIdx (pointUpdate i a)).sum = l.sum + a := by
  intro l
  induction l with
  | nil => intro i hi; simp at hi
  | cons x l ih =>
    intro i hi
    rw [List.mapIdx_cons, List.sum_cons, List.sum_cons]
    cases i with
    | zero =>
      have htail : l.mapIdx (fun k => pointUpdate 0 a (k + 1)) = l :=
        mapIdx_self l _ (fun k v => by simp [pointUpdate])
      rw [htail]
      simp only [pointUpdate, if_true]
      ring
    | succ i =>
      have hfun : (fun k => pointUpdate (i + 1) a (k + 1)) = pointUpdate i a := by
        funext k v
        simp [pointUpdate]
      rw [hfun, ih i (by simpa using hi)]
      simp only [pointUpdate, Nat.succ_ne_zero, if_false]
      have h0 : ¬ (0 = i + 1) := by omega
      simp only [h0, if_false]
      ring

theorem sum_mapIdx_energyUpdate (energy : α) (i j : Nat) (byAtom : List α)
    (hi : i < byAtom.length) (hj : j < byAtom.length) :
    (byAtom.mapIdx (energyUpdate i j energy)).sum = byAtom.sum + 2 * energy := by
  have hcomp : byAtom.mapIdx (energyUpdate i j energy)
      = (byAtom.mapIdx (pointUpdate i energy)).mapIdx (pointUpdate j energy) := by
    rw [List.mapIdx_mapIdx]
    rfl
  rw [hcomp, sum_mapIdx_pointUpdate energy _ j (by simpa using hj),
    sum_mapIdx_pointUpdate energy _ i hi]
  ring

theorem sum_component_forceUpdate (comp : Vec3 α → α) (c : α) (d : Vec3 α) (i j : Nat)
    (hcomp : ∀ k v, comp (forceUpdate i j c d k v)
      = pointUpdate j (-(c * comp d)) k (pointUpdate i (c * comp d) k (comp v)))
    (forces : List (Vec3 α)) (hi : i < forces.length) (hj : j < forces.length) :
    ((forces.mapIdx (forceUpdate i j c d)).map comp).sum = (forces.map comp).sum := by
  have hmap : (forces.mapIdx (forceUpdate i j c d)).map comp
      = ((forces.map comp).mapIdx (pointUpdate i (c * comp d))).mapIdx
          (pointUpdate j (-(c * comp d))) := by
    apply List.ext_getElem?
    intro k
    simp only [List.getElem?_map, List.getElem?_mapIdx]
    cases forces[k]? with
    | none => rfl
    | some v => simp only [Option.map_some', hcomp]
  rw [hmap, sum_mapIdx_pointUpdate _ _ j (by simpa using hj),
    sum_mapIdx_pointUpdate _ _ i (by simpa using hi)]
  ring

theorem forceUpdate_components (c : α) (d : Vec3 α) (i j k : Nat) (v : Vec3 α) :
    (forceUpdate i j c d k v).x
        = pointUpdate j (-(c * d.x)) k (pointUpdate i (c * d.x) k v.x) ∧
      (forceUpdate i j c d k v).y
        = pointUpdate j (-(c * d.y)) k (pointUpdate i (c * d.y) k v.y) ∧
      (forceUpdate i j c d k v).z
        = pointUpdate j (-(c * d.z)) k (pointUpdate i (c * d.z) k v.z) := by
  unfold forceUpdate pointUpdate
  by_cases hi : k = i
  · subst hi
    by_cases hj : k = j
    · subst hj
      simp only [if_true, sub_eq_add_neg, and_self]
    · simp only [if_true, if_neg hj, and_self]
  · by_cases hj : k = j
    · subst hj
      simp only [if_true, if_neg hi, sub_eq_add_neg, and_self]
    · simp only [if_neg hi, if_neg hj, and_self]

/-- The sum of the forces is not changed by the force update of a pair. -/
theorem totalForce_forceUpdate (c : α) (d : Vec3 α) (i j : Nat) (forces : List (Vec3 α))
    (hi : i < forces.length) (hj : j < forces.length) :
    totalForce (forces.mapIdx (forceUpdate i j c d)) = totalForce forces := by
  unfold totalForce
  rw [sum_component_forceUpdate (fun v => v.x) c d i j
      (fun k v => (forceUpdate_components c d i j k v).1) forces hi hj,
    sum_component_forceUpdate (fun v => v.y) c d i j
      (fun k v => (forceUpdate_components c d i j k v).2.1) forces hi hj,
    sum_component_forceUpdate (fun v => v.z) c d i j
      (fun k v => (forceUpdate_components c d i j k v).2.2) forces hi hj]

end Sums

section Conservation

variable {α : Type} [LinearOrderedField α] [FloorRing α]

/-- A kernel call that returns leaves the sum of the forces unchanged. -/
theorem calculateOneIxn_totalForce (SQRT : α → α) (self : ReferenceLJCoulombIxn α)
    (ii jj : Int) (atomCoordinates : List (Vec3 α)) (atomParameters : List (AtomParameters α))
    (o o1 : Outputs α)
    (h : calculateOneIxn SQRT self ii jj atomCoordinates atomParameters o = some o1) :
    totalForce o1.forces = totalForce o.forces := by
  have hr := calculateOneIxn_inRange SQRT self ii jj atomCoordinates atomParameters o o1 h
  obtain ⟨xI, xJ, pI, pJ, _, _, _, _, heq⟩ :=
    calculateOneIxn_of_inRange SQRT self ii jj atomCoordinates atomParameters o hr
  rw [heq] at h
  simp only [Option.some.injEq] at h
  subst h
  exact totalForce_forceUpdate _ _ _ _ _ hr.2.2.2.2.2.2.1 hr.2.2.2.2.2.2.2.1

/-- A kernel call that returns keeps the relation "sum of the per-atom energies is twice the
total energy" when both energy outputs are supplied. -/
theorem calculateOneIxn_energy_twice (SQRT : α → α) (self : ReferenceLJCoulombIxn α)
    (ii jj : Int) (atomCoordinates : List (Vec3 α)) (atomParameters : List (AtomParameters α))
    (o o1 : Outputs α)
    (hP : ∃ b t, o.energyByAtom = some b ∧ o.totalEnergy = some t ∧ b.sum = 2 * t)
    (h : calculateOneIxn SQRT self ii jj atomCoordinates atomParameters o = some o1) :
    ∃ b t, o1.energyByAtom = some b ∧ o1.totalEnergy = some t ∧ b.sum = 2 * t := by
  have hr := calculateOneIxn_inRange SQRT self ii jj atomCoordinates atomParameters o o1 h
  obtain ⟨xI, xJ, pI, pJ, _, _, _, _, heq⟩ :=
    calculateOneIxn_of_inRange SQRT self ii jj atomCoordinates atomParameters o hr
  rw [heq] at h
  simp only [Option.some.injEq] at h
  subst h
  obtain ⟨b, t, hb, ht, hsum⟩ := hP
  obtain ⟨hbi, hbj⟩ := hr.2.2.2.2.2.2.2.2 b hb
  refine ⟨b.mapIdx (energyUpdate ii.toNat jj.toNat
      (pairEnergy self (pairDeltaR SQRT self xI xJ) pI pJ)),
    t + pairEnergy self (pairDeltaR SQRT self xI xJ) pI pJ,
    by simp only [hb, Option.map_some'], by simp only [ht, Option.map_some'], ?_⟩
  rw [sum_mapIdx_energyUpdate _ _ _ b hbi hbj, hsum]
  ring

/-- C23: per-atom energies double-count each pair. For every input in either mode, when both
energy outputs are supplied and the sum of the per-atom energies is twice the total energy
before the call (in particular when all of them are zero), then after `calculatePairIxn`
both outputs are still supplied and the sum of `energyByAtom` over all atoms equals
`2 * totalEnergy`. -/
theorem calculatePairIxn_energyByAtom_twice_total (SQRT : α → α)
    (self : ReferenceLJCoulombIxn α) (numberOfAtoms : Int) (atomCoordinates : List (Vec3 α))
    (atomParameters : List (AtomParameters α)) (exclusions : List (List Int))
    (out out1 : Outputs α) (b0 : List α) (t0 : α)
    (hb : out.energyByAtom = some b0) (ht : out.totalEnergy = some t0)
    (h0 : b0.sum = 2 * t0)
    (hrun : calculatePairIxn SQRT self numberOfAtoms atomCoordinates atomParameters
      exclusions out = some out1) :
    ∃ b1 t1, out1.energyByAtom = some b1 ∧ out1.totalEnergy = some t1 ∧ b1.sum = 2 * t1 :=
  calculatePairIxnWith_inv
    (fun o => ∃ b t, o.energyByAtom = some b ∧ o.totalEnergy = some t ∧ b.sum = 2 * t)
    (fun ii jj o => calculateOneIxn SQRT self ii jj atomCoordinates atomParameters o)
    (fun ii jj o o1 hP h =>
      calculateOneIxn_energy_twice SQRT self ii jj atomCoordinates atomParameters o o1 hP h)
    self.cutoff self.neighborList numberOfAtoms exclusions out out1 ⟨b0, t0, hb, ht, h0⟩ hrun

/-- With the field quotient for `one/r` (which is `0` at `r = 0`), a run of
`calculatePairIxn` that returns leaves the sum over all particles of each force component
unchanged. -/
theorem calculatePairIxn_totalForce_of_some (SQRT : α → α)
    (self : ReferenceLJCoulombIxn α) (numberOfAtoms : Int) (atomCoordinates : List (Vec3 α))
    (atomParameters : List (AtomParameters α)) (exclusions : List (List Int))
    (out out1 : Outputs α)
    (hrun : calculatePairIxn SQRT self numberOfAtoms atomCoordinates atomParameters
      exclusions out = some out1) :
    totalForce out1.forces = totalForce out.forces :=
  calculatePairIxnWith_inv
    (fun o => totalForce o.forces = totalForce out.forces)
    (fun ii jj o => calculateOneIxn SQRT self ii jj atomCoordinates atomParameters o)
    (fun ii jj o o1 hP h =>
      (calculateOneIxn_totalForce SQRT self ii jj atomCoordinates atomParameters o o1 h).trans
        hP)
    self.cutoff self.neighborList numberOfAtoms exclusions out out1 rfl hrun

end Conservation

/-! ## Index safety -/

theorem foldPairs_recordPair : ∀ (pairs log : List (Int × Int)),
    foldPairs recordPair pairs log = some (log ++ pairs) := by
  intro pairs
  induction pairs with
  | nil => intro log; simp [foldPairs_nil]
  | cons p ps ih =>
    intro log
    rw [foldPairs_cons]
    simp only [recordPair, Option.some_bind]
    rw [ih]
    simp

/-- A fold over pairs returns when the kernel returns on every listed pair from every state
satisfying an invariant of the kernel. -/
theorem foldPairs_some {σ : Type} (P : σ → Prop) (one : Int → Int → σ → Option σ)
    (hP : ∀ i j s s1, P s → one i j s = some s1 → P s1) :
    ∀ (pairs : List (Int × Int)) (s : σ),
      (∀ p ∈ pairs, ∀ s, P s → ∃ s1, one p.1 p.2 s = some s1) → P s →
      ∃ s1, foldPairs one pairs s = some s1 ∧ P s1 := by
  intro pairs
  induction pairs with
  | nil => intro s _ hs; exact ⟨s, rfl, hs⟩
  | cons p ps ih =>
    intro s hall hs
    obtain ⟨s1, h1⟩ := hall p (List.mem_cons_self p ps) s hs
    obtain ⟨s2, h2, hs2⟩ := ih s1 (fun q hq => hall q (List.mem_cons_of_mem p hq))
      (hP _ _ s s1 hs h1)
    refine ⟨s2, ?_, hs2⟩
    rw [foldPairs_cons, h1]
    exact h2

theorem exhaustivePairs_bounds (numberOfAtoms : Int) (exclusions : List (List Int))
    (h0 : 0 ≤ numberOfAtoms) :
    ∀ p ∈ exhaustivePairs numberOfAtoms.toNat exclusions,
      0 ≤ p.1 ∧ p.1 < numberOfAtoms ∧ 0 ≤ p.2 ∧ p.2 < numberOfAtoms := by
  intro p hp
  obtain ⟨i, j⟩ := p
  have h := (mem_exhaustivePairs numberOfAtoms.toNat exclusions i j).1 hp
  rw [Int.toNat_of_nonneg h0] at h
  obtain ⟨hi0, hij, hjn, _⟩ := h
  exact ⟨hi0, by omega, by omega, hjn⟩

theorem pairInRange_of_bounds {α : Type} (ii jj : Int) (n : Int) (atomCoordinates : List (Vec3 α))
    (atomParameters : List (AtomParameters α)) (a o : Outputs α)
    (hs : Outputs.sameShape a o)
    (hi0 : 0 ≤ ii) (hin : ii < n) (hj0 : 0 ≤ jj) (hjn : jj < n)
    (hc : n ≤ (atomCoordinates.length : Int)) (hp : n ≤ (atomParameters.length : Int))
    (hf : n ≤ (a.forces.length : Int))
    (he : ∀ b, a.energyByAtom = some b → n ≤ (b.length : Int)) :
    pairInRange ii jj atomCoordinates atomParameters o := by
  obtain ⟨hsf, hse, _⟩ := hs
  refine ⟨hi0, hj0, by omega, by omega, by omega, by omega, by omega, by omega, ?_⟩
  intro b1 hb1
  rw [hb1] at hse
  cases hb : a.energyByAtom with
  | none => simp [hb] at hse
  | some b =>
    rw [hb] at hse
    simp only [Option.map_some', Option.some.injEq] at hse
    have := he b hb
    omega

section Returns

variable {α : Type} [LinearOrderedField α] [FloorRing α]

/-- The kernel returns on every listed pair when the pairs lie in `[0, n)` and every array
has at least `n` entries; the shape of the outputs is kept. -/
theorem foldPairs_calculateOneIxn_some (SQRT : α → α) (self : ReferenceLJCoulombIxn α)
    (n : Int) (atomCoordinates : List (Vec3 α)) (atomParameters : List (AtomParameters α))
    (out : Outputs α) (pairs : List (Int × Int))
    (hpairs : ∀ p ∈ pairs, 0 ≤ p.1 ∧ p.1 < n ∧ 0 ≤ p.2 ∧ p.2 < n)
    (hc : n ≤ (atomCoordinates.length : Int)) (hp : n ≤ (atomParameters.length : Int))
    (hf : n ≤ (out.forces.length : Int))
    (he : ∀ b, out.energyByAtom = some b → n ≤ (b.length : Int)) :
    ∃ out1, foldPairs
        (fun ii jj o => calculateOneIxn SQRT self ii jj atomCoordinates atomParameters o)
        pairs out = some out1 ∧ Outputs.sameShape out out1 := by
  refine foldPairs_some (fun o => Outputs.sameShape out o) _
    (fun ii jj o o1 hs h =>
      calculateOneIxn_shape SQRT self ii jj atomCoordinates atomParameters out o o1 hs h)
    pairs out ?_ ⟨rfl, rfl, rfl⟩
  intro p hp1 o hs
  obtain ⟨h1, h2, h3, h4⟩ := hpairs p hp1
  have hr := pairInRange_of_bounds p.1 p.2 n atomCoordinates atomParameters out o hs
    h1 h2 h3 h4 hc hp hf he
  obtain ⟨_, _, _, _, _, _, _, _, heq⟩ :=
    calculateOneIxn_of_inRange SQRT self p.1 p.2 atomCoordinates atomParameters o hr
  exact ⟨_, heq⟩

/-- In cutoff mode `calculatePairIxn` returns when the listed pairs lie in `[0, n)` and
every array has at least `n` entries. -/
theorem calculatePairIxn_cutoff_some (SQRT : α → α) (self : ReferenceLJCoulombIxn α)
    (n numberOfAtoms : Int) (atomCoordinates : List (Vec3 α))
    (atomParameters : List (AtomParameters α)) (exclusions : List (List Int))
    (out : Outputs α) (hcut : self.cutoff = true)
    (hpairs : ∀ p ∈ self.neighborList, 0 ≤ p.1 ∧ p.1 < n ∧ 0 ≤ p.2 ∧ p.2 < n)
    (hc : n ≤ (atomCoordinates.length : Int)) (hp : n ≤ (atomParameters.length : Int))
    (hf : n ≤ (out.forces.length : Int))
    (he : ∀ b, out.energyByAtom = some b → n ≤ (b.length : Int)) :
    ∃ out1, calculatePairIxn SQRT self numberOfAtoms atomCoordinates atomParameters
      exclusions out = some out1 := by
  obtain ⟨out1, h, _⟩ := foldPairs_calculateOneIxn_some SQRT self n atomCoordinates
    atomParameters out self.neighborList hpairs hc hp hf he
  refine ⟨out1, ?_⟩
  unfold calculatePairIxn
  rw [hcut, calculatePairIxnWith_cutoff]
  exact h

/-- In exhaustive mode `calculatePairIxn` returns when the exclusion table is well formed
and every array has at least `numberOfAtoms` entries. -/
theorem calculatePairIxn_exhaustive_some (SQRT : α → α) (self : ReferenceLJCoulombIxn α)
    (numberOfAtoms : Int) (atomCoordinates : List (Vec3 α))
    (atomParameters : List (AtomParameters α)) (exclusions : List (List Int))
    (out : Outputs α) (hcut : self.cutoff = false)
    (hwf : exclusionsWellFormed numberOfAtoms exclusions = true)
    (hc : numberOfAtoms ≤ (atomCoordinates.length : Int))
    (hp : numberOfAtoms ≤ (atomParameters.length : Int))
    (hf : numberOfAtoms ≤ (out.forces.length : Int))
    (he : ∀ b, out.energyByAtom = some b → numberOfAtoms ≤ (b.length : Int)) :
    ∃ out1, calculatePairIxn SQRT self numberOfAtoms atomCoordinates atomParameters
      exclusions out = some out1 := by
  have h0 : 0 ≤ numberOfAtoms := (exclusionsWellFormed_row _ _ hwf).1
  obtain ⟨out1, h, _⟩ := foldPairs_calculateOneIxn_some SQRT self numberOfAtoms
    atomCoordinates atomParameters out (exhaustivePairs numberOfAtoms.toNat exclusions)
    (exhaustivePairs_bounds numberOfAtoms exclusions h0) hc hp hf he
  refine ⟨out1, ?_⟩
  unfold calculatePairIxn
  rw [hcut, calculatePairIxnWith_exhaustive _ _ _ _ _ hwf]
  exact h

end Returns

/-- C25: index safety of exhaustive mode. For a well-formed exclusion table
(`numberOfAtoms >= 0`, every row holding its count followed by that many entries, every
listed entry in `[0, numberOfAtoms)`): the run fails on no access to the exclusion rows or to
the scratch array, so it returns for every kernel that returns on atom indices in
`[0, numberOfAtoms)`; the pairs handed to the kernel are those of `exhaustivePairs`, all
with both indices in `[0, numberOfAtoms)`; and with arrays of at least `numberOfAtoms`
entries `calculatePairIxn` itself returns. -/
theorem calculatePairIxn_exhaustive_indices_in_range (α : Type) [LinearOrderedField α]
    [FloorRing α] (numberOfAtoms : Int) (exclusions : List (List Int))
    (hwf : exclusionsWellFormed numberOfAtoms exclusions = true) :
    (∀ (σ : Type) (one : Int → Int → σ → Option σ) (neighborList : List (Int × Int)) (s : σ),
      (∀ i j s, 0 ≤ i → i < numberOfAtoms → 0 ≤ j → j < numberOfAtoms →
        ∃ s1, one i j s = some s1) →
      ∃ s1, calculatePairIxnWith one false neighborList numberOfAtoms exclusions s
        = some s1) ∧
    (∀ neighborList : List (Int × Int),
      calculatePairIxnWith recordPair false neighborList numberOfAtoms exclusions []
        = some (exhaustivePairs numberOfAtoms.toNat exclusions)) ∧
    (∀ p ∈ exhaustivePairs numberOfAtoms.toNat exclusions,
      0 ≤ p.1 ∧ p.1 < numberOfAtoms ∧ 0 ≤ p.2 ∧ p.2 < numberOfAtoms) ∧
    (∀ (SQRT : α → α) (self : ReferenceLJCoulombIxn α) (atomCoordinates : List (Vec3 α))
        (atomParameters : List (AtomParameters α)) (out : Outputs α),
      self.cutoff = false →
      numberOfAtoms ≤ (atomCoordinates.length : Int) →
      numberOfAtoms ≤ (atomParameters.length : Int) →
      numberOfAtoms ≤ (out.forces.length : Int) →
      (∀ b, out.energyByAtom = some b → numberOfAtoms ≤ (b.length : Int)) →
      ∃ out1, calculatePairIxn SQRT self numberOfAtoms atomCoordinates atomParameters
        exclusions out = some out1) := by
  have h0 : 0 ≤ numberOfAtoms := (exclusionsWellFormed_row _ _ hwf).1
  have hb := exhaustivePairs_bounds numberOfAtoms exclusions h0
  refine ⟨?_, ?_, hb, ?_⟩
  · intro σ one neighborList s hone
    rw [calculatePairIxnWith_exhaustive one neighborList numberOfAtoms exclusions s hwf]
    obtain ⟨s1, h1, _⟩ := foldPairs_some (fun _ => True) one (fun _ _ _ _ _ _ => trivial)
      (exhaustivePairs numberOfAtoms.toNat exclusions) s
      (fun p hp s _ =>
        hone p.1 p.2 s (hb p hp).1 (hb p hp).2.1 (hb p hp).2.2.1 (hb p hp).2.2.2)
      trivial
    exact ⟨s1, h1⟩
  · intro neighborList
    rw [calculatePairIxnWith_exhaustive recordPair neighborList numberOfAtoms exclusions [] hwf,
      foldPairs_recordPair]
    simp
  · intro SQRT self atomCoordinates atomParameters out hcut hc hp hf he
    exact calculatePairIxn_exhaustive_some SQRT self numberOfAtoms atomCoordinates
      atomParameters exclusions out hcut hwf hc hp hf he

/-- Witness for C25: two atoms without exclusions; the kernel is handed the pair `(0, 1)`
and `calculatePairIxn` returns on the example arrays. -/
theorem calculatePairIxn_exhaustive_indices_in_range_witness :
    exclusionsWellFormed 2 [[0], [0]] = true ∧
      calculatePairIxnWith recordPair false [] 2 [[0], [0]] [] = some [(0, 1)] ∧
      ∃ out1, calculatePairIxn (fun (a : ℚ) => a) (exampleIxn ℚ) 2 (exampleCoordinates ℚ)
        (exampleParameters ℚ) [[0], [0]] (exampleOutputs ℚ) = some out1 :=
  have h := calculatePairIxn_exhaustive_indices_in_range ℚ 2 [[0], [0]] (by decide)
  ⟨by decide, (h.2.1 []).trans (by decide),
    h.2.2.2 (fun (a : ℚ) => a) (exampleIxn ℚ) (exampleCoordinates ℚ) (exampleParameters ℚ)
      (exampleOutputs ℚ) rfl (by decide) (by decide) (by decide)
      (by intro b hb; simp only [exampleOutputs, Option.some.injEq] at hb; subst hb; decide)⟩

/-- Witness for C23: the cutoff example with a repeated pair and a pair of an atom with
itself, both energy outputs supplied and zero. -/
theorem calculatePairIxn_energyByAtom_twice_total_witness :
    ∃ out1 b1 t1,
      calculatePairIxn (fun (a : ℚ) => a) (exampleRepeatIxn ℚ) 2 (exampleCoordinates ℚ)
        (exampleParameters ℚ) [] (exampleOutputs ℚ) = some out1 ∧
      out1.energyByAtom = some b1 ∧ out1.totalEnergy = some t1 ∧ b1.sum = 2 * t1 :=
  (calculatePairIxn_cutoff_some (fun (a : ℚ) => a) (exampleRepeatIxn ℚ) 2 2
    (exampleCoordinates ℚ) (exampleParameters ℚ) [] (exampleOutputs ℚ) rfl
    (by decide) (by decide) (by decide) (by decide)
    (by intro b hb; simp only [exampleOutputs, Option.some.injEq] at hb; subst hb; decide)).elim
    (fun out1 hrun =>
      (calculatePairIxn_energyByAtom_twice_total (fun (a : ℚ) => a) (exampleRepeatIxn ℚ) 2
        (exampleCoordinates ℚ) (exampleParameters ℚ) [] (exampleOutputs ℚ) out1 [0, 0] 0
        rfl rfl (by norm_num) hrun).elim
        (fun b1 h => h.elim (fun t1 h2 => ⟨out1, b1, t1, hrun, h2.1, h2.2.1, h2.2.2⟩)))

/-! ## Net force and zero separation -/

theorem forLoop_mono {σ : Type} (body body1 : Int → σ → Option σ)
    (h : ∀ i s s1, body i s = some s1 → body1 i s = some s1) :
    ∀ (n : Nat) (i : Int) (s s1 : σ),
      forLoop body n i s = some s1 → forLoop body1 n i s = some s1 := by
  intro n
  induction n with
  | zero => intro i s s1 hs; exact hs
  | succ n ih =>
    intro i s s1 hs
    rw [forLoop_succ, Option.bind_eq_some] at hs
    obtain ⟨s2, h2, h3⟩ := hs
    rw [forLoop_succ, h i s s2 h2]
    exact ih (i + 1) s2 s1 h3

theorem exhaustiveRow_mono {σ : Type} (one one1 : Int → Int → σ → Option σ)
    (h : ∀ i j s s1, one i j s = some s1 → one1 i j s = some s1)
    (exclusions : List (List Int)) (numberOfAtoms ii : Int) (st st1 : List Int × σ)
    (hr : exhaustiveRow one exclusions numberOfAtoms ii st = some st1) :
    exhaustiveRow one1 exclusions numberOfAtoms ii st = some st1 := by
  simp only [exhaustiveRow, Option.bind_eq_some] at hr ⊢
  obtain ⟨row, hrow, count, hcount, ex, hex, s1, hinner, hst⟩ := hr
  refine ⟨row, hrow, count, hcount, ex, hex, s1, ?_, hst⟩
  refine forLoop_mono _ _ ?_ _ _ _ _ hinner
  intro jj s s2 hb
  simp only [Option.bind_eq_some] at hb ⊢
  obtain ⟨owner, ho, hrun⟩ := hb
  refine ⟨owner, ho, ?_⟩
  by_cases hc : owner ≠ ii
  · rw [if_pos hc] at hrun ⊢
    exact h _ _ _ _ hrun
  · rw [if_neg hc] at hrun ⊢
    exact hrun

/-- A kernel that returns whatever another kernel returns gives the same result in the whole
pair loop. -/
theorem calculatePairIxnWith_mono {σ : Type} (one one1 : Int → Int → σ → Option σ)
    (h : ∀ i j s s1, one i j s = some s1 → one1 i j s = some s1)
    (cutoff : Bool) (neighborList : List (Int × Int)) (numberOfAtoms : Int)
    (exclusions : List (List Int)) (s s1 : σ)
    (hr : calculatePairIxnWith one cutoff neighborList numberOfAtoms exclusions s = some s1) :
    calculatePairIxnWith one1 cutoff neighborList numberOfAtoms exclusions s = some s1 := by
  cases cutoff with
  | true =>
    rw [calculatePairIxnWith_withCutoff] at hr ⊢
    refine forLoop_mono _ _ ?_ _ _ _ _ hr
    intro i s0 s2 hb
    simp only [Option.bind_eq_some] at hb ⊢
    obtain ⟨pair, hp, hrun⟩ := hb
    exact ⟨pair, hp, h _ _ _ _ hrun⟩
  | false =>
    rw [calculatePairIxnWith_noCutoff] at hr ⊢
    by_cases hN : numberOfAtoms < 0
    · rw [if_pos hN] at hr
      cases hr
    · rw [if_neg hN] at hr ⊢
      simp only [Option.bind_eq_some, Option.some.injEq] at hr ⊢
      obtain ⟨ex, hex, r, hr1, hr2⟩ := hr
      exact ⟨ex, hex, r,
        forLoop_mono _ _
          (fun ii st st1 hb =>
            exhaustiveRow_mono one one1 h exclusions numberOfAtoms ii st st1 hb)
          _ _ _ _ hr1, hr2⟩

section Checked

variable {α : Type} [LinearOrderedField α] [FloorRing α]

/-- What the checked kernel returns, the unchecked kernel returns. -/
theorem calculateOneIxnChecked_some (SQRT : α → α) (self : ReferenceLJCoulombIxn α)
    (ii jj : Int) (atomCoordinates : List (Vec3 α)) (atomParameters : List (AtomParameters α))
    (o o1 : Outputs α)
    (h : calculateOneIxnChecked SQRT self ii jj atomCoordinates atomParameters o = some o1) :
    calculateOneIxn SQRT self ii jj atomCoordinates atomParameters o = some o1 := by
  simp only [calculateOneIxnChecked, Option.bind_eq_bind, Option.bind_eq_some] at h
  obtain ⟨xJ, _, xI, _, r, _, h⟩ := h
  exact h

/-- For a nonzero separation the checked kernel is the kernel. -/
theorem calculateOneIxnChecked_of_ne (SQRT : α → α) (self : ReferenceLJCoulombIxn α)
    (ii jj : Int) (atomCoordinates : List (Vec3 α)) (atomParameters : List (AtomParameters α))
    (o : Outputs α) (xI xJ : Vec3 α) (hI : getAt atomCoordinates ii = some xI)
    (hJ : getAt atomCoordinates jj = some xJ)
    (hne : (pairDeltaR SQRT self xI xJ).RIndex ≠ 0) :
    calculateOneIxnChecked SQRT self ii jj atomCoordinates atomParameters o
      = calculateOneIxn SQRT self ii jj atomCoordinates atomParameters o := by
  simp only [calculateOneIxnChecked, Option.bind_eq_bind, hI, hJ, Option.some_bind,
    checkedDiv, if_neg hne]

/-- For a zero separation the checked kernel has no result. -/
theorem calculateOneIxnChecked_zero (SQRT : α → α) (self : ReferenceLJCoulombIxn α)
    (ii jj : Int) (atomCoordinates : List (Vec3 α)) (atomParameters : List (AtomParameters α))
    (o : Outputs α) (xI xJ : Vec3 α) (hI : getAt atomCoordinates ii = some xI)
    (hJ : getAt atomCoordinates jj = some xJ)
    (h0 : (pairDeltaR SQRT self xI xJ).RIndex = 0) :
    calculateOneIxnChecked SQRT self ii jj atomCoordinates atomParameters o = none := by
  simp only [calculateOneIxnChecked, Option.bind_eq_bind, hI, hJ, Option.some_bind,
    checkedDiv, if_pos h0, Option.none_bind]

/-- A listed pair with zero separation leaves the fold of the checked kernel without a
result, wherever it stands in the list. -/
theorem foldPairs_calculateOneIxnChecked_none (SQRT : α → α)
    (self : ReferenceLJCoulombIxn α) (atomCoordinates : List (Vec3 α))
    (atomParameters : List (AtomParameters α)) (p : Int × Int) (xI xJ : Vec3 α)
    (hI : getAt atomCoordinates p.1 = some xI) (hJ : getAt atomCoordinates p.2 = some xJ)
    (h0 : (pairDeltaR SQRT self xI xJ).RIndex = 0) :
    ∀ (pairs : List (Int × Int)) (out : Outputs α), p ∈ pairs →
      foldPairs
        (fun ii jj o =>
          calculateOneIxnChecked SQRT self ii jj atomCoordinates atomParameters o)
        pairs out = none := by
  intro pairs
  induction pairs with
  | nil => intro out hp; cases hp
  | cons q qs ih =>
    intro out hp
    rw [foldPairs_cons]
    rcases List.mem_cons.1 hp with hq | hq
    · subst hq
      rw [calculateOneIxnChecked_zero SQRT self p.1 p.2 atomCoordinates atomParameters out
        xI xJ hI hJ h0]
      rfl
    · cases calculateOneIxnChecked SQRT self q.1 q.2 atomCoordinates atomParameters out with
      | none => rfl
      | some o => exact ih o hq

/-- In cutoff mode a listed pair with zero separation leaves the checked run without a
result. -/
theorem calculatePairIxnChecked_cutoff_none (SQRT : α → α) (self : ReferenceLJCoulombIxn α)
    (numberOfAtoms : Int) (atomCoordinates : List (Vec3 α))
    (atomParameters : List (AtomParameters α)) (exclusions : List (List Int))
    (out : Outputs α) (hcut : self.cutoff = true) (p : Int × Int) (xI xJ : Vec3 α)
    (hp : p ∈ self.neighborList)
    (hI : getAt atomCoordinates p.1 = some xI) (hJ : getAt atomCoordinates p.2 = some xJ)
    (h0 : (pairDeltaR SQRT self xI xJ).RIndex = 0) :
    calculatePairIxnChecked SQRT self numberOfAtoms atomCoordinates atomParameters
      exclusions out = none := by
  unfold calculatePairIxnChecked
  rw [hcut, calculatePairIxnWith_cutoff]
  exact foldPairs_calculateOneIxnChecked_none SQRT self atomCoordinates atomParameters p
    xI xJ hI hJ h0 self.neighborList out hp

/-- The checked kernel returns on every listed pair when the pairs lie in `[0, n)`, every
array has at least `n` entries and every listed pair has a nonzero separation. -/
theorem foldPairs_calculateOneIxnChecked_some (SQRT : α → α) (self : ReferenceLJCoulombIxn α)
    (n : Int) (atomCoordinates : List (Vec3 α)) (atomParameters : List (AtomParameters α))
    (out : Outputs α) (pairs : List (Int × Int))
    (hpairs : ∀ p ∈ pairs, 0 ≤ p.1 ∧ p.1 < n ∧ 0 ≤ p.2 ∧ p.2 < n)
    (hsep : ∀ p ∈ pairs, ∀ xI xJ, getAt atomCoordinates p.1 = some xI →
      getAt atomCoordinates p.2 = some xJ → (pairDeltaR SQRT self xI xJ).RIndex ≠ 0)
    (hc : n ≤ (atomCoordinates.length : Int)) (hp : n ≤ (atomParameters.length : Int))
    (hf : n ≤ (out.forces.length : Int))
    (he : ∀ b, out.energyByAtom = some b → n ≤ (b.length : Int)) :
    ∃ out1, foldPairs
        (fun ii jj o =>
          calculateOneIxnChecked SQRT self ii jj atomCoordinates atomParameters o)
        pairs out = some out1 ∧ Outputs.sameShape out out1 := by
  refine foldPairs_some (fun o => Outputs.sameShape out o) _
    (fun ii jj o o1 hs h =>
      calculateOneIxn_shape SQRT self ii jj atomCoordinates atomParameters out o o1 hs
        (calculateOneIxnChecked_some SQRT self ii jj atomCoordinates atomParameters o o1 h))
    pairs out ?_ ⟨rfl, rfl, rfl⟩
  intro p hp1 o hs
  obtain ⟨h1, h2, h3, h4⟩ := hpairs p hp1
  have hr := pairInRange_of_bounds p.1 p.2 n atomCoordinates atomParameters out o hs
    h1 h2 h3 h4 hc hp hf he
  obtain ⟨xI, xJ, _, _, hxI, hxJ, _, _, heq⟩ :=
    calculateOneIxn_of_inRange SQRT self p.1 p.2 atomCoordinates atomParameters o hr
  have hI : getAt atomCoordinates p.1 = some xI := by simp only [getAt, if_pos h1, hxI]
  have hJ : getAt atomCoordinates p.2 = some xJ := by simp only [getAt, if_pos h3, hxJ]
  have hck := calculateOneIxnChecked_of_ne SQRT self p.1 p.2 atomCoordinates atomParameters o
    xI xJ hI hJ (hsep p hp1 xI xJ hI hJ)
  exact ⟨_, hck.trans heq⟩

/-- In cutoff mode the checked run returns when the listed pairs lie in `[0, n)`, every
array has at least `n` entries and every listed pair has a nonzero separation. -/
theorem calculatePairIxnChecked_cutoff_some (SQRT : α → α) (self : ReferenceLJCoulombIxn α)
    (n numberOfAtoms : Int) (atomCoordinates : List (Vec3 α))
    (atomParameters : List (AtomParameters α)) (exclusions : List (List Int))
    (out : Outputs α) (hcut : self.cutoff = true)
    (hpairs : ∀ p ∈ self.neighborList, 0 ≤ p.1 ∧ p.1 < n ∧ 0 ≤ p.2 ∧ p.2 < n)
    (hsep : ∀ p ∈ self.neighborList, ∀ xI xJ, getAt atomCoordinates p.1 = some xI →
      getAt atomCoordinates p.2 = some xJ → (pairDeltaR SQRT self xI xJ).RIndex ≠ 0)
    (hc : n ≤ (atomCoordinates.length : Int)) (hp : n ≤ (atomParameters.length : Int))
    (hf : n ≤ (out.forces.length : Int))
    (he : ∀ b, out.energyByAtom = some b → n ≤ (b.length : Int)) :
    ∃ out1, calculatePairIxnChecked SQRT self numberOfAtoms atomCoordinates atomParameters
      exclusions out = some out1 := by
  obtain ⟨out1, h, _⟩ := foldPairs_calculateOneIxnChecked_some SQRT self n atomCoordinates
    atomParameters out self.neighborList hpairs hsep hc hp hf he
  refine ⟨out1, ?_⟩
  unfold calculatePairIxnChecked
  rw [hcut, calculatePairIxnWith_cutoff]
  exact h

/-- In exhaustive mode the checked run returns when the exclusion table is well formed,
every array has at least `numberOfAtoms` entries and any two atoms `i < j` below
`numberOfAtoms` have a nonzero separation. -/
theorem calculatePairIxnChecked_exhaustive_some (SQRT : α → α)
    (self : ReferenceLJCoulombIxn α) (numberOfAtoms : Int) (atomCoordinates : List (Vec3 α))
    (atomParameters : List (AtomParameters α)) (exclusions : List (List Int))
    (out : Outputs α) (hcut : self.cutoff = false)
    (hwf : exclusionsWellFormed numberOfAtoms exclusions = true)
    (hsep : ∀ i j : Int, i < j → ∀ xI xJ, getAt atomCoordinates i = some xI →
      getAt atomCoordinates j = some xJ → (pairDeltaR SQRT self xI xJ).RIndex ≠ 0)
    (hc : numberOfAtoms ≤ (atomCoordinates.length : Int))
    (hp : numberOfAtoms ≤ (atomParameters.length : Int))
    (hf : numberOfAtoms ≤ (out.forces.length : Int))
    (he : ∀ b, out.energyByAtom = some b → numberOfAtoms ≤ (b.length : Int)) :
    ∃ out1, calculatePairIxnChecked SQRT self numberOfAtoms atomCoordinates atomParameters
      exclusions out = some out1 := by
  have h0 : 0 ≤ numberOfAtoms := (exclusionsWellFormed_row _ _ hwf).1
  obtain ⟨out1, h, _⟩ := foldPairs_calculateOneIxnChecked_some SQRT self numberOfAtoms
    atomCoordinates atomParameters out (exhaustivePairs numberOfAtoms.toNat exclusions)
    (exhaustivePairs_bounds numberOfAtoms exclusions h0)
    (fun p hp1 xI xJ hI hJ =>
      hsep p.1 p.2
        ((mem_exhaustivePairs numberOfAtoms.toNat exclusions p.1 p.2).1 hp1).2.1 xI xJ hI hJ)
    hc hp hf he
  refine ⟨out1, ?_⟩
  unfold calculatePairIxnChecked
  rw [hcut, calculatePairIxnWith_exhaustive _ _ _ _ _ hwf]
  exact h

end Checked

/-- Counterexample to C24 as stated (the pair of an atom with itself): the neighbor list
`(0, 1), (0, 1), (1, 1)` on two atoms has every index inside every array, so the run with the
unchecked quotient returns; the pair `(1, 1)` has separation `sqrt 0 = 0`, so
`calculateOneIxn` divides `one` by zero there and the checked run has no result: no output
exists whose net force equals the net force before the call. -/
theorem calculatePairIxnChecked_self_pair_undefined :
    ((1 : Int), (1 : Int)) ∈ (exampleRepeatIxn ℝ).neighborList ∧
      getAt (exampleCoordinates ℝ) 1 = some ⟨0, 0, 0⟩ ∧
      (pairDeltaR Real.sqrt (exampleRepeatIxn ℝ) ⟨0, 0, 0⟩ ⟨0, 0, 0⟩).RIndex = 0 ∧
      (∃ out1, calculatePairIxn Real.sqrt (exampleRepeatIxn ℝ) 2 (exampleCoordinates ℝ)
        (exampleParameters ℝ) [] (exampleOutputs ℝ) = some out1) ∧
      calculatePairIxnChecked Real.sqrt (exampleRepeatIxn ℝ) 2 (exampleCoordinates ℝ)
        (exampleParameters ℝ) [] (exampleOutputs ℝ) = none ∧
      ¬ ∃ out1, calculatePairIxnChecked Real.sqrt (exampleRepeatIxn ℝ) 2
          (exampleCoordinates ℝ) (exampleParameters ℝ) [] (exampleOutputs ℝ) = some out1 ∧
        totalForce out1.forces = totalForce (exampleOutputs ℝ).forces := by
  have hmem : ((1 : Int), (1 : Int)) ∈ (exampleRepeatIxn ℝ).neighborList := by
    simp [exampleRepeatIxn]
  have hx : getAt (exampleCoordinates ℝ) 1 = some ⟨0, 0, 0⟩ := by
    simp [getAt, exampleCoordinates]
  have h0 : (pairDeltaR Real.sqrt (exampleRepeatIxn ℝ) ⟨0, 0, 0⟩ ⟨0, 0, 0⟩).RIndex = 0 := by
    simp [pairDeltaR, getDeltaR, exampleRepeatIxn]
  have hnone := calculatePairIxnChecked_cutoff_none Real.sqrt (exampleRepeatIxn ℝ) 2
    (exampleCoordinates ℝ) (exampleParameters ℝ) [] (exampleOutputs ℝ) rfl (1, 1)
    ⟨0, 0, 0⟩ ⟨0, 0, 0⟩ hmem hx hx h0
  refine ⟨hmem, hx, h0, ?_, hnone, ?_⟩
  · refine calculatePairIxn_cutoff_some Real.sqrt (exampleRepeatIxn ℝ) 2 2
      (exampleCoordinates ℝ) (exampleParameters ℝ) [] (exampleOutputs ℝ) rfl ?_
      (by simp [exampleCoordinates]) (by simp [exampleParameters])
      (by simp [exampleOutputs]) ?_
    · intro p hp
      simp only [exampleRepeatIxn, List.mem_cons, List.mem_singleton, List.not_mem_nil,
        or_false] at hp
      rcases hp with hp | hp | hp <;> subst hp <;> decide
    · intro b hb
      simp only [exampleOutputs, Option.some.injEq] at hb
      subst hb
      decide
  · rintro ⟨out1, h, _⟩
    rw [hnone] at h
    cases h

/-- C24 (amended): net force is conserved on every input on which no evaluated pair has
zero separation. For every input in either mode (any neighbor list, repeated pairs included,
and any exclusion table) on which the run with the checked division returns, that is, on
which every index is in range and every pair handed to `calculateOneIxn` has a nonzero
separation, `calculatePairIxn` returns the same outputs and the sum over all particles of
each force component after the call equals that sum before the call. -/
theorem calculatePairIxnChecked_totalForce_conserved {α : Type} [LinearOrderedField α]
    [FloorRing α] (SQRT : α → α) (self : ReferenceLJCoulombIxn α) (numberOfAtoms : Int)
    (atomCoordinates : List (Vec3 α)) (atomParameters : List (AtomParameters α))
    (exclusions : List (List Int)) (out out1 : Outputs α)
    (hrun : calculatePairIxnChecked SQRT self numberOfAtoms atomCoordinates atomParameters
      exclusions out = some out1) :
    calculatePairIxn SQRT self numberOfAtoms atomCoordinates atomParameters exclusions out
        = some out1 ∧
      totalForce out1.forces = totalForce out.forces := by
  have h1 : calculatePairIxn SQRT self numberOfAtoms atomCoordinates atomParameters
      exclusions out = some out1 :=
    calculatePairIxnWith_mono _ _
      (fun ii jj o o1 h =>
        calculateOneIxnChecked_some SQRT self ii jj atomCoordinates atomParameters o o1 h)
      _ _ _ _ _ _ hrun
  exact ⟨h1, calculatePairIxn_totalForce_of_some SQRT self numberOfAtoms atomCoordinates
    atomParameters exclusions out out1 h1⟩

/-- The two example atoms are at distance 1, so the repeated pair `(0, 1)` has a nonzero
separation. -/
theorem exampleRepeatedPair_separation :
    ∀ p ∈ (exampleRepeatedPairIxn ℝ).neighborList, ∀ xI xJ,
      getAt (exampleCoordinates ℝ) p.1 = some xI →
      getAt (exampleCoordinates ℝ) p.2 = some xJ →
      (pairDeltaR Real.sqrt (exampleRepeatedPairIxn ℝ) xI xJ).RIndex ≠ 0 := by
  intro p hp xI xJ hI hJ
  have hp1 : p = (0, 1) := by
    simpa [exampleRepeatedPairIxn] using hp
  subst hp1
  simp [getAt, exampleCoordinates] at hI hJ
  subst hI
  subst hJ
  simp [pairDeltaR, getDeltaR, exampleRepeatedPairIxn]

/-- Witness for C24 (amended): the neighbor list holding the pair `(0, 1)` twice, two atoms
at distance 1, with the real square root. -/
theorem calculatePairIxnChecked_totalForce_conserved_witness :
    ∃ out1,
      calculatePairIxnChecked Real.sqrt (exampleRepeatedPairIxn ℝ) 2 (exampleCoordinates ℝ)
        (exampleParameters ℝ) [] (exampleOutputs ℝ) = some out1 ∧
      calculatePairIxn Real.sqrt (exampleRepeatedPairIxn ℝ) 2 (exampleCoordinates ℝ)
        (exampleParameters ℝ) [] (exampleOutputs ℝ) = some out1 ∧
      totalForce out1.forces = totalForce (exampleOutputs ℝ).forces :=
  (calculatePairIxnChecked_cutoff_some Real.sqrt (exampleRepeatedPairIxn ℝ) 2 2
    (exampleCoordinates ℝ) (exampleParameters ℝ) [] (exampleOutputs ℝ) rfl
    (by
      intro p hp
      have hp1 : p = (0, 1) := by simpa [exampleRepeatedPairIxn] using hp
      subst hp1
      decide)
    exampleRepeatedPair_separation
    (by simp [exampleCoordinates]) (by simp [exampleParameters]) (by simp [exampleOutputs])
    (by intro b hb; simp only [exampleOutputs, Option.some.injEq] at hb; subst hb; decide)).elim
    (fun out1 hrun =>
      ⟨out1, hrun,
        calculatePairIxnChecked_totalForce_conserved Real.sqrt (exampleRepeatedPairIxn ℝ) 2
          (exampleCoordinates ℝ) (exampleParameters ℝ) [] (exampleOutputs ℝ) out1 hrun⟩)

end OpenMM
